import Mathlib

/-! # kube-scheduler-simulator: snapshot export / import, store of extender results

A shallow embedding of `simulator/export/export.go` (first part) and of
`simulator/scheduler/extender/resultstore/resultstore.go` (second part, with
its own conventions stated where it starts).

* Go strings are Lean strings, Go slices are lists (a nil slice and an empty
  slice are both the empty list), a Go pointer that may be nil is an `Option`.
* The ports (`PodService`, `NodeService`, ..., `SchedulerService` and the
  namespace client) are external.  A run calls every `List` port, the
  scheduler port and, for every item of an import, its `Apply` port at most
  once, so the behaviour of the ports in a run is given by the response to
  each of these calls; a `Service` value holds those responses.
* The tasks handed to the error group run concurrently.  A task is a state
  transformer, the group keeps the dispatched tasks, and `Wait` lets them
  complete in an order chosen by the `Executor`.
* A nil dereference is the result `panic`.
-/

set_option linter.dupNamespace false

namespace Simulator.Export

/-! ## Errors -/

/-- Go `error` values: the sentinel `scheduler.ErrServiceDisabled`, an error
produced by a port or by the executor, and `xerrors.Errorf("<msg>: %w", err)`. -/
inductive Error where
  | ErrServiceDisabled : Error
  | backend (msg : String) : Error
  | Errorf (msg : String) (err : Error) : Error
deriving DecidableEq, Repr

/-- Go `errors.Is(err, target)`: `target` occurs in the `%w` chain of `err`. -/
def Error.Is : Error → Error → Bool
  | .Errorf msg err, target => (Error.Errorf msg err == target) || err.Is target
  | err, target => err == target

/-- What a Go function whose only result is an `error` does: it returns nil,
returns an error, or dereferences a nil pointer. -/
inductive Result where
  | ok : Result
  | error (err : Error) : Result
  | panic : Result
deriving DecidableEq, Repr

/-! ## Resources -/

/-- The `metav1.ObjectMeta` fields the service reads. -/
structure ObjectMeta where
  Name : String
  Namespace : String
  UID : String
deriving DecidableEq, Repr

/-- A listed object (`corev1.Pod`, `corev1.Node`, ...): its metadata and the
remaining fields, which the service never inspects. -/
structure Object where
  ObjectMeta : ObjectMeta
  body : String
deriving DecidableEq, Repr

abbrev Pod := Object
abbrev Node := Object
abbrev PersistentVolume := Object
abbrev PersistentVolumeClaim := Object
abbrev StorageClass := Object
abbrev PriorityClass := Object
abbrev Namespace := Object

/-- The scheduler configuration `v1beta2config.KubeSchedulerConfiguration`,
passed through unread. -/
structure KubeSchedulerConfiguration where
  body : String
deriving DecidableEq, Repr

/-- The type `ResourcesForExport`. -/
structure ResourcesForExport where
  Pods : List Pod := []
  Nodes : List Node := []
  Pvs : List PersistentVolume := []
  Pvcs : List PersistentVolumeClaim := []
  StorageClasses : List StorageClass := []
  PriorityClasses : List PriorityClass := []
  SchedulerConfig : Option KubeSchedulerConfiguration := none
  Namespaces : List Namespace := []
deriving DecidableEq, Repr

/-- The type `ObjectMetaApplyConfiguration`: every field is a pointer. -/
structure ObjectMetaApplyConfiguration where
  Name : Option String
  Namespace : Option String
  UID : Option String
deriving DecidableEq, Repr

/-- An apply configuration (`v1.PodApplyConfiguration`, ...): the inlined type
meta, the embedded pointer to the object meta, and the remaining fields. -/
structure ApplyConfiguration where
  Kind : Option String
  APIVersion : Option String
  ObjectMetaApplyConfiguration : Option ObjectMetaApplyConfiguration
  body : String
deriving DecidableEq, Repr

abbrev PodApplyConfiguration := ApplyConfiguration
abbrev NodeApplyConfiguration := ApplyConfiguration
abbrev PersistentVolumeClaimApplyConfiguration := ApplyConfiguration
abbrev StorageClassApplyConfiguration := ApplyConfiguration
abbrev PriorityClassApplyConfiguration := ApplyConfiguration
abbrev NamespaceApplyConfiguration := ApplyConfiguration

/-- The type `v1.ObjectReferenceApplyConfiguration` (the claim reference). -/
structure ObjectReferenceApplyConfiguration where
  Name : Option String
  Namespace : Option String
  UID : Option String
deriving DecidableEq, Repr

/-- The type `v1.PersistentVolumeSpecApplyConfiguration`. -/
structure PersistentVolumeSpecApplyConfiguration where
  ClaimRef : Option ObjectReferenceApplyConfiguration
  body : String
deriving DecidableEq, Repr

/-- The type `v1.PersistentVolumeStatusApplyConfiguration`. -/
structure PersistentVolumeStatusApplyConfiguration where
  Phase : Option String
deriving DecidableEq, Repr

/-- The type `v1.PersistentVolumeApplyConfiguration`. -/
structure PersistentVolumeApplyConfiguration where
  Kind : Option String
  APIVersion : Option String
  ObjectMetaApplyConfiguration : Option ObjectMetaApplyConfiguration
  Spec : Option PersistentVolumeSpecApplyConfiguration
  Status : Option PersistentVolumeStatusApplyConfiguration
deriving DecidableEq, Repr

/-- The type `ResourcesForImport`. -/
structure ResourcesForImport where
  Pods : List PodApplyConfiguration := []
  Nodes : List NodeApplyConfiguration := []
  Pvs : List PersistentVolumeApplyConfiguration := []
  Pvcs : List PersistentVolumeClaimApplyConfiguration := []
  StorageClasses : List StorageClassApplyConfiguration := []
  PriorityClasses : List PriorityClassApplyConfiguration := []
  SchedulerConfig : Option KubeSchedulerConfiguration := none
  Namespaces : List NamespaceApplyConfiguration := []
deriving DecidableEq, Repr

/-! ## Ports -/

/-- Port `PodService`: the response to `List`, and to the `Apply` call made
for item `i` of the import. -/
structure PodService where
  Apply : Nat → String → PodApplyConfiguration → Option Error
  List : Except Error (List Pod)

/-- Port `NodeService`. -/
structure NodeService where
  Apply : Nat → NodeApplyConfiguration → Option Error
  List : Except Error (List Node)

/-- Port `PersistentVolumeService`. -/
structure PersistentVolumeService where
  Apply : Nat → PersistentVolumeApplyConfiguration → Option Error
  List : Except Error (List PersistentVolume)

/-- Port `PersistentVolumeClaimService`; `Get` is called for item `i` of the
persistent volumes with the name and namespace of its claim reference. -/
structure PersistentVolumeClaimService where
  Get : Nat → String → String → Except Error PersistentVolumeClaim
  Apply : Nat → String → PersistentVolumeClaimApplyConfiguration → Option Error
  List : Except Error (List PersistentVolumeClaim)

/-- Port `StorageClassService`. -/
structure StorageClassService where
  Apply : Nat → StorageClassApplyConfiguration → Option Error
  List : Except Error (List StorageClass)

/-- Port `PriorityClassService`. -/
structure PriorityClassService where
  Apply : Nat → PriorityClassApplyConfiguration → Option Error
  List : Except Error (List PriorityClass)

/-- Port `SchedulerService`: `GetSchedulerConfig` returns a configuration
pointer and an error, `RestartScheduler` an error. -/
structure SchedulerService where
  GetSchedulerConfig : Option KubeSchedulerConfiguration × Option Error
  RestartScheduler : Option KubeSchedulerConfiguration → Option Error

/-- The namespace client `client.CoreV1().Namespaces()`. -/
structure NamespaceInterface where
  Apply : Nat → NamespaceApplyConfiguration → Option Error
  List : Except Error (List Namespace)

/-- The type `Service`. -/
structure Service where
  client : NamespaceInterface
  podService : PodService
  nodeService : NodeService
  pvService : PersistentVolumeService
  pvcService : PersistentVolumeClaimService
  storageClassService : StorageClassService
  priorityclassService : PriorityClassService
  schedulerService : SchedulerService

/-! ## Options -/

/-- The type `options`. -/
structure options where
  ignoreErr : Bool := false
  ignoreSchedulerConfiguration : Bool := false
deriving DecidableEq, Repr

/-- The interface `Option` with its two implementations `ignoreErrOption` and
`ignoreSchedulerConfigurationOption`. -/
inductive ServiceOption where
  | ignoreErrOption (i : Bool) : ServiceOption
  | ignoreSchedulerConfigurationOption (i : Bool) : ServiceOption
deriving DecidableEq, Repr

/-- The method `apply` of both option types. -/
def ServiceOption.apply : ServiceOption → options → options
  | .ignoreErrOption i, opts => { opts with ignoreErr := i }
  | .ignoreSchedulerConfigurationOption i, opts => { opts with ignoreSchedulerConfiguration := i }

/-- The option `IgnoreErr`. -/
def IgnoreErr : ServiceOption := .ignoreErrOption true

/-- The option `IgnoreSchedulerConfiguration`. -/
def IgnoreSchedulerConfiguration : ServiceOption := .ignoreSchedulerConfigurationOption true

/-- The loop `for _, o := range opts { o.apply(&options) }`. -/
def applyOptions (opts : List ServiceOption) : options :=
  opts.foldl (fun options o => o.apply options) {}

/-! ## Reserved names -/

/-- Go `strings.HasPrefix`. -/
def HasPrefix (s pre : String) : Bool :=
  decide (pre.length ≤ s.length) && (s.data.take pre.length == pre.data)

def isSystemPriorityClass (name : String) : Bool :=
  HasPrefix name "system-"

def isSystemNamespace (name : String) : Bool :=
  HasPrefix name "kube-"

def isIgnoreNamespace (name : String) : Bool :=
  isSystemNamespace name || name == "default"

/-! ## The bounded concurrency executor -/

/-- A task handed to the group, a Go `func() error` closure: it acts on the
state shared by the tasks and returns nil, an error, or panics. -/
abbrev Task (S : Type) := S → S × Result

/-- Modelled from the spec: `simulator/util` (the executor) is not part of the
sources at hand.  What a run cannot control is taken as given: `dispatch k`
is the DispatchError of the `k`-th call of `Go` on a group, if that task could
not be scheduled, and `order w n` chooses which of the running tasks completes
next during the `w`-th call of `Wait` when `n` tasks are still to complete. -/
structure Executor where
  dispatch : Nat → Option Error
  order : Nat → Nat → Nat

/-- Modelled from the spec: `util.SemaphoredErrGroup`, a fan-out task group
with first-error propagation: the tasks dispatched and not yet joined, and
the number of `Go` and `Wait` calls made so far. -/
structure SemaphoredErrGroup (S : Type) where
  exec : Executor
  started : Nat
  waited : Nat
  running : List (Task S)

/-- Modelled from the spec: `util.NewErrGroupWithSemaphore`. -/
def NewErrGroupWithSemaphore {S : Type} (x : Executor) : SemaphoredErrGroup S :=
  { exec := x, started := 0, waited := 0, running := [] }

/-- Modelled from the spec: `SemaphoredErrGroup.Go` either cannot schedule
the task and returns the DispatchError, or starts the task and returns nil. -/
def SemaphoredErrGroup.Go {S : Type} (eg : SemaphoredErrGroup S) (fn : Task S) :
    Option Error × SemaphoredErrGroup S :=
  match eg.exec.dispatch eg.started with
  | some err => (some err, { eg with started := eg.started + 1 })
  | none => (none, { eg with started := eg.started + 1, running := eg.running ++ [fn] })

/-- Modelled from the spec: the running tasks complete one after the other in
the order chosen by `choose`; the first error returned by a task is kept, the
siblings of a failed task still run to completion, a panic stops the
program. -/
def complete {S : Type} (choose : Nat → Nat) :
    Nat → List (Task S) → S → Option Error → S × Result
  | 0, _, s, none => (s, .ok)
  | 0, _, s, some err => (s, .error err)
  | n + 1, ts, s, first =>
    match ts[choose (n + 1) % ts.length]? with
    | none =>
      match first with
      | none => (s, .ok)
      | some err => (s, .error err)
    | some t =>
      match t s with
      | (s1, .panic) => (s1, .panic)
      | (s1, .ok) => complete choose n (ts.eraseIdx (choose (n + 1) % ts.length)) s1 first
      | (s1, .error err) =>
        complete choose n (ts.eraseIdx (choose (n + 1) % ts.length)) s1
          (match first with
           | none => some err
           | some e => some e)

/-- Modelled from the spec: `SemaphoredErrGroup.Wait` joins every running
task and returns the first error. -/
def SemaphoredErrGroup.Wait {S : Type} (eg : SemaphoredErrGroup S) (s : S) :
    Result × S × SemaphoredErrGroup S :=
  match complete (eg.exec.order eg.waited) eg.running.length eg.running s none with
  | (s1, res) => (res, s1, { eg with waited := eg.waited + 1, running := [] })

/-- Modelled from the spec: after the orchestrating call has returned early,
the tasks it had already dispatched still run to completion; their errors are
discarded.  This gives the state once the run is quiescent. -/
def SemaphoredErrGroup.settle {S : Type} (eg : SemaphoredErrGroup S) (s : S) : S :=
  (eg.Wait s).2.1

/-! ## Export -/

/-- The closure of `listPods`. -/
def listPodsTask (s : Service) (opts : options) : Task ResourcesForExport := fun r =>
  match s.podService.List with
  | .error err =>
    if !opts.ignoreErr then (r, .error (.Errorf "call list pods" err))
    else ({ r with Pods := [] }, .ok)
  | .ok pods => ({ r with Pods := pods }, .ok)

def listPods (s : Service) (eg : SemaphoredErrGroup ResourcesForExport) (opts : options) :
    Result × SemaphoredErrGroup ResourcesForExport :=
  match eg.Go (listPodsTask s opts) with
  | (some err, eg1) => (.error (.Errorf "start error group" err), eg1)
  | (none, eg1) => (.ok, eg1)

/-- The closure of `listNodes`. -/
def listNodesTask (s : Service) (opts : options) : Task ResourcesForExport := fun r =>
  match s.nodeService.List with
  | .error err =>
    if !opts.ignoreErr then (r, .error (.Errorf "call list nodes" err))
    else ({ r with Nodes := [] }, .ok)
  | .ok nodes => ({ r with Nodes := nodes }, .ok)

def listNodes (s : Service) (eg : SemaphoredErrGroup ResourcesForExport) (opts : options) :
    Result × SemaphoredErrGroup ResourcesForExport :=
  match eg.Go (listNodesTask s opts) with
  | (some err, eg1) => (.error (.Errorf "start error group" err), eg1)
  | (none, eg1) => (.ok, eg1)

/-- The closure of `listPvs`. -/
def listPvsTask (s : Service) (opts : options) : Task ResourcesForExport := fun r =>
  match s.pvService.List with
  | .error err =>
    if !opts.ignoreErr then (r, .error (.Errorf "call list PersistentVolumes" err))
    else ({ r with Pvs := [] }, .ok)
  | .ok pvs => ({ r with Pvs := pvs }, .ok)

def listPvs (s : Service) (eg : SemaphoredErrGroup ResourcesForExport) (opts : options) :
    Result × SemaphoredErrGroup ResourcesForExport :=
  match eg.Go (listPvsTask s opts) with
  | (some err, eg1) => (.error (.Errorf "start error group" err), eg1)
  | (none, eg1) => (.ok, eg1)

/-- The closure of `listPvcs`. -/
def listPvcsTask (s : Service) (opts : options) : Task ResourcesForExport := fun r =>
  match s.pvcService.List with
  | .error err =>
    if !opts.ignoreErr then (r, .error (.Errorf "call list PersistentVolumeClaims" err))
    else ({ r with Pvcs := [] }, .ok)
  | .ok pvcs => ({ r with Pvcs := pvcs }, .ok)

def listPvcs (s : Service) (eg : SemaphoredErrGroup ResourcesForExport) (opts : options) :
    Result × SemaphoredErrGroup ResourcesForExport :=
  match eg.Go (listPvcsTask s opts) with
  | (some err, eg1) => (.error (.Errorf "start error group" err), eg1)
  | (none, eg1) => (.ok, eg1)

/-- The closure of `listStorageClasses`. -/
def listStorageClassesTask (s : Service) (opts : options) : Task ResourcesForExport := fun r =>
  match s.storageClassService.List with
  | .error err =>
    if !opts.ignoreErr then (r, .error (.Errorf "call list storageClasses" err))
    else ({ r with StorageClasses := [] }, .ok)
  | .ok scs => ({ r with StorageClasses := scs }, .ok)

def listStorageClasses (s : Service) (eg : SemaphoredErrGroup ResourcesForExport)
    (opts : options) : Result × SemaphoredErrGroup ResourcesForExport :=
  match eg.Go (listStorageClassesTask s opts) with
  | (some err, eg1) => (.error (.Errorf "start error group" err), eg1)
  | (none, eg1) => (.ok, eg1)

/-- The loop of `listPcs` and of `listNamespaces`: append to `result` every
item whose name `skip` does not exclude. -/
def appendKept (skip : String → Bool) : List Object → List Object → List Object
  | result, [] => result
  | result, i :: items =>
    if !skip i.ObjectMeta.Name then appendKept skip (result ++ [i]) items
    else appendKept skip result items

/-- The closure of `listPcs`. -/
def listPcsTask (s : Service) (opts : options) : Task ResourcesForExport := fun r =>
  match s.priorityclassService.List with
  | .error err =>
    if !opts.ignoreErr then (r, .error (.Errorf "call list priorityClasses" err))
    else ({ r with PriorityClasses := appendKept isSystemPriorityClass [] [] }, .ok)
  | .ok pcs => ({ r with PriorityClasses := appendKept isSystemPriorityClass [] pcs }, .ok)

def listPcs (s : Service) (eg : SemaphoredErrGroup ResourcesForExport) (opts : options) :
    Result × SemaphoredErrGroup ResourcesForExport :=
  match eg.Go (listPcsTask s opts) with
  | (some err, eg1) => (.error (.Errorf "start error group" err), eg1)
  | (none, eg1) => (.ok, eg1)

/-- The closure of `listNamespaces`. -/
def listNamespacesTask (s : Service) (opts : options) : Task ResourcesForExport := fun r =>
  match s.client.List with
  | .error err =>
    if !opts.ignoreErr then (r, .error (.Errorf "call list namespace" err))
    else ({ r with Namespaces := appendKept isIgnoreNamespace [] [] }, .ok)
  | .ok nss => ({ r with Namespaces := appendKept isIgnoreNamespace [] nss }, .ok)

def listNamespaces (s : Service) (eg : SemaphoredErrGroup ResourcesForExport) (opts : options) :
    Result × SemaphoredErrGroup ResourcesForExport :=
  match eg.Go (listNamespacesTask s opts) with
  | (some err, eg1) => (.error (.Errorf "start error group" err), eg1)
  | (none, eg1) => (.ok, eg1)

/-- The closure of `getSchedulerConfig`. -/
def getSchedulerConfigTask (s : Service) (opts : options) : Task ResourcesForExport := fun r =>
  match s.schedulerService.GetSchedulerConfig with
  | (ss, some err) =>
    if !err.Is .ErrServiceDisabled then
      if !opts.ignoreErr then (r, .error (.Errorf "get scheduler config" err))
      else (r, .ok)
    else ({ r with SchedulerConfig := ss }, .ok)
  | (ss, none) => ({ r with SchedulerConfig := ss }, .ok)

def getSchedulerConfig (s : Service) (eg : SemaphoredErrGroup ResourcesForExport)
    (opts : options) : Result × SemaphoredErrGroup ResourcesForExport :=
  match eg.Go (getSchedulerConfigTask s opts) with
  | (some err, eg1) => (.error (.Errorf "start error group" err), eg1)
  | (none, eg1) => (.ok, eg1)

def get (s : Service) (x : Executor) (opts : options) : Option ResourcesForExport × Result :=
  let errgrp : SemaphoredErrGroup ResourcesForExport := NewErrGroupWithSemaphore x
  let resources : ResourcesForExport := {}
  match listPods s errgrp opts with
  | (.error err, _) => (none, .error (.Errorf "call listPods" err))
  | (.panic, _) => (none, .panic)
  | (.ok, errgrp) =>
  match listNodes s errgrp opts with
  | (.error err, _) => (none, .error (.Errorf "call listNodes" err))
  | (.panic, _) => (none, .panic)
  | (.ok, errgrp) =>
  match listPvs s errgrp opts with
  | (.error err, _) => (none, .error (.Errorf "call listPvs" err))
  | (.panic, _) => (none, .panic)
  | (.ok, errgrp) =>
  match listPvcs s errgrp opts with
  | (.error err, _) => (none, .error (.Errorf "call listPvcs" err))
  | (.panic, _) => (none, .panic)
  | (.ok, errgrp) =>
  match listStorageClasses s errgrp opts with
  | (.error err, _) => (none, .error (.Errorf "call listStorageClasses" err))
  | (.panic, _) => (none, .panic)
  | (.ok, errgrp) =>
  match listPcs s errgrp opts with
  | (.error err, _) => (none, .error (.Errorf "call listPcs" err))
  | (.panic, _) => (none, .panic)
  | (.ok, errgrp) =>
  match listNamespaces s errgrp opts with
  | (.error err, _) => (none, .error (.Errorf "call listNamespaces" err))
  | (.panic, _) => (none, .panic)
  | (.ok, errgrp) =>
  match getSchedulerConfig s errgrp opts with
  | (.error err, _) => (none, .error (.Errorf "call getSchedulerConfig" err))
  | (.panic, _) => (none, .panic)
  | (.ok, errgrp) =>
  match errgrp.Wait resources with
  | (.error err, _, _) => (none, .error (.Errorf "get resources all" err))
  | (.panic, _, _) => (none, .panic)
  | (.ok, resources, _) => (some resources, .ok)

def Export (s : Service) (x : Executor) (opts : List ServiceOption) :
    Option ResourcesForExport × Result :=
  let options := applyOptions opts
  match get s x options with
  | (_, .error err) => (none, .error (.Errorf "export resources all" err))
  | (_, .panic) => (none, .panic)
  | (resources, .ok) => (resources, .ok)

/-! ## Import -/

/-- A call of a port made by an import, with its arguments. -/
inductive Event where
  | RestartScheduler (cfg : Option KubeSchedulerConfiguration) : Event
  | NamespaceApply (ns : NamespaceApplyConfiguration) : Event
  | PriorityClassApply (pc : PriorityClassApplyConfiguration) : Event
  | StorageClassApply (sc : StorageClassApplyConfiguration) : Event
  | PersistentVolumeClaimApply (ns : String) (pvc : PersistentVolumeClaimApplyConfiguration) : Event
  | NodeApply (node : NodeApplyConfiguration) : Event
  | PodApply (ns : String) (pod : PodApplyConfiguration) : Event
  | PersistentVolumeClaimGet (name : String) (ns : String) : Event
  | PersistentVolumeApply (pv : PersistentVolumeApplyConfiguration) : Event
deriving DecidableEq, Repr

/-- The port calls of a run, oldest first. -/
abbrev Trace := List Event

/-- The promoted field `Name` of an apply configuration (`*c.Name` panics when
this is `none`: the embedded pointer or the name is nil). -/
def ApplyConfiguration.Name (c : ApplyConfiguration) : Option String :=
  match c.ObjectMetaApplyConfiguration with
  | none => none
  | some m => m.Name

/-- The promoted field `Namespace` of an apply configuration. -/
def ApplyConfiguration.Namespace (c : ApplyConfiguration) : Option String :=
  match c.ObjectMetaApplyConfiguration with
  | none => none
  | some m => m.Namespace

/-- The assignment `c.ObjectMetaApplyConfiguration.UID = nil`; `none` when the
embedded pointer is nil (the assignment panics). -/
def ApplyConfiguration.clearUID (c : ApplyConfiguration) : Option ApplyConfiguration :=
  match c.ObjectMetaApplyConfiguration with
  | none => none
  | some m => some { c with ObjectMetaApplyConfiguration := some { m with UID := none } }

/-- The builder `WithAPIVersion`. -/
def ApplyConfiguration.WithAPIVersion (c : ApplyConfiguration) (value : String) :
    ApplyConfiguration :=
  { c with APIVersion := some value }

/-- The builder `WithKind`. -/
def ApplyConfiguration.WithKind (c : ApplyConfiguration) (value : String) :
    ApplyConfiguration :=
  { c with Kind := some value }

/-- The end of every apply closure: an error of the port is returned wrapped
in strict mode and logged only with `ignoreErr`. -/
def applyResult (opts : options) (msg : String) : Option Error → Result
  | some err => if !opts.ignoreErr then .error (.Errorf msg err) else .ok
  | none => .ok

/-- The closure of `applyPcs` for item `i`. -/
def applyPcsTask (s : Service) (opts : options) (i : Nat)
    (pc : PriorityClassApplyConfiguration) : Task Trace := fun tr =>
  match pc.clearUID with
  | none => (tr, .panic)
  | some pc =>
    (tr ++ [.PriorityClassApply pc],
      applyResult opts "apply PriorityClass" (s.priorityclassService.Apply i pc))

/-- The loop of `applyPcs` from item `i` on. -/
def applyPcsFrom (s : Service) (opts : options) :
    Nat → List PriorityClassApplyConfiguration → SemaphoredErrGroup Trace →
      Result × SemaphoredErrGroup Trace
  | _, [], eg => (.ok, eg)
  | i, pc :: rest, eg =>
    match pc.Name with
    | none => (.panic, eg)
    | some name =>
      if isSystemPriorityClass name then applyPcsFrom s opts (i + 1) rest eg
      else
        match eg.Go (applyPcsTask s opts i pc) with
        | (some err, eg1) => (.error (.Errorf "start error group" err), eg1)
        | (none, eg1) => applyPcsFrom s opts (i + 1) rest eg1

def applyPcs (s : Service) (r : ResourcesForImport) (eg : SemaphoredErrGroup Trace)
    (opts : options) : Result × SemaphoredErrGroup Trace :=
  applyPcsFrom s opts 0 r.PriorityClasses eg

/-- The closure of `applyStorageClasses` for item `i`. -/
def applyStorageClassesTask (s : Service) (opts : options) (i : Nat)
    (sc : StorageClassApplyConfiguration) : Task Trace := fun tr =>
  match sc.clearUID with
  | none => (tr, .panic)
  | some sc =>
    (tr ++ [.StorageClassApply sc],
      applyResult opts "apply StorageClass" (s.storageClassService.Apply i sc))

/-- The loop of `applyStorageClasses` from item `i` on. -/
def applyStorageClassesFrom (s : Service) (opts : options) :
    Nat → List StorageClassApplyConfiguration → SemaphoredErrGroup Trace →
      Result × SemaphoredErrGroup Trace
  | _, [], eg => (.ok, eg)
  | i, sc :: rest, eg =>
    match eg.Go (applyStorageClassesTask s opts i sc) with
    | (some err, eg1) => (.error (.Errorf "start error group" err), eg1)
    | (none, eg1) => applyStorageClassesFrom s opts (i + 1) rest eg1

def applyStorageClasses (s : Service) (r : ResourcesForImport) (eg : SemaphoredErrGroup Trace)
    (opts : options) : Result × SemaphoredErrGroup Trace :=
  applyStorageClassesFrom s opts 0 r.StorageClasses eg

/-- The closure of `applyPvcs` for item `i`. -/
def applyPvcsTask (s : Service) (opts : options) (i : Nat)
    (pvc : PersistentVolumeClaimApplyConfiguration) : Task Trace := fun tr =>
  match pvc.clearUID with
  | none => (tr, .panic)
  | some pvc =>
    match pvc.Namespace with
    | none => (tr, .panic)
    | some ns =>
      (tr ++ [.PersistentVolumeClaimApply ns pvc],
        applyResult opts "apply PersistentVolumeClaims" (s.pvcService.Apply i ns pvc))

/-- The loop of `applyPvcs` from item `i` on. -/
def applyPvcsFrom (s : Service) (opts : options) :
    Nat → List PersistentVolumeClaimApplyConfiguration → SemaphoredErrGroup Trace →
      Result × SemaphoredErrGroup Trace
  | _, [], eg => (.ok, eg)
  | i, pvc :: rest, eg =>
    match eg.Go (applyPvcsTask s opts i pvc) with
    | (some err, eg1) => (.error (.Errorf "start error group" err), eg1)
    | (none, eg1) => applyPvcsFrom s opts (i + 1) rest eg1

def applyPvcs (s : Service) (r : ResourcesForImport) (eg : SemaphoredErrGroup Trace)
    (opts : options) : Result × SemaphoredErrGroup Trace :=
  applyPvcsFrom s opts 0 r.Pvcs eg

/-- The condition `pv.Status != nil && pv.Status.Phase != nil` followed by
`*pv.Status.Phase == "Bound"`. -/
def isBound (pv : PersistentVolumeApplyConfiguration) : Bool :=
  match pv.Status with
  | none => false
  | some status =>
    match status.Phase with
    | none => false
    | some phase => phase == "Bound"

/-- The claim lookup of a bound volume in the closure of `applyPvs`: the call
of `Get` and the rewrite of `pv.Spec.ClaimRef.UID`; `none` when `pv.Spec`,
`pv.Spec.ClaimRef` or the name or namespace of the reference is nil. -/
def lookupClaim (s : Service) (i : Nat) (pv : PersistentVolumeApplyConfiguration)
    (tr : Trace) : Option (Trace × PersistentVolumeApplyConfiguration) :=
  match pv.Spec with
  | none => none
  | some spec =>
    match spec.ClaimRef with
    | none => none
    | some ref =>
      match ref.Name with
      | none => none
      | some name =>
        match ref.Namespace with
        | none => none
        | some ns =>
          match s.pvcService.Get i name ns with
          | .ok pvc =>
            some (tr ++ [.PersistentVolumeClaimGet name ns],
              { pv with Spec := some { spec with
                  ClaimRef := some { ref with UID := some pvc.ObjectMeta.UID } } })
          | .error _ =>
            some (tr ++ [.PersistentVolumeClaimGet name ns],
              { pv with Spec := some { spec with ClaimRef := some { ref with UID := none } } })

/-- The closure of `applyPvs` for item `i`. -/
def applyPvsTask (s : Service) (opts : options) (i : Nat)
    (pv : PersistentVolumeApplyConfiguration) : Task Trace := fun tr =>
  match pv.ObjectMetaApplyConfiguration with
  | none => (tr, .panic)
  | some m =>
    let pv := { pv with ObjectMetaApplyConfiguration := some { m with UID := none } }
    if isBound pv then
      match lookupClaim s i pv tr with
      | none => (tr, .panic)
      | some (tr1, pv1) =>
        (tr1 ++ [.PersistentVolumeApply pv1],
          applyResult opts "apply PersistentVolume" (s.pvService.Apply i pv1))
    else
      (tr ++ [.PersistentVolumeApply pv],
        applyResult opts "apply PersistentVolume" (s.pvService.Apply i pv))

/-- The loop of `applyPvs` from item `i` on. -/
def applyPvsFrom (s : Service) (opts : options) :
    Nat → List PersistentVolumeApplyConfiguration → SemaphoredErrGroup Trace →
      Result × SemaphoredErrGroup Trace
  | _, [], eg => (.ok, eg)
  | i, pv :: rest, eg =>
    match eg.Go (applyPvsTask s opts i pv) with
    | (some err, eg1) => (.error (.Errorf "start error group" err), eg1)
    | (none, eg1) => applyPvsFrom s opts (i + 1) rest eg1

def applyPvs (s : Service) (r : ResourcesForImport) (eg : SemaphoredErrGroup Trace)
    (opts : options) : Result × SemaphoredErrGroup Trace :=
  applyPvsFrom s opts 0 r.Pvs eg

/-- The closure of `applyNodes` for item `i`. -/
def applyNodesTask (s : Service) (opts : options) (i : Nat)
    (node : NodeApplyConfiguration) : Task Trace := fun tr =>
  match node.clearUID with
  | none => (tr, .panic)
  | some node =>
    (tr ++ [.NodeApply node], applyResult opts "apply Node" (s.nodeService.Apply i node))

/-- The loop of `applyNodes` from item `i` on. -/
def applyNodesFrom (s : Service) (opts : options) :
    Nat → List NodeApplyConfiguration → SemaphoredErrGroup Trace →
      Result × SemaphoredErrGroup Trace
  | _, [], eg => (.ok, eg)
  | i, node :: rest, eg =>
    match eg.Go (applyNodesTask s opts i node) with
    | (some err, eg1) => (.error (.Errorf "start error group" err), eg1)
    | (none, eg1) => applyNodesFrom s opts (i + 1) rest eg1

def applyNodes (s : Service) (r : ResourcesForImport) (eg : SemaphoredErrGroup Trace)
    (opts : options) : Result × SemaphoredErrGroup Trace :=
  applyNodesFrom s opts 0 r.Nodes eg

/-- The closure of `applyPods` for item `i`. -/
def applyPodsTask (s : Service) (opts : options) (i : Nat)
    (pod : PodApplyConfiguration) : Task Trace := fun tr =>
  match pod.clearUID with
  | none => (tr, .panic)
  | some pod =>
    match pod.Namespace with
    | none => (tr, .panic)
    | some ns =>
      (tr ++ [.PodApply ns pod], applyResult opts "apply Pod" (s.podService.Apply i ns pod))

/-- The loop of `applyPods` from item `i` on. -/
def applyPodsFrom (s : Service) (opts : options) :
    Nat → List PodApplyConfiguration → SemaphoredErrGroup Trace →
      Result × SemaphoredErrGroup Trace
  | _, [], eg => (.ok, eg)
  | i, pod :: rest, eg =>
    match eg.Go (applyPodsTask s opts i pod) with
    | (some err, eg1) => (.error (.Errorf "start error group" err), eg1)
    | (none, eg1) => applyPodsFrom s opts (i + 1) rest eg1

def applyPods (s : Service) (r : ResourcesForImport) (eg : SemaphoredErrGroup Trace)
    (opts : options) : Result × SemaphoredErrGroup Trace :=
  applyPodsFrom s opts 0 r.Pods eg

/-- The closure of `applyNamespaces` for item `i`. -/
def applyNamespacesTask (s : Service) (opts : options) (i : Nat)
    (ns : NamespaceApplyConfiguration) : Task Trace := fun tr =>
  match ns.clearUID with
  | none => (tr, .panic)
  | some ns =>
    let ns := (ns.WithAPIVersion "v1").WithKind "Namespace"
    (tr ++ [.NamespaceApply ns], applyResult opts "apply Namespace" (s.client.Apply i ns))

/-- The loop of `applyNamespaces` from item `i` on. -/
def applyNamespacesFrom (s : Service) (opts : options) :
    Nat → List NamespaceApplyConfiguration → SemaphoredErrGroup Trace →
      Result × SemaphoredErrGroup Trace
  | _, [], eg => (.ok, eg)
  | i, ns :: rest, eg =>
    match ns.Name with
    | none => (.panic, eg)
    | some name =>
      if isIgnoreNamespace name then applyNamespacesFrom s opts (i + 1) rest eg
      else
        match eg.Go (applyNamespacesTask s opts i ns) with
        | (some err, eg1) => (.error (.Errorf "start error group" err), eg1)
        | (none, eg1) => applyNamespacesFrom s opts (i + 1) rest eg1

def applyNamespaces (s : Service) (r : ResourcesForImport) (eg : SemaphoredErrGroup Trace)
    (opts : options) : Result × SemaphoredErrGroup Trace :=
  applyNamespacesFrom s opts 0 r.Namespaces eg

/-- The method `Service.apply`, started with the port calls `tr` made so far;
it returns its result, the port calls made when it returns, and the group. -/
def apply (s : Service) (x : Executor) (resources : ResourcesForImport) (opts : options)
    (tr : Trace) : Result × Trace × SemaphoredErrGroup Trace :=
  let errgrp : SemaphoredErrGroup Trace := NewErrGroupWithSemaphore x
  match applyNamespaces s resources errgrp opts with
  | (.error err, errgrp) => (.error (.Errorf "call applyNamespaces" err), tr, errgrp)
  | (.panic, errgrp) => (.panic, tr, errgrp)
  | (.ok, errgrp) =>
  match errgrp.Wait tr with
  | (.error err, tr, errgrp) => (.error (.Errorf "apply resources" err), tr, errgrp)
  | (.panic, tr, errgrp) => (.panic, tr, errgrp)
  | (.ok, tr, errgrp) =>
  match applyPcs s resources errgrp opts with
  | (.error err, errgrp) => (.error (.Errorf "call applyPcs" err), tr, errgrp)
  | (.panic, errgrp) => (.panic, tr, errgrp)
  | (.ok, errgrp) =>
  match applyStorageClasses s resources errgrp opts with
  | (.error err, errgrp) => (.error (.Errorf "call applyStorageClasses" err), tr, errgrp)
  | (.panic, errgrp) => (.panic, tr, errgrp)
  | (.ok, errgrp) =>
  match applyPvcs s resources errgrp opts with
  | (.error err, errgrp) => (.error (.Errorf "call applyPvcs" err), tr, errgrp)
  | (.panic, errgrp) => (.panic, tr, errgrp)
  | (.ok, errgrp) =>
  match applyNodes s resources errgrp opts with
  | (.error err, errgrp) => (.error (.Errorf "call applyNodes" err), tr, errgrp)
  | (.panic, errgrp) => (.panic, tr, errgrp)
  | (.ok, errgrp) =>
  match applyPods s resources errgrp opts with
  | (.error err, errgrp) => (.error (.Errorf "call applyPods" err), tr, errgrp)
  | (.panic, errgrp) => (.panic, tr, errgrp)
  | (.ok, errgrp) =>
  match errgrp.Wait tr with
  | (.error err, tr, errgrp) => (.error (.Errorf "apply resources" err), tr, errgrp)
  | (.panic, tr, errgrp) => (.panic, tr, errgrp)
  | (.ok, tr, errgrp) =>
  match applyPvs s resources errgrp opts with
  | (.error err, errgrp) => (.error (.Errorf "call applyPvs" err), tr, errgrp)
  | (.panic, errgrp) => (.panic, tr, errgrp)
  | (.ok, errgrp) =>
  match errgrp.Wait tr with
  | (.error err, tr, errgrp) => (.error (.Errorf "apply PVs" err), tr, errgrp)
  | (.panic, tr, errgrp) => (.panic, tr, errgrp)
  | (.ok, tr, errgrp) => (.ok, tr, errgrp)

/-- The restart of the scheduler at the start of `Import`: its result and the
call made. -/
def restart (s : Service) (resources : ResourcesForImport) (options : options) :
    Result × Trace :=
  if !options.ignoreSchedulerConfiguration then
    match s.schedulerService.RestartScheduler resources.SchedulerConfig with
    | some err =>
      if !err.Is .ErrServiceDisabled then
        (.error (.Errorf "restart scheduler with imported configuration" err),
          [.RestartScheduler resources.SchedulerConfig])
      else (.ok, [.RestartScheduler resources.SchedulerConfig])
    | none => (.ok, [.RestartScheduler resources.SchedulerConfig])
  else (.ok, [])

/-- The method `Service.Import`: its result and the port calls of the run,
those of the tasks still running when it returns an error or panics
included. -/
def Import (s : Service) (x : Executor) (resources : ResourcesForImport)
    (opts : List ServiceOption) : Result × Trace :=
  let options := applyOptions opts
  match restart s resources options with
  | (.error err, tr) => (.error err, tr)
  | (.panic, tr) => (.panic, tr)
  | (.ok, tr) =>
    match apply s x resources options tr with
    | (.error err, tr, errgrp) => (.error (.Errorf "import resources all" err), errgrp.settle tr)
    | (.panic, tr, errgrp) => (.panic, errgrp.settle tr)
    | (.ok, tr, _) => (.ok, tr)

/-! ## Reference semantics and specification-side definitions -/

/-- The tasks of a list run one after the other in list order, with the
error handling of `complete`. -/
def runSeq {S : Type} : List (Task S) → S → Option Error → S × Result
  | [], s, none => (s, .ok)
  | [], s, some err => (s, .error err)
  | t :: ts, s, first =>
    match t s with
    | (s1, .panic) => (s1, .panic)
    | (s1, .ok) => runSeq ts s1 first
    | (s1, .error err) =>
      runSeq ts s1
        (match first with
         | none => some err
         | some e => some e)

/-- The eight tasks of an export, in dispatch order. -/
def exportTasks (s : Service) (opts : options) : List (Task ResourcesForExport) :=
  [listPodsTask s opts, listNodesTask s opts, listPvsTask s opts, listPvcsTask s opts,
    listStorageClassesTask s opts, listPcsTask s opts, listNamespacesTask s opts,
    getSchedulerConfigTask s opts]

/-- The items a `List` call returned, none when it failed. -/
def listed {α : Type} : Except Error (List α) → List α
  | .ok items => items
  | .error _ => []

/-- The port error of a failed `List` call. -/
def listError {α : Type} : Except Error α → List Error
  | .ok _ => []
  | .error err => [err]

/-- The port errors of the failed fetches of an export: those of the `List`
calls, and that of the scheduler-config fetch unless it is the disabled
signal. -/
def portErrors (s : Service) : List Error :=
  listError s.podService.List ++ listError s.nodeService.List ++ listError s.pvService.List ++
    listError s.pvcService.List ++ listError s.storageClassService.List ++
    listError s.priorityclassService.List ++ listError s.client.List ++
    (match s.schedulerService.GetSchedulerConfig with
     | (_, some err) => if err.Is .ErrServiceDisabled then [] else [err]
     | (_, none) => [])

/-- The snapshot an export returns when it returns one: what every fetch
returned, nothing for a fetch that failed, the exclusion filter applied to
namespaces and priority classes. -/
def snapshotOf (s : Service) : ResourcesForExport :=
  { Pods := listed s.podService.List
    Nodes := listed s.nodeService.List
    Pvs := listed s.pvService.List
    Pvcs := listed s.pvcService.List
    StorageClasses := listed s.storageClassService.List
    PriorityClasses := appendKept isSystemPriorityClass [] (listed s.priorityclassService.List)
    SchedulerConfig :=
      match s.schedulerService.GetSchedulerConfig with
      | (ss, some err) => if err.Is .ErrServiceDisabled then ss else none
      | (ss, none) => ss
    Namespaces := appendKept isIgnoreNamespace [] (listed s.client.List) }

/-- A name is reserved for the system when it starts with `pre`. -/
def Reserved (pre : String) (name : String) : Prop :=
  pre.data <+: name.data

instance (pre name : String) : Decidable (Reserved pre name) :=
  inferInstanceAs (Decidable (pre.data <+: name.data))

/-- A task only adds port calls satisfying `K` to the trace. -/
def Emits (K : Event → Prop) (t : Task Trace) : Prop :=
  ∀ tr, ∃ es, (t tr).1 = tr ++ es ∧ ∀ e ∈ es, K e

/-- The trace `tr1` continues `tr` with port calls satisfying `K`. -/
def Extends (K : Event → Prop) (tr tr1 : Trace) : Prop :=
  ∃ es, tr1 = tr ++ es ∧ ∀ e ∈ es, K e

/-- The phase of an import a port call belongs to: 0 for the restart of the
scheduler, 1 for namespaces, 2 for priority classes, storage classes, claims,
nodes and pods, 3 for the claim lookups and the persistent volumes. -/
def Event.phase : Event → Nat
  | .RestartScheduler _ => 0
  | .NamespaceApply _ => 1
  | .PriorityClassApply _ => 2
  | .StorageClassApply _ => 2
  | .PersistentVolumeClaimApply _ _ => 2
  | .NodeApply _ => 2
  | .PodApply _ _ => 2
  | .PersistentVolumeClaimGet _ _ => 3
  | .PersistentVolumeApply _ => 3

/-- The metadata UID of the object an `Apply` call submits; no UID for the
other calls. -/
def Event.submittedUID : Event → Option String
  | .RestartScheduler _ => none
  | .NamespaceApply c => c.ObjectMetaApplyConfiguration.bind (fun m => m.UID)
  | .PriorityClassApply c => c.ObjectMetaApplyConfiguration.bind (fun m => m.UID)
  | .StorageClassApply c => c.ObjectMetaApplyConfiguration.bind (fun m => m.UID)
  | .PersistentVolumeClaimApply _ c => c.ObjectMetaApplyConfiguration.bind (fun m => m.UID)
  | .NodeApply c => c.ObjectMetaApplyConfiguration.bind (fun m => m.UID)
  | .PodApply _ c => c.ObjectMetaApplyConfiguration.bind (fun m => m.UID)
  | .PersistentVolumeClaimGet _ _ => none
  | .PersistentVolumeApply pv => pv.ObjectMetaApplyConfiguration.bind (fun m => m.UID)

/-- The name and the namespace of the claim reference of a volume, when the
volume has a spec with a claim reference carrying both. -/
def claimKey (pv : PersistentVolumeApplyConfiguration) : Option (String × String) :=
  match pv.Spec with
  | none => none
  | some spec =>
    match spec.ClaimRef with
    | none => none
    | some ref =>
      match ref.Name, ref.Namespace with
      | some name, some ns => some (name, ns)
      | _, _ => none

/-- No item of the snapshot makes an import dereference nil: namespaces and
priority classes have a name, storage classes and nodes have metadata, claims
and pods have a namespace, volumes have metadata and, when their phase is
"Bound", a claim reference with a name and a namespace. -/
def noNilDeref (r : ResourcesForImport) : Bool :=
  r.Namespaces.all (fun c => c.Name.isSome) &&
  r.PriorityClasses.all (fun c => c.Name.isSome) &&
  r.StorageClasses.all (fun c => c.ObjectMetaApplyConfiguration.isSome) &&
  r.Pvcs.all (fun c => c.Namespace.isSome) &&
  r.Nodes.all (fun c => c.ObjectMetaApplyConfiguration.isSome) &&
  r.Pods.all (fun c => c.Namespace.isSome) &&
  r.Pvs.all (fun pv => pv.ObjectMetaApplyConfiguration.isSome &&
    (!isBound pv || (claimKey pv).isSome))

/-- Metadata with the UID removed. -/
def withoutUID (m : Option ObjectMetaApplyConfiguration) : Option ObjectMetaApplyConfiguration :=
  m.map (fun m => { m with UID := none })

/-- The item `c` as the spec has it submitted: its identity field cleared. -/
def submitted (c : ApplyConfiguration) : ApplyConfiguration :=
  { c with ObjectMetaApplyConfiguration := withoutUID c.ObjectMetaApplyConfiguration }

/-- The volume with `uid` as the identity of its claim reference. -/
def PersistentVolumeApplyConfiguration.withClaimUID (pv : PersistentVolumeApplyConfiguration)
    (uid : Option String) : PersistentVolumeApplyConfiguration :=
  { pv with Spec := pv.Spec.map (fun spec =>
      { spec with ClaimRef := spec.ClaimRef.map (fun ref => { ref with UID := uid }) }) }

/-- The volume item `pv` as the spec has it submitted: its identity field
cleared and, when its phase is "Bound", the identity of its claim reference
rewritten to that of the claim looked up in the destination, cleared when the
lookup fails. -/
def submittedVolume (s : Service) (i : Nat) (pv : PersistentVolumeApplyConfiguration) :
    PersistentVolumeApplyConfiguration :=
  let pv1 := { pv with ObjectMetaApplyConfiguration := withoutUID pv.ObjectMetaApplyConfiguration }
  if isBound pv then
    match claimKey pv with
    | none => pv1
    | some (name, ns) =>
      match s.pvcService.Get i name ns with
      | .ok pvc => pv1.withClaimUID (some pvc.ObjectMeta.UID)
      | .error _ => pv1.withClaimUID none
  else pv1

/-- The trace `cur` continues `tr` with port calls satisfying `K1`, then
port calls satisfying `K2`, then port calls satisfying `K3`. -/
def Split (K1 K2 K3 : Event → Prop) (tr cur : Trace) : Prop :=
  ∃ m1 m2, Extends K1 tr m1 ∧ Extends K2 m1 m2 ∧ Extends K3 m2 cur

/-- The task returns nil whenever it runs. -/
def Quiet (t : Task Trace) : Prop :=
  ∀ tr, (t tr).2 = .ok

/-- The task never panics and only adds port calls to the trace. -/
def Good (t : Task Trace) : Prop :=
  (∀ tr, (t tr).2 ≠ .panic) ∧ ∀ tr e, e ∈ tr → e ∈ (t tr).1

/-- The task has run: the port calls it makes are in the trace `final`. -/
def Ran (t : Task Trace) (final : Trace) : Prop :=
  ∃ tr0, ∀ e ∈ (t tr0).1, e ∈ final

/-- Every closure of `applyNamespaces` for an item of `r` returns nil. -/
def QuietNamespaces (s : Service) (opts : options) (r : ResourcesForImport) : Prop :=
  ∀ j c name, r.Namespaces[j]? = some c → ApplyConfiguration.Name c = some name →
    isIgnoreNamespace name = false → Quiet (applyNamespacesTask s opts j c)

/-- Every closure of the second phase for an item of `r` returns nil. -/
def QuietPhase2 (s : Service) (opts : options) (r : ResourcesForImport) : Prop :=
  (∀ j c name, r.PriorityClasses[j]? = some c → ApplyConfiguration.Name c = some name →
    isSystemPriorityClass name = false → Quiet (applyPcsTask s opts j c)) ∧
  (∀ j c, r.StorageClasses[j]? = some c → Quiet (applyStorageClassesTask s opts j c)) ∧
  (∀ j c, r.Pvcs[j]? = some c → Quiet (applyPvcsTask s opts j c)) ∧
  (∀ j c, r.Nodes[j]? = some c → Quiet (applyNodesTask s opts j c)) ∧
  (∀ j c, r.Pods[j]? = some c → Quiet (applyPodsTask s opts j c))

/-- Every closure of `applyPvs` for an item of `r` returns nil. -/
def QuietPvs (s : Service) (opts : options) (r : ResourcesForImport) : Prop :=
  ∀ j c, r.Pvs[j]? = some c → Quiet (applyPvsTask s opts j c)

/-- The closure of every non-skipped namespace of `r` has run. -/
def RanNamespaces (s : Service) (opts : options) (r : ResourcesForImport) (final : Trace) :
    Prop :=
  ∀ j c name, r.Namespaces[j]? = some c → ApplyConfiguration.Name c = some name →
    isIgnoreNamespace name = false → Ran (applyNamespacesTask s opts j c) final

/-- The closure of every non-skipped item of the second phase has run. -/
def RanPhase2 (s : Service) (opts : options) (r : ResourcesForImport) (final : Trace) : Prop :=
  (∀ j c name, r.PriorityClasses[j]? = some c → ApplyConfiguration.Name c = some name →
    isSystemPriorityClass name = false → Ran (applyPcsTask s opts j c) final) ∧
  (∀ j c, r.StorageClasses[j]? = some c → Ran (applyStorageClassesTask s opts j c) final) ∧
  (∀ j c, r.Pvcs[j]? = some c → Ran (applyPvcsTask s opts j c) final) ∧
  (∀ j c, r.Nodes[j]? = some c → Ran (applyNodesTask s opts j c) final) ∧
  (∀ j c, r.Pods[j]? = some c → Ran (applyPodsTask s opts j c) final)

/-- The closure of every volume of `r` has run. -/
def RanPvs (s : Service) (opts : options) (r : ResourcesForImport) (final : Trace) : Prop :=
  ∀ j c, r.Pvs[j]? = some c → Ran (applyPvsTask s opts j c) final

/-- Every `Apply` call of every port succeeds. -/
def AppliesSucceed (s : Service) : Prop :=
  (∀ i c, s.client.Apply i c = none) ∧
  (∀ i c, s.priorityclassService.Apply i c = none) ∧
  (∀ i c, s.storageClassService.Apply i c = none) ∧
  (∀ i ns c, s.pvcService.Apply i ns c = none) ∧
  (∀ i c, s.nodeService.Apply i c = none) ∧
  (∀ i ns c, s.podService.Apply i ns c = none) ∧
  (∀ i c, s.pvService.Apply i c = none)

/-! ## Concrete runs -/

/-- An executor that schedules every task and lets the running tasks complete
in dispatch order. -/
def inOrder : Executor :=
  { dispatch := fun _ => none, order := fun _ _ => 0 }

/-- A service whose ports all succeed and hold nothing. -/
def quietService : Service :=
  { client := { Apply := fun _ _ => none, List := .ok [] }
    podService := { Apply := fun _ _ _ => none, List := .ok [] }
    nodeService := { Apply := fun _ _ => none, List := .ok [] }
    pvService := { Apply := fun _ _ => none, List := .ok [] }
    pvcService :=
      { Get := fun _ _ _ => .error (.backend "not found")
        Apply := fun _ _ _ => none
        List := .ok [] }
    storageClassService := { Apply := fun _ _ => none, List := .ok [] }
    priorityclassService := { Apply := fun _ _ => none, List := .ok [] }
    schedulerService := { GetSchedulerConfig := (none, none), RestartScheduler := fun _ => none } }

/-- A cluster with system and user objects whose scheduler is an external
one: the scheduler service reports the disabled signal. -/
def sampleService : Service :=
  { quietService with
    client :=
      { Apply := fun _ _ => none
        List := .ok
          [{ ObjectMeta := { Name := "kube-system", Namespace := "", UID := "n1" }, body := "" },
           { ObjectMeta := { Name := "default", Namespace := "", UID := "n2" }, body := "" },
           { ObjectMeta := { Name := "team-a", Namespace := "", UID := "n3" }, body := "" },
           { ObjectMeta := { Name := "kube", Namespace := "", UID := "n4" }, body := "" }] }
    podService :=
      { Apply := fun _ _ _ => none
        List := .ok
          [{ ObjectMeta := { Name := "coredns", Namespace := "kube-system", UID := "p1" },
             body := "" },
           { ObjectMeta := { Name := "web", Namespace := "default", UID := "p2" }, body := "" },
           { ObjectMeta := { Name := "app", Namespace := "team-a", UID := "p3" }, body := "" }] }
    pvcService :=
      { Get := fun _ _ _ => .error (.backend "not found")
        Apply := fun _ _ _ => none
        List := .ok
          [{ ObjectMeta := { Name := "data", Namespace := "default", UID := "c1" },
             body := "" }] }
    priorityclassService :=
      { Apply := fun _ _ => none
        List := .ok
          [{ ObjectMeta := { Name := "system-node-critical", Namespace := "", UID := "q1" },
             body := "" },
           { ObjectMeta := { Name := "high", Namespace := "", UID := "q2" }, body := "" }] }
    schedulerService :=
      { GetSchedulerConfig := (none, some .ErrServiceDisabled)
        RestartScheduler := fun _ => some .ErrServiceDisabled } }

/-- The sample cluster with the node port and the claim port down. -/
def degradedService : Service :=
  { sampleService with
    nodeService :=
      { Apply := fun _ _ => some (.backend "nodes unavailable")
        List := .error (.backend "nodes unavailable") }
    pvcService :=
      { Get := fun _ _ _ => .error (.backend "claims unavailable")
        Apply := fun _ _ _ => some (.backend "claims unavailable")
        List := .error (.backend "claims unavailable") } }

/-- The sample cluster with the node port down and every other port up. -/
def nodesDown : Service :=
  { sampleService with
    nodeService :=
      { Apply := fun _ _ => some (.backend "nodes unavailable")
        List := .error (.backend "nodes unavailable") } }

/-- The sample cluster with a scheduler service that reports the disabled
signal together with a configuration. -/
def disabledWithConfig : Service :=
  { sampleService with
    schedulerService :=
      { GetSchedulerConfig := (some { body := "profiles" }, some .ErrServiceDisabled)
        RestartScheduler := fun _ => some .ErrServiceDisabled } }

/-- A scheduler that cannot be restarted, for a reason other than the
disabled signal. -/
def restartFails : Service :=
  { quietService with
    schedulerService :=
      { GetSchedulerConfig := (none, none)
        RestartScheduler := fun _ => some (.backend "scheduler unavailable") } }

/-- A destination that rejects every namespace. -/
def namespaceFails : Service :=
  { quietService with
    client := { Apply := fun _ _ => some (.backend "namespace rejected"), List := .ok [] } }

/-- An apply configuration with the given name, namespace and UID. -/
def configOf (name ns uid : String) : ApplyConfiguration :=
  { Kind := none
    APIVersion := none
    ObjectMetaApplyConfiguration := some { Name := some name, Namespace := some ns, UID := some uid }
    body := "" }

/-- A snapshot to import: a reserved and a user namespace, a priority class,
a claim, a node, a pod, and a volume bound to the claim. -/
def sampleImport : ResourcesForImport :=
  { Pods := [configOf "app" "team-a" "p3"]
    Nodes := [configOf "node-1" "" "m1"]
    Pvs :=
      [{ Kind := none
         APIVersion := none
         ObjectMetaApplyConfiguration := some { Name := some "vol", Namespace := none, UID := some "v1" }
         Spec := some
           { ClaimRef := some { Name := some "data", Namespace := some "team-a", UID := some "c1" }
             body := "" }
         Status := some { Phase := some "Bound" } }]
    Pvcs := [configOf "data" "team-a" "c1"]
    StorageClasses := []
    PriorityClasses := [configOf "high" "" "q2"]
    SchedulerConfig := some { body := "profiles" }
    Namespaces := [configOf "kube-system" "" "n1", configOf "team-a" "" "n3"] }

/-- A destination that rejects every node. -/
def nodeApplyFails : Service :=
  { quietService with
    nodeService := { Apply := fun _ _ => some (.backend "node rejected"), List := .ok [] } }

/-- A destination in which the claim of the sample volume exists, under a new
identity. -/
def claimFound : Service :=
  { quietService with
    pvcService :=
      { Get := fun _ name ns =>
          .ok { ObjectMeta := { Name := name, Namespace := ns, UID := "c1-new" }, body := "" }
        Apply := fun _ _ _ => none
        List := .ok [] } }

end Simulator.Export

/-! # The store of extender results

The second part embeds `simulator/scheduler/extender/resultstore/resultstore.go`.

* A Go map is an association list with unique keys (`AList`); an assignment
  `m[k] = v` is `AList.insert`, `delete(m, k)` is `AList.erase`.
* The store maps a key to a pointer to a `result`; every pointer is created by
  `newData` for one key and never shared, so the model maps a key to the
  `result` itself, and an update through the pointer re-inserts the updated
  `result`. A field access through the pointer of an absent key is a nil
  dereference: the function returns `none`.
* Every public function holds the mutex of the store from its first to its
  last statement: it is one atomic transition of the store.
* `json.Marshal`, the annotation keys of package `annotation` and
  `metav1.SetMetaDataAnnotation` are not among the sources. The encoder and the
  keys are parameters of the model; `SetMetaDataAnnotation` is the assignment
  `obj.Annotations[ann] = value` on a map allocated when nil.
* `klog.Errorf` appends a line to the log that the function returns with the
  pod.
-/

namespace Simulator.ResultStore

/-! ## Types -/

/-- A Go `map[string]V`. -/
abbrev GoMap (V : Type) : Type := AList (fun _ : String => V)

/-- The identifying part of `metav1.ObjectMeta`, with the annotations; a nil
map of annotations is `none`. -/
structure ObjectMeta where
  Name : String
  Namespace : String
  Annotations : Option (GoMap String)
deriving DecidableEq

/-- A `v1.Pod`. -/
structure Pod where
  ObjectMeta : ObjectMeta
  body : String
deriving DecidableEq

/-- The promoted field `Namespace` of a pod. -/
def Pod.Namespace (pod : Pod) : String := pod.ObjectMeta.Namespace

/-- The promoted field `Name` of a pod. -/
def Pod.Name (pod : Pod) : String := pod.ObjectMeta.Name

/-- An `extenderv1.ExtenderFilterResult`. -/
structure ExtenderFilterResult where
  body : String
deriving DecidableEq, Repr

/-- An `extenderv1.HostPriorityList`. -/
structure HostPriorityList where
  body : String
deriving DecidableEq, Repr

/-- An `extenderv1.ExtenderPreemptionResult`. -/
structure ExtenderPreemptionResult where
  body : String
deriving DecidableEq, Repr

/-- An `extenderv1.ExtenderBindingResult`. -/
structure ExtenderBindingResult where
  body : String
deriving DecidableEq, Repr

/-- An `extenderv1.ExtenderArgs`; the pod is a pointer. -/
structure ExtenderArgs where
  Pod : Option Pod
  body : String

/-- An `extenderv1.ExtenderPreemptionArgs`; the pod is a pointer. -/
structure ExtenderPreemptionArgs where
  Pod : Option Pod
  body : String

/-- An `extenderv1.ExtenderBindingArgs`. -/
structure ExtenderBindingArgs where
  PodName : String
  PodNamespace : String
  PodUID : String
  Node : String

/-- An error value: an error of the encoder, or an error wrapped by
`xerrors.Errorf` with `%w`. -/
inductive Error where
  | encoding (msg : String) : Error
  | Errorf (msg : String) (err : Error) : Error
deriving DecidableEq, Repr

/-- A line written by `klog.Errorf`. -/
structure LogLine where
  format : String
  err : Error
deriving DecidableEq, Repr

/-- The function `json.Marshal` at the four map types of a `result`. -/
structure Json where
  filter : GoMap ExtenderFilterResult → Except Error String
  prioritize : GoMap HostPriorityList → Except Error String
  preempt : GoMap ExtenderPreemptionResult → Except Error String
  bind : GoMap ExtenderBindingResult → Except Error String

/-- The constants of package `annotation`. -/
structure AnnotationKeys where
  ExtenderFilterResultAnnotationKey : String
  ExtenderPrioritizeResultAnnotationKey : String
  ExtenderPreemptResultAnnotationKey : String
  ExtenderBindResultAnnotationKey : String
deriving DecidableEq, Repr

/-! ## The store -/

/-- The key of the result map: created from namespace and pod name. -/
abbrev key : Type := String

/-- The type `result`: the results of the extenders for one pod, by phase and
by host name. -/
structure result where
  filter : GoMap ExtenderFilterResult
  prioritize : GoMap HostPriorityList
  preempt : GoMap ExtenderPreemptionResult
  bind : GoMap ExtenderBindingResult
deriving DecidableEq

/-- The type `store`, without its mutex. -/
structure store where
  results : AList (fun _ : key => result)
  weight : GoMap Int
deriving DecidableEq

/-- The function `New`. -/
def New : store :=
  { results := ∅, weight := ∅ }

/-- The function `newKey`. -/
def newKey (namespace_ podName : String) : key :=
  namespace_ ++ "/" ++ podName

/-- The function `newData`. -/
def newData : result :=
  { filter := ∅, prioritize := ∅, preempt := ∅, bind := ∅ }

/-- The function `metav1.SetMetaDataAnnotation`. -/
def SetMetaDataAnnotation (obj : ObjectMeta) (ann value : String) : ObjectMeta :=
  match obj.Annotations with
  | none => { obj with Annotations := some ((∅ : GoMap String).insert ann value) }
  | some m => { obj with Annotations := some (m.insert ann value) }

/-- The statement `metav1.SetMetaDataAnnotation(&pod.ObjectMeta, ann, value)`. -/
def Pod.annotate (pod : Pod) (ann value : String) : Pod :=
  { pod with ObjectMeta := SetMetaDataAnnotation pod.ObjectMeta ann value }

/-- The method `addFilterResultToPod`: the pod after the call and the error
returned; `none` when the store has no result for the key of the pod. -/
def store.addFilterResultToPod (s : store) (json : Json) (keys : AnnotationKeys) (pod : Pod) :
    Option (Pod × Option Error) :=
  let k := newKey pod.Namespace pod.Name
  match s.results.lookup k with
  | none => none
  | some d =>
    match json.filter d.filter with
    | .error err => some (pod, some (.Errorf "encode Filter results to json: %w" err))
    | .ok results => some (pod.annotate keys.ExtenderFilterResultAnnotationKey results, none)

/-- The method `addPrioritizeResultToPod`. -/
def store.addPrioritizeResultToPod (s : store) (json : Json) (keys : AnnotationKeys)
    (pod : Pod) : Option (Pod × Option Error) :=
  let k := newKey pod.Namespace pod.Name
  match s.results.lookup k with
  | none => none
  | some d =>
    match json.prioritize d.prioritize with
    | .error err => some (pod, some (.Errorf "encode Prioritize results to json: %w" err))
    | .ok results =>
      some (pod.annotate keys.ExtenderPrioritizeResultAnnotationKey results, none)

/-- The method `addPreemptResultToPod`. -/
def store.addPreemptResultToPod (s : store) (json : Json) (keys : AnnotationKeys) (pod : Pod) :
    Option (Pod × Option Error) :=
  let k := newKey pod.Namespace pod.Name
  match s.results.lookup k with
  | none => none
  | some d =>
    match json.preempt d.preempt with
    | .error err => some (pod, some (.Errorf "encode Preempt results to json: %w" err))
    | .ok results => some (pod.annotate keys.ExtenderPreemptResultAnnotationKey results, none)

/-- The method `addBindResultToPod`. -/
def store.addBindResultToPod (s : store) (json : Json) (keys : AnnotationKeys) (pod : Pod) :
    Option (Pod × Option Error) :=
  let k := newKey pod.Namespace pod.Name
  match s.results.lookup k with
  | none => none
  | some d =>
    match json.bind d.bind with
    | .error err => some (pod, some (.Errorf "encode Bind results to json: %w" err))
    | .ok results => some (pod.annotate keys.ExtenderBindResultAnnotationKey results, none)

/-- The method `AddStoredResultToPod`: the pod after the call and the lines
logged; `none` for a nil dereference. The store is read only. -/
def store.AddStoredResultToPod (s : store) (json : Json) (keys : AnnotationKeys) (pod : Pod) :
    Option (Pod × List LogLine) :=
  let k := newKey pod.Namespace pod.Name
  match s.results.lookup k with
  | none => some (pod, [])
  | some _ =>
    match s.addFilterResultToPod json keys pod with
    | none => none
    | some (pod, some err) =>
      some (pod, [{ format := "failed to add filtering result to the pod: %+v", err := err }])
    | some (pod, none) =>
      match s.addPrioritizeResultToPod json keys pod with
      | none => none
      | some (pod, some err) =>
        some (pod, [{ format := "failed to add prioritize result to the pod: %+v", err := err }])
      | some (pod, none) =>
        match s.addPreemptResultToPod json keys pod with
        | none => none
        | some (pod, some err) =>
          some (pod, [{ format := "failed to add preempt result to the pod: %+v", err := err }])
        | some (pod, none) =>
          match s.addBindResultToPod json keys pod with
          | none => none
          | some (pod, some err) =>
            some (pod, [{ format := "failed to add bind result to the pod: $+v", err := err }])
          | some (pod, none) => some (pod, [])

/-- The statements `if _, ok := s.results[k]; !ok { s.results[k] = newData() }`. -/
def store.ensure (s : store) (k : key) : store :=
  match s.results.lookup k with
  | some _ => s
  | none => { s with results := s.results.insert k newData }

/-- An assignment through the pointer `s.results[k]`; `none` when the key is
absent (the pointer is nil). -/
def store.update (s : store) (k : key) (f : result → result) : Option store :=
  match s.results.lookup k with
  | none => none
  | some d => some { s with results := s.results.insert k (f d) }

/-- The method `AddFilterResult`; `none` when `args.Pod` is nil. -/
def store.AddFilterResult (s : store) (args : ExtenderArgs) (res : ExtenderFilterResult)
    (hostName : String) : Option store :=
  match args.Pod with
  | none => none
  | some pod =>
    let k := newKey pod.Namespace pod.Name
    (s.ensure k).update k (fun d => { d with filter := d.filter.insert hostName res })

/-- The method `AddPrioritizeResult`; `none` when `args.Pod` is nil. -/
def store.AddPrioritizeResult (s : store) (args : ExtenderArgs) (res : HostPriorityList)
    (hostName : String) : Option store :=
  match args.Pod with
  | none => none
  | some pod =>
    let k := newKey pod.Namespace pod.Name
    (s.ensure k).update k (fun d => { d with prioritize := d.prioritize.insert hostName res })

/-- The method `AddPreemptResult`; `none` when `args.Pod` is nil. -/
def store.AddPreemptResult (s : store) (args : ExtenderPreemptionArgs)
    (res : ExtenderPreemptionResult) (hostName : String) : Option store :=
  match args.Pod with
  | none => none
  | some pod =>
    let k := newKey pod.Namespace pod.Name
    (s.ensure k).update k (fun d => { d with preempt := d.preempt.insert hostName res })

/-- The method `AddBindResult`. -/
def store.AddBindResult (s : store) (args : ExtenderBindingArgs) (res : ExtenderBindingResult)
    (hostName : String) : Option store :=
  let k := newKey args.PodNamespace args.PodName
  (s.ensure k).update k (fun d => { d with bind := d.bind.insert hostName res })

/-- The method `deleteData`. -/
def store.deleteData (s : store) (k : key) : store :=
  { s with results := s.results.erase k }

/-- The method `DeleteData`. -/
def store.DeleteData (s : store) (pod : Pod) : store :=
  s.deleteData (newKey pod.Namespace pod.Name)

/-! ## Specification-side definitions -/

/-- The value of an annotation of a pod, when the pod has it. -/
def Pod.annotated (pod : Pod) (ann : String) : Option String :=
  match pod.ObjectMeta.Annotations with
  | none => none
  | some m => m.lookup ann

/-- The result stored for a key, or an empty one when the key is absent. -/
def store.recordOf (s : store) (k : key) : result :=
  match s.results.lookup k with
  | some d => d
  | none => newData

/-- Decorating the pod succeeds and leaves the annotation `ann` with the value
`value` on it. -/
def Decorated (s : store) (json : Json) (keys : AnnotationKeys) (pod : Pod)
    (ann value : String) : Prop :=
  ∃ pod1 log, s.AddStoredResultToPod json keys pod = some (pod1, log) ∧
    pod1.annotated ann = some value

/-- The four annotation keys are pairwise distinct. -/
def AnnotationKeys.Distinct (keys : AnnotationKeys) : Prop :=
  [keys.ExtenderFilterResultAnnotationKey, keys.ExtenderPrioritizeResultAnnotationKey,
    keys.ExtenderPreemptResultAnnotationKey, keys.ExtenderBindResultAnnotationKey].Nodup

instance (keys : AnnotationKeys) : Decidable keys.Distinct := by
  unfold AnnotationKeys.Distinct
  infer_instance

/-! ## Runs of concurrent callers

Every public method of the store locks the mutex in its first statement and
unlocks it when it returns, so the calls of concurrent callers take effect one
at a time, each as one transition of the store, in the order in which they
acquire the mutex. -/

/-- A call of one of the four record methods. -/
inductive Call where
  | AddFilterResult (args : ExtenderArgs) (res : ExtenderFilterResult) (hostName : String)
  | AddPrioritizeResult (args : ExtenderArgs) (res : HostPriorityList) (hostName : String)
  | AddPreemptResult (args : ExtenderPreemptionArgs) (res : ExtenderPreemptionResult)
      (hostName : String)
  | AddBindResult (args : ExtenderBindingArgs) (res : ExtenderBindingResult)
      (hostName : String)

/-- The transition of the store under a call; `none` when the call panics. -/
def Call.run (s : store) : Call → Option store
  | .AddFilterResult args res hostName => s.AddFilterResult args res hostName
  | .AddPrioritizeResult args res hostName => s.AddPrioritizeResult args res hostName
  | .AddPreemptResult args res hostName => s.AddPreemptResult args res hostName
  | .AddBindResult args res hostName => s.AddBindResult args res hostName

/-- The store after the calls of a list have taken effect one after the
other; `none` when one of them panics. -/
def runCalls : store → List Call → Option store
  | s, [] => some s
  | s, c :: l =>
    match c.run s with
    | none => none
    | some s1 => runCalls s1 l

/-- The order in which the calls of concurrent callers take effect: each
caller issues the calls of its list in order, `sched` names, step by step, the
caller whose next call acquires the mutex (a step naming a caller that does
not exist or has finished is skipped), and when `sched` is used up the callers
that have not finished complete one after the other. -/
def serialize : List Nat → List (List Call) → List Call
  | [], callers => callers.flatten
  | i :: sched, callers =>
    match callers[i]? with
    | some (c :: rest) => c :: serialize sched (callers.set i rest)
    | _ => serialize sched callers

/-- The four phases. -/
inductive Phase where
  | filter
  | prioritize
  | preempt
  | bind
deriving DecidableEq, Repr

/-- The payload of a record, of any phase. -/
inductive Payload where
  | filter (p : ExtenderFilterResult)
  | prioritize (p : HostPriorityList)
  | preempt (p : ExtenderPreemptionResult)
  | bind (p : ExtenderBindingResult)
deriving DecidableEq, Repr

/-- The key a call writes under; `none` when its pod pointer is nil. -/
def Call.key : Call → Option key
  | .AddFilterResult args _ _ => args.Pod.map (fun pod => newKey pod.Namespace pod.Name)
  | .AddPrioritizeResult args _ _ => args.Pod.map (fun pod => newKey pod.Namespace pod.Name)
  | .AddPreemptResult args _ _ => args.Pod.map (fun pod => newKey pod.Namespace pod.Name)
  | .AddBindResult args _ _ => some (newKey args.PodNamespace args.PodName)

/-- The phase a call writes to. -/
def Call.phase : Call → Phase
  | .AddFilterResult _ _ _ => .filter
  | .AddPrioritizeResult _ _ _ => .prioritize
  | .AddPreemptResult _ _ _ => .preempt
  | .AddBindResult _ _ _ => .bind

/-- The participant a call writes for. -/
def Call.participant : Call → String
  | .AddFilterResult _ _ hostName => hostName
  | .AddPrioritizeResult _ _ hostName => hostName
  | .AddPreemptResult _ _ hostName => hostName
  | .AddBindResult _ _ hostName => hostName

/-- The payload a call writes. -/
def Call.payload : Call → Payload
  | .AddFilterResult _ res _ => .filter res
  | .AddPrioritizeResult _ res _ => .prioritize res
  | .AddPreemptResult _ res _ => .preempt res
  | .AddBindResult _ res _ => .bind res

/-- The payload a result holds for a phase and a participant. -/
def result.cell (d : result) : Phase → String → Option Payload
  | .filter, h => (d.filter.lookup h).map .filter
  | .prioritize, h => (d.prioritize.lookup h).map .prioritize
  | .preempt, h => (d.preempt.lookup h).map .preempt
  | .bind, h => (d.bind.lookup h).map .bind

/-- The payload the store holds for a key, a phase and a participant. -/
def store.cell (s : store) (k : key) (ph : Phase) (h : String) : Option Payload :=
  (s.recordOf k).cell ph h

/-- The payload of the last call of the list that writes for the key `k`, the
phase `ph` and the participant `h`, if any call does. -/
def lastWrite (k : key) (ph : Phase) (h : String) : List Call → Option Payload
  | [] => none
  | c :: l =>
    match lastWrite k ph h l with
    | some p => some p
    | none => if c.key = some k ∧ c.phase = ph ∧ c.participant = h then some c.payload else none

/-! ## Concrete stores -/

/-- A pod without annotations. -/
def podOf (namespace_ name : String) : Pod :=
  { ObjectMeta := { Name := name, Namespace := namespace_, Annotations := none }, body := "" }

/-- Sample annotation keys. -/
def sampleKeys : AnnotationKeys :=
  { ExtenderFilterResultAnnotationKey := "extender-filter-result"
    ExtenderPrioritizeResultAnnotationKey := "extender-prioritize-result"
    ExtenderPreemptResultAnnotationKey := "extender-preempt-result"
    ExtenderBindResultAnnotationKey := "extender-bind-result" }

/-- The rendering of a map by an encoder that lists the entries. -/
def render {V : Type} (body : V → String) (m : GoMap V) : String :=
  String.intercalate "," (m.entries.map (fun e => e.1 ++ ":" ++ body e.2))

/-- An encoder that succeeds on every map. -/
def sampleJson : Json :=
  { filter := fun m => .ok (render (fun v => v.body) m)
    prioritize := fun m => .ok (render (fun v => v.body) m)
    preempt := fun m => .ok (render (fun v => v.body) m)
    bind := fun m => .ok (render (fun v => v.body) m) }

/-- An encoder that fails on the filter results only. -/
def filterUnencodable : Json :=
  { sampleJson with filter := fun _ => .error (.encoding "unsupported value") }

/-- A store with one prioritize result for the pod `team-a/app`. -/
def sampleStore : store :=
  { results :=
      (∅ : AList (fun _ : key => result)).insert "team-a/app"
        { newData with
          prioritize := (∅ : GoMap HostPriorityList).insert "ext-1" { body := "node-1=7" } }
    weight := ∅ }

/-- Two callers: the first records a filter result twice for the pod
`team-a/app`, the second a prioritize result for the pod `team-b/web`. -/
def sampleCallers : List (List Call) :=
  [[.AddFilterResult { Pod := some (podOf "team-a" "app"), body := "" } { body := "rejected" }
      "ext-1",
    .AddFilterResult { Pod := some (podOf "team-a" "app"), body := "" } { body := "passed" }
      "ext-1"],
   [.AddPrioritizeResult { Pod := some (podOf "team-b" "web"), body := "" }
      { body := "node-1=7" } "ext-1"]]

end Simulator.ResultStore

namespace Simulator.Export

/-! ## The executor: every join is a sequential run of a permutation -/

theorem perm_cons_eraseIdx {α : Type} :
    ∀ (l : List α) (i : Nat) (a : α), l[i]? = some a → (a :: l.eraseIdx i).Perm l
  | [], i, a, h => by simp at h
  | b :: l, 0, a, h => by
    simp at h
    subst h
    simp
  | b :: l, i + 1, a, h => by
    simp at h
    have ih := perm_cons_eraseIdx l i a h
    simp only [List.eraseIdx_cons_succ]
    exact (List.Perm.swap b a _).trans (ih.cons b)

theorem complete_eq_runSeq {S : Type} (choose : Nat → Nat) :
    ∀ (n : Nat) (ts : List (Task S)) (s : S) (first : Option Error), ts.length = n →
      ∃ l, l.Perm ts ∧ complete choose n ts s first = runSeq l s first := by
  intro n
  induction n with
  | zero =>
    intro ts s first hlen
    have hts : ts = [] := List.length_eq_zero.mp hlen
    subst hts
    refine ⟨[], List.Perm.refl _, ?_⟩
    cases first <;> simp [complete, runSeq]
  | succ n ih =>
    intro ts s first hlen
    have hidx : choose (n + 1) % ts.length < ts.length := Nat.mod_lt _ (by omega)
    have hget : ts[choose (n + 1) % ts.length]? = some ts[choose (n + 1) % ts.length] :=
      List.getElem?_eq_getElem hidx
    have hlen1 : (ts.eraseIdx (choose (n + 1) % ts.length)).length = n := by
      rw [List.length_eraseIdx_of_lt hidx]
      omega
    have hperm := perm_cons_eraseIdx ts _ _ hget
    rcases h : ts[choose (n + 1) % ts.length] s with ⟨s1, res⟩
    cases res with
    | ok =>
      obtain ⟨l, hp, he⟩ := ih _ s1 first hlen1
      refine ⟨_ :: l, (hp.cons _).trans hperm, ?_⟩
      simp only [complete, hget, runSeq, h, he]
    | error err =>
      obtain ⟨l, hp, he⟩ := ih _ s1
        (match first with
         | none => some err
         | some e => some e) hlen1
      refine ⟨_ :: l, (hp.cons _).trans hperm, ?_⟩
      simp only [complete, hget, runSeq, h, he]
    | panic =>
      refine ⟨_ :: ts.eraseIdx (choose (n + 1) % ts.length), hperm, ?_⟩
      simp only [complete, hget, runSeq, h]

theorem Wait_eq_runSeq {S : Type} (eg : SemaphoredErrGroup S) (s : S) :
    ∃ l, l.Perm eg.running ∧
      eg.Wait s = ((runSeq l s none).2, (runSeq l s none).1,
        { eg with waited := eg.waited + 1, running := [] }) := by
  obtain ⟨l, hp, he⟩ := complete_eq_runSeq (eg.exec.order eg.waited) eg.running.length
    eg.running s none rfl
  exact ⟨l, hp, by simp only [SemaphoredErrGroup.Wait, he]⟩

/-! ## Sequential runs -/

theorem runSeq_first_some {S : Type} :
    ∀ (l : List (Task S)) (s : S) (e : Error),
      (runSeq l s (some e)).2 = .error e ∨ (runSeq l s (some e)).2 = .panic := by
  intro l
  induction l with
  | nil => intro s e; simp [runSeq]
  | cons t ts ih =>
    intro s e
    rcases h : t s with ⟨s1, res⟩
    cases res with
    | ok => simpa only [runSeq, h] using ih s1 e
    | error err => simpa only [runSeq, h] using ih s1 e
    | panic => simp [runSeq, h]

theorem runSeq_invariant {S : Type} (P : S → Prop) :
    ∀ (l : List (Task S)) (s : S) (first : Option Error),
      (∀ t ∈ l, ∀ s, P s → P (t s).1) → P s → P (runSeq l s first).1 := by
  intro l
  induction l with
  | nil => intro s first _ hs; cases first <;> simpa [runSeq] using hs
  | cons t ts ih =>
    intro s first hpres hs
    have h1 : P (t s).1 := hpres t (List.mem_cons_self _ _) s hs
    have hrest : ∀ u ∈ ts, ∀ s, P s → P (u s).1 :=
      fun u hu => hpres u (List.mem_cons_of_mem _ hu)
    rcases h : t s with ⟨s1, res⟩
    rw [h] at h1
    cases res with
    | ok => simpa only [runSeq, h] using ih s1 first hrest h1
    | error err => simpa only [runSeq, h] using ih s1 _ hrest h1
    | panic => simpa only [runSeq, h] using h1

theorem runSeq_establish {S : Type} (Q : S → Prop) (t0 : Task S) :
    ∀ (l : List (Task S)) (s : S) (first : Option Error), t0 ∈ l →
      (∀ t ∈ l, ∀ s, Q s → Q (t s).1) → (∀ s, (t0 s).2 = .ok → Q (t0 s).1) →
      (runSeq l s first).2 = .ok → Q (runSeq l s first).1 := by
  intro l
  induction l with
  | nil => intro s first hmem; simp at hmem
  | cons t ts ih =>
    intro s first hmem hpres hest hok
    have hrest : ∀ u ∈ ts, ∀ s, Q s → Q (u s).1 :=
      fun u hu => hpres u (List.mem_cons_of_mem _ hu)
    rcases h : t s with ⟨s1, res⟩
    cases res with
    | ok =>
      simp only [runSeq, h] at hok ⊢
      rcases List.mem_cons.mp hmem with heq | hin
      · subst heq
        have hq : Q (t0 s).1 := hest s (by rw [h])
        rw [h] at hq
        exact runSeq_invariant Q ts s1 first hrest hq
      · exact ih s1 first hin hrest hest hok
    | error err =>
      simp only [runSeq, h] at hok
      cases first with
      | none =>
        rcases runSeq_first_some ts s1 err with h2 | h2 <;> simp [h2] at hok
      | some e =>
        rcases runSeq_first_some ts s1 e with h2 | h2 <;> simp [h2] at hok
    | panic => simp [runSeq, h] at hok

theorem runSeq_all_ok {S : Type} :
    ∀ (l : List (Task S)) (s : S), (∀ t ∈ l, ∀ s, (t s).2 = .ok) →
      (runSeq l s none).2 = .ok := by
  intro l
  induction l with
  | nil => intro s _; simp [runSeq]
  | cons t ts ih =>
    intro s hall
    have h1 := hall t (List.mem_cons_self _ _) s
    rcases h : t s with ⟨s1, res⟩
    rw [h] at h1
    simp only at h1
    subst h1
    simpa only [runSeq, h] using ih s1 (fun u hu => hall u (List.mem_cons_of_mem _ hu))

theorem runSeq_error_source {S : Type} :
    ∀ (l : List (Task S)) (s : S) (first : Option Error) (e : Error),
      (runSeq l s first).2 = .error e →
      first = some e ∨ ∃ t ∈ l, ∃ s1, (t s1).2 = .error e := by
  intro l
  induction l with
  | nil =>
    intro s first e h
    cases first with
    | none => simp [runSeq] at h
    | some e1 => simpa [runSeq] using h
  | cons t ts ih =>
    intro s first e h
    rcases ht : t s with ⟨s1, res⟩
    cases res with
    | ok =>
      simp only [runSeq, ht] at h
      rcases ih s1 first e h with h1 | ⟨u, hu, s2, h2⟩
      · exact Or.inl h1
      · exact Or.inr ⟨u, List.mem_cons_of_mem _ hu, s2, h2⟩
    | error err =>
      simp only [runSeq, ht] at h
      rcases ih s1 _ e h with h1 | ⟨u, hu, s2, h2⟩
      · cases first with
        | none =>
          simp only [Option.some.injEq] at h1
          subst h1
          exact Or.inr ⟨t, List.mem_cons_self _ _, s, by rw [ht]⟩
        | some e1 => exact Or.inl h1
      · exact Or.inr ⟨u, List.mem_cons_of_mem _ hu, s2, h2⟩
    | panic => simp [runSeq, ht] at h

theorem runSeq_not_ok {S : Type} (t0 : Task S) :
    ∀ (l : List (Task S)) (s : S) (first : Option Error), t0 ∈ l →
      (∀ s, (t0 s).2 ≠ .ok) → (runSeq l s first).2 ≠ .ok := by
  intro l
  induction l with
  | nil => intro s first hmem; simp at hmem
  | cons t ts ih =>
    intro s first hmem hbad
    rcases h : t s with ⟨s1, res⟩
    cases res with
    | ok =>
      simp only [runSeq, h]
      rcases List.mem_cons.mp hmem with heq | hin
      · subst heq
        exact absurd (by rw [h]) (hbad s)
      · exact ih s1 first hin hbad
    | error err =>
      simp only [runSeq, h]
      cases first with
      | none => rcases runSeq_first_some ts s1 err with h2 | h2 <;> simp [h2]
      | some e => rcases runSeq_first_some ts s1 e with h2 | h2 <;> simp [h2]
    | panic => simp [runSeq, h]

theorem runSeq_no_panic {S : Type} :
    ∀ (l : List (Task S)) (s : S) (first : Option Error),
      (∀ t ∈ l, ∀ s, (t s).2 ≠ .panic) → (runSeq l s first).2 ≠ .panic := by
  intro l
  induction l with
  | nil => intro s first _; cases first <;> simp [runSeq]
  | cons t ts ih =>
    intro s first hall
    have h1 := hall t (List.mem_cons_self _ _) s
    have hrest : ∀ u ∈ ts, ∀ s, (u s).2 ≠ .panic :=
      fun u hu => hall u (List.mem_cons_of_mem _ hu)
    rcases h : t s with ⟨s1, res⟩
    rw [h] at h1
    cases res with
    | ok => simpa only [runSeq, h] using ih s1 first hrest
    | error err => simpa only [runSeq, h] using ih s1 _ hrest
    | panic => simp at h1

/-! ## Export: the group after dispatch -/

theorem get_of_dispatched (s : Service) (x : Executor) (opts : options)
    (hd : ∀ k, k < 8 → x.dispatch k = none) :
    ∃ l, l.Perm (exportTasks s opts) ∧
      get s x opts =
        (match runSeq l {} none with
         | (r, .ok) => (some r, .ok)
         | (_, .error err) => (none, .error (.Errorf "get resources all" err))
         | (_, .panic) => (none, .panic)) := by
  have h0 := hd 0 (by omega)
  have h1 := hd 1 (by omega)
  have h2 := hd 2 (by omega)
  have h3 := hd 3 (by omega)
  have h4 := hd 4 (by omega)
  have h5 := hd 5 (by omega)
  have h6 := hd 6 (by omega)
  have h7 := hd 7 (by omega)
  obtain ⟨l, hp, hw⟩ := Wait_eq_runSeq
    ({ exec := x, started := 8, waited := 0, running := exportTasks s opts } :
      SemaphoredErrGroup ResourcesForExport) {}
  refine ⟨l, hp, ?_⟩
  simp only [exportTasks] at hw
  simp only [get, listPods, listNodes, listPvs, listPvcs, listStorageClasses, listPcs,
    listNamespaces, getSchedulerConfig, SemaphoredErrGroup.Go, NewErrGroupWithSemaphore,
    h0, h1, h2, h3, h4, h5, h6, h7, List.nil_append, List.cons_append, hw]
  rcases runSeq l {} none with ⟨r, res⟩
  cases res <;> rfl

theorem get_error_of_not_dispatched (s : Service) (x : Executor) (opts : options)
    (k : Nat) (hk : k < 8) (h : x.dispatch k ≠ none) :
    ∃ msg err, get s x opts = (none, .error (.Errorf msg (.Errorf "start error group" err))) := by
  cases h0 : x.dispatch 0 with
  | some e => exact ⟨"call listPods", e, by simp [get, listPods, SemaphoredErrGroup.Go, NewErrGroupWithSemaphore, h0]⟩
  | none =>
  cases h1 : x.dispatch 1 with
  | some e => exact ⟨"call listNodes", e, by simp [get, listPods, listNodes, SemaphoredErrGroup.Go, NewErrGroupWithSemaphore, h0, h1]⟩
  | none =>
  cases h2 : x.dispatch 2 with
  | some e => exact ⟨"call listPvs", e, by simp [get, listPods, listNodes, listPvs, SemaphoredErrGroup.Go, NewErrGroupWithSemaphore, h0, h1, h2]⟩
  | none =>
  cases h3 : x.dispatch 3 with
  | some e => exact ⟨"call listPvcs", e, by simp [get, listPods, listNodes, listPvs, listPvcs, SemaphoredErrGroup.Go, NewErrGroupWithSemaphore, h0, h1, h2, h3]⟩
  | none =>
  cases h4 : x.dispatch 4 with
  | some e => exact ⟨"call listStorageClasses", e, by simp [get, listPods, listNodes, listPvs, listPvcs, listStorageClasses, SemaphoredErrGroup.Go, NewErrGroupWithSemaphore, h0, h1, h2, h3, h4]⟩
  | none =>
  cases h5 : x.dispatch 5 with
  | some e => exact ⟨"call listPcs", e, by simp [get, listPods, listNodes, listPvs, listPvcs, listStorageClasses, listPcs, SemaphoredErrGroup.Go, NewErrGroupWithSemaphore, h0, h1, h2, h3, h4, h5]⟩
  | none =>
  cases h6 : x.dispatch 6 with
  | some e => exact ⟨"call listNamespaces", e, by simp [get, listPods, listNodes, listPvs, listPvcs, listStorageClasses, listPcs, listNamespaces, SemaphoredErrGroup.Go, NewErrGroupWithSemaphore, h0, h1, h2, h3, h4, h5, h6]⟩
  | none =>
  cases h7 : x.dispatch 7 with
  | some e => exact ⟨"call getSchedulerConfig", e, by simp [get, listPods, listNodes, listPvs, listPvcs, listStorageClasses, listPcs, listNamespaces, getSchedulerConfig, SemaphoredErrGroup.Go, NewErrGroupWithSemaphore, h0, h1, h2, h3, h4, h5, h6, h7]⟩
  | none =>
    exfalso
    interval_cases k <;> simp_all

/-! ## Export: the state after the join -/

theorem exportTask_effect (s : Service) (opts : options) :
    ∀ t ∈ exportTasks s opts, ∀ r : ResourcesForExport,
      ((t r).2 = .ok ∨ ∃ err, (t r).2 = .error err) ∧
      ((t r).1 = r ∨
      (t r).1 = { r with Pods := (snapshotOf s).Pods } ∨
      (t r).1 = { r with Nodes := (snapshotOf s).Nodes } ∨
      (t r).1 = { r with Pvs := (snapshotOf s).Pvs } ∨
      (t r).1 = { r with Pvcs := (snapshotOf s).Pvcs } ∨
      (t r).1 = { r with StorageClasses := (snapshotOf s).StorageClasses } ∨
      (t r).1 = { r with PriorityClasses := (snapshotOf s).PriorityClasses } ∨
      (t r).1 = { r with Namespaces := (snapshotOf s).Namespaces } ∨
      (t r).1 = { r with SchedulerConfig := (snapshotOf s).SchedulerConfig }) := by
  intro t ht r
  simp only [exportTasks, List.mem_cons, List.mem_singleton, List.not_mem_nil, or_false] at ht
  rcases ht with rfl | rfl | rfl | rfl | rfl | rfl | rfl | rfl
  · simp only [listPodsTask, snapshotOf]
    cases s.podService.List <;> cases opts.ignoreErr <;> simp [listed]
  · simp only [listNodesTask, snapshotOf]
    cases s.nodeService.List <;> cases opts.ignoreErr <;> simp [listed]
  · simp only [listPvsTask, snapshotOf]
    cases s.pvService.List <;> cases opts.ignoreErr <;> simp [listed]
  · simp only [listPvcsTask, snapshotOf]
    cases s.pvcService.List <;> cases opts.ignoreErr <;> simp [listed]
  · simp only [listStorageClassesTask, snapshotOf]
    cases s.storageClassService.List <;> cases opts.ignoreErr <;> simp [listed]
  · simp only [listPcsTask, snapshotOf]
    cases s.priorityclassService.List <;> cases opts.ignoreErr <;> simp [listed]
  · simp only [listNamespacesTask, snapshotOf]
    cases s.client.List <;> cases opts.ignoreErr <;> simp [listed]
  · simp only [getSchedulerConfigTask, snapshotOf]
    rcases s.schedulerService.GetSchedulerConfig with ⟨ss, _ | err⟩
    · simp
    · cases h : err.Is .ErrServiceDisabled <;> cases opts.ignoreErr <;> simp [h]

theorem runSeq_export_Pods (s : Service) (opts : options) (l : List (Task ResourcesForExport))
    (hp : l.Perm (exportTasks s opts)) (hok : (runSeq l {} none).2 = .ok) :
    (runSeq l {} none).1.Pods = (snapshotOf s).Pods := by
  refine runSeq_establish (fun r => r.Pods = (snapshotOf s).Pods) (listPodsTask s opts) l {} none
    (hp.mem_iff.mpr (by simp [exportTasks])) ?_ ?_ hok
  · intro t ht r hr
    rcases (exportTask_effect s opts t (hp.mem_iff.mp ht) r).2 with
      h | h | h | h | h | h | h | h | h <;> rw [h] <;> simp [hr]
  · intro r
    simp only [listPodsTask, snapshotOf]
    cases s.podService.List <;> cases opts.ignoreErr <;> simp [listed]

theorem runSeq_export_Nodes (s : Service) (opts : options) (l : List (Task ResourcesForExport))
    (hp : l.Perm (exportTasks s opts)) (hok : (runSeq l {} none).2 = .ok) :
    (runSeq l {} none).1.Nodes = (snapshotOf s).Nodes := by
  refine runSeq_establish (fun r => r.Nodes = (snapshotOf s).Nodes) (listNodesTask s opts) l {} none
    (hp.mem_iff.mpr (by simp [exportTasks])) ?_ ?_ hok
  · intro t ht r hr
    rcases (exportTask_effect s opts t (hp.mem_iff.mp ht) r).2 with
      h | h | h | h | h | h | h | h | h <;> rw [h] <;> simp [hr]
  · intro r
    simp only [listNodesTask, snapshotOf]
    cases s.nodeService.List <;> cases opts.ignoreErr <;> simp [listed]

theorem runSeq_export_Pvs (s : Service) (opts : options) (l : List (Task ResourcesForExport))
    (hp : l.Perm (exportTasks s opts)) (hok : (runSeq l {} none).2 = .ok) :
    (runSeq l {} none).1.Pvs = (snapshotOf s).Pvs := by
  refine runSeq_establish (fun r => r.Pvs = (snapshotOf s).Pvs) (listPvsTask s opts) l {} none
    (hp.mem_iff.mpr (by simp [exportTasks])) ?_ ?_ hok
  · intro t ht r hr
    rcases (exportTask_effect s opts t (hp.mem_iff.mp ht) r).2 with
      h | h | h | h | h | h | h | h | h <;> rw [h] <;> simp [hr]
  · intro r
    simp only [listPvsTask, snapshotOf]
    cases s.pvService.List <;> cases opts.ignoreErr <;> simp [listed]

theorem runSeq_export_Pvcs (s : Service) (opts : options) (l : List (Task ResourcesForExport))
    (hp : l.Perm (exportTasks s opts)) (hok : (runSeq l {} none).2 = .ok) :
    (runSeq l {} none).1.Pvcs = (snapshotOf s).Pvcs := by
  refine runSeq_establish (fun r => r.Pvcs = (snapshotOf s).Pvcs) (listPvcsTask s opts) l {} none
    (hp.mem_iff.mpr (by simp [exportTasks])) ?_ ?_ hok
  · intro t ht r hr
    rcases (exportTask_effect s opts t (hp.mem_iff.mp ht) r).2 with
      h | h | h | h | h | h | h | h | h <;> rw [h] <;> simp [hr]
  · intro r
    simp only [listPvcsTask, snapshotOf]
    cases s.pvcService.List <;> cases opts.ignoreErr <;> simp [listed]

theorem runSeq_export_StorageClasses (s : Service) (opts : options) (l : List (Task ResourcesForExport))
    (hp : l.Perm (exportTasks s opts)) (hok : (runSeq l {} none).2 = .ok) :
    (runSeq l {} none).1.StorageClasses = (snapshotOf s).StorageClasses := by
  refine runSeq_establish (fun r => r.StorageClasses = (snapshotOf s).StorageClasses) (listStorageClassesTask s opts) l {} none
    (hp.mem_iff.mpr (by simp [exportTasks])) ?_ ?_ hok
  · intro t ht r hr
    rcases (exportTask_effect s opts t (hp.mem_iff.mp ht) r).2 with
      h | h | h | h | h | h | h | h | h <;> rw [h] <;> simp [hr]
  · intro r
    simp only [listStorageClassesTask, snapshotOf]
    cases s.storageClassService.List <;> cases opts.ignoreErr <;> simp [listed]

theorem runSeq_export_PriorityClasses (s : Service) (opts : options) (l : List (Task ResourcesForExport))
    (hp : l.Perm (exportTasks s opts)) (hok : (runSeq l {} none).2 = .ok) :
    (runSeq l {} none).1.PriorityClasses = (snapshotOf s).PriorityClasses := by
  refine runSeq_establish (fun r => r.PriorityClasses = (snapshotOf s).PriorityClasses) (listPcsTask s opts) l {} none
    (hp.mem_iff.mpr (by simp [exportTasks])) ?_ ?_ hok
  · intro t ht r hr
    rcases (exportTask_effect s opts t (hp.mem_iff.mp ht) r).2 with
      h | h | h | h | h | h | h | h | h <;> rw [h] <;> simp [hr]
  · intro r
    simp only [listPcsTask, snapshotOf]
    cases s.priorityclassService.List <;> cases opts.ignoreErr <;> simp [listed]

theorem runSeq_export_Namespaces (s : Service) (opts : options) (l : List (Task ResourcesForExport))
    (hp : l.Perm (exportTasks s opts)) (hok : (runSeq l {} none).2 = .ok) :
    (runSeq l {} none).1.Namespaces = (snapshotOf s).Namespaces := by
  refine runSeq_establish (fun r => r.Namespaces = (snapshotOf s).Namespaces) (listNamespacesTask s opts) l {} none
    (hp.mem_iff.mpr (by simp [exportTasks])) ?_ ?_ hok
  · intro t ht r hr
    rcases (exportTask_effect s opts t (hp.mem_iff.mp ht) r).2 with
      h | h | h | h | h | h | h | h | h <;> rw [h] <;> simp [hr]
  · intro r
    simp only [listNamespacesTask, snapshotOf]
    cases s.client.List <;> cases opts.ignoreErr <;> simp [listed]

theorem runSeq_export_SchedulerConfig (s : Service) (opts : options)
    (l : List (Task ResourcesForExport))
    (hp : l.Perm (exportTasks s opts)) (hok : (runSeq l {} none).2 = .ok) :
    (runSeq l {} none).1.SchedulerConfig = (snapshotOf s).SchedulerConfig := by
  by_cases hfail : ∃ ss err, s.schedulerService.GetSchedulerConfig = (ss, some err) ∧
      err.Is .ErrServiceDisabled = false
  · obtain ⟨ss, err, h1, h2⟩ := hfail
    have hsnap : (snapshotOf s).SchedulerConfig = none := by simp [snapshotOf, h1, h2]
    rw [hsnap]
    refine runSeq_invariant (fun r => r.SchedulerConfig = none) l {} none ?_ rfl
    intro t ht r hr
    rcases (exportTask_effect s opts t (hp.mem_iff.mp ht) r).2 with
      h | h | h | h | h | h | h | h | h <;> rw [h] <;> simp [hr, hsnap]
  · refine runSeq_establish (fun r => r.SchedulerConfig = (snapshotOf s).SchedulerConfig)
      (getSchedulerConfigTask s opts) l {} none
      (hp.mem_iff.mpr (by simp [exportTasks])) ?_ ?_ hok
    · intro t ht r hr
      rcases (exportTask_effect s opts t (hp.mem_iff.mp ht) r).2 with
        h | h | h | h | h | h | h | h | h <;> rw [h] <;> simp [hr]
    · intro r
      simp only [getSchedulerConfigTask, snapshotOf]
      rcases hg : s.schedulerService.GetSchedulerConfig with ⟨ss, _ | err⟩
      · simp
      · cases h : err.Is .ErrServiceDisabled
        · exact absurd ⟨ss, err, hg, h⟩ hfail
        · simp [h]

theorem runSeq_export_ok (s : Service) (opts : options) (l : List (Task ResourcesForExport))
    (hp : l.Perm (exportTasks s opts)) (hok : (runSeq l {} none).2 = .ok) :
    (runSeq l {} none).1 = snapshotOf s := by
  have h1 := runSeq_export_Pods s opts l hp hok
  have h2 := runSeq_export_Nodes s opts l hp hok
  have h3 := runSeq_export_Pvs s opts l hp hok
  have h4 := runSeq_export_Pvcs s opts l hp hok
  have h5 := runSeq_export_StorageClasses s opts l hp hok
  have h6 := runSeq_export_PriorityClasses s opts l hp hok
  have h7 := runSeq_export_SchedulerConfig s opts l hp hok
  have h8 := runSeq_export_Namespaces s opts l hp hok
  rcases hr : (runSeq l {} none).1 with ⟨a1, a2, a3, a4, a5, a6, a7, a8⟩
  rw [hr] at h1 h2 h3 h4 h5 h6 h7 h8
  simp only at h1 h2 h3 h4 h5 h6 h7 h8
  subst h1 h2 h3 h4 h5 h6 h7 h8
  rfl

/-! ## Options and reserved names -/

theorem foldl_apply_public (opts : List ServiceOption)
    (hpub : ∀ o ∈ opts, o = IgnoreErr ∨ o = IgnoreSchedulerConfiguration) :
    ∀ o0 : options,
      (opts.foldl (fun options o => o.apply options) o0).ignoreErr
          = (o0.ignoreErr || decide (IgnoreErr ∈ opts)) ∧
      (opts.foldl (fun options o => o.apply options) o0).ignoreSchedulerConfiguration
          = (o0.ignoreSchedulerConfiguration || decide (IgnoreSchedulerConfiguration ∈ opts)) := by
  induction opts with
  | nil => intro o0; simp
  | cons o rest ih =>
    intro o0
    have hrest : ∀ o ∈ rest, o = IgnoreErr ∨ o = IgnoreSchedulerConfiguration :=
      fun u hu => hpub u (List.mem_cons_of_mem _ hu)
    obtain ⟨h1, h2⟩ := ih hrest (o.apply o0)
    rw [List.foldl_cons, h1, h2]
    rcases hpub o (List.mem_cons_self _ _) with rfl | rfl
    · simp [ServiceOption.apply, IgnoreErr, IgnoreSchedulerConfiguration]
    · simp [ServiceOption.apply, IgnoreErr, IgnoreSchedulerConfiguration]

theorem applyOptions_public (opts : List ServiceOption)
    (hpub : ∀ o ∈ opts, o = IgnoreErr ∨ o = IgnoreSchedulerConfiguration) :
    (applyOptions opts).ignoreErr = decide (IgnoreErr ∈ opts) ∧
    (applyOptions opts).ignoreSchedulerConfiguration
      = decide (IgnoreSchedulerConfiguration ∈ opts) := by
  have h := foldl_apply_public opts hpub {}
  simpa [applyOptions] using h

theorem HasPrefix_iff (name pre : String) : HasPrefix name pre = true ↔ Reserved pre name := by
  have hl : ∀ str : String, str.length = str.data.length := fun _ => rfl
  unfold HasPrefix Reserved
  rw [List.prefix_iff_eq_take]
  simp only [Bool.and_eq_true, decide_eq_true_eq, beq_iff_eq, hl]
  constructor
  · rintro ⟨_, h⟩
    exact h.symm
  · intro h
    refine ⟨?_, h.symm⟩
    have h1 := congrArg List.length h
    rw [List.length_take] at h1
    omega

theorem isIgnoreNamespace_eq_false (name : String) :
    isIgnoreNamespace name = false ↔ name ≠ "default" ∧ ¬ Reserved "kube-" name := by
  rw [← HasPrefix_iff]
  simp [isIgnoreNamespace, isSystemNamespace, and_comm]

theorem isSystemPriorityClass_eq_false (name : String) :
    isSystemPriorityClass name = false ↔ ¬ Reserved "system-" name := by
  rw [← HasPrefix_iff]
  simp [isSystemPriorityClass]

theorem appendKept_eq (skip : String → Bool) :
    ∀ (items result : List Object),
      appendKept skip result items
        = result ++ items.filter (fun i => !skip i.ObjectMeta.Name) := by
  intro items
  induction items with
  | nil => intro result; simp [appendKept]
  | cons i items ih =>
    intro result
    cases h : skip i.ObjectMeta.Name <;> simp [appendKept, h, ih]

theorem keptNamespaces_eq (items : List Namespace) :
    appendKept isIgnoreNamespace [] items
      = items.filter (fun n =>
          decide (n.ObjectMeta.Name ≠ "default" ∧ ¬ Reserved "kube-" n.ObjectMeta.Name)) := by
  rw [appendKept_eq, List.nil_append]
  apply List.filter_congr
  intro n _
  cases h : isIgnoreNamespace n.ObjectMeta.Name
  · simpa using (isIgnoreNamespace_eq_false _).mp h
  · have : ¬ (n.ObjectMeta.Name ≠ "default" ∧ ¬ Reserved "kube-" n.ObjectMeta.Name) := by
      intro hc
      rw [(isIgnoreNamespace_eq_false _).mpr hc] at h
      cases h
    simpa using this

theorem keptPriorityClasses_eq (items : List PriorityClass) :
    appendKept isSystemPriorityClass [] items
      = items.filter (fun pc => decide (¬ Reserved "system-" pc.ObjectMeta.Name)) := by
  rw [appendKept_eq, List.nil_append]
  apply List.filter_congr
  intro n _
  cases h : isSystemPriorityClass n.ObjectMeta.Name
  · simpa using (isSystemPriorityClass_eq_false _).mp h
  · have : ¬ ¬ Reserved "system-" n.ObjectMeta.Name := by
      intro hc
      rw [(isSystemPriorityClass_eq_false _).mpr hc] at h
      cases h
    simpa using this

/-! ## Export: what it returns -/

theorem get_some (s : Service) (x : Executor) (opts : options) (snap : ResourcesForExport)
    (h : (get s x opts).1 = some snap) :
    snap = snapshotOf s ∧ (get s x opts).2 = .ok ∧ ∀ k, k < 8 → x.dispatch k = none := by
  by_cases hd : ∀ k, k < 8 → x.dispatch k = none
  · obtain ⟨l, hp, hg⟩ := get_of_dispatched s x opts hd
    rw [hg] at h ⊢
    rcases hr : runSeq l {} none with ⟨r, res⟩
    have hsnap := runSeq_export_ok s opts l hp
    simp only [hr] at h hsnap ⊢
    cases res with
    | ok =>
      simp only [Option.some.injEq] at h
      refine ⟨?_, rfl, hd⟩
      rw [← h]
      exact hsnap rfl
    | error err => simp at h
    | panic => simp at h
  · exfalso
    push_neg at hd
    obtain ⟨k, hk, hne⟩ := hd
    obtain ⟨msg, err, hg⟩ := get_error_of_not_dispatched s x opts k hk hne
    rw [hg] at h
    simp at h

theorem Export_eq (s : Service) (x : Executor) (opts : List ServiceOption) :
    Export s x opts =
      (match get s x (applyOptions opts) with
       | (_, .error err) => (none, .error (.Errorf "export resources all" err))
       | (_, .panic) => (none, .panic)
       | (resources, .ok) => (resources, .ok)) := rfl

theorem Export_some (s : Service) (x : Executor) (opts : List ServiceOption)
    (snap : ResourcesForExport) (h : (Export s x opts).1 = some snap) :
    snap = snapshotOf s ∧ Export s x opts = (some snap, .ok) ∧
      ∀ k, k < 8 → x.dispatch k = none := by
  rw [Export_eq] at h ⊢
  rcases hg : get s x (applyOptions opts) with ⟨r, res⟩
  rw [hg] at h
  cases res with
  | ok =>
    simp only at h
    have := get_some s x (applyOptions opts) snap (by rw [hg]; exact h)
    subst h
    exact ⟨this.1, rfl, this.2.2⟩
  | error err => simp at h
  | panic => simp at h

theorem Error.Is_refl (e : Error) : e.Is e = true := by
  cases e <;> simp [Error.Is]

theorem Error.Is_Errorf (msg : String) (e target : Error) (h : e.Is target = true) :
    (Error.Errorf msg e).Is target = true := by
  simp [Error.Is, h]

theorem exportTask_lenient_ok (s : Service) (opts : options) (hign : opts.ignoreErr = true) :
    ∀ t ∈ exportTasks s opts, ∀ r : ResourcesForExport, (t r).2 = .ok := by
  intro t ht r
  simp only [exportTasks, List.mem_cons, List.mem_singleton, List.not_mem_nil, or_false] at ht
  rcases ht with rfl | rfl | rfl | rfl | rfl | rfl | rfl | rfl
  · simp only [listPodsTask]; cases s.podService.List <;> simp [hign]
  · simp only [listNodesTask]; cases s.nodeService.List <;> simp [hign]
  · simp only [listPvsTask]; cases s.pvService.List <;> simp [hign]
  · simp only [listPvcsTask]; cases s.pvcService.List <;> simp [hign]
  · simp only [listStorageClassesTask]; cases s.storageClassService.List <;> simp [hign]
  · simp only [listPcsTask]; cases s.priorityclassService.List <;> simp [hign]
  · simp only [listNamespacesTask]; cases s.client.List <;> simp [hign]
  · simp only [getSchedulerConfigTask]
    rcases s.schedulerService.GetSchedulerConfig with ⟨ss, _ | err⟩
    · simp
    · cases h : err.Is .ErrServiceDisabled <;> simp [h, hign]

theorem exportTask_ok_of_no_errors (s : Service) (opts : options) (hnone : portErrors s = []) :
    ∀ t ∈ exportTasks s opts, ∀ r : ResourcesForExport, (t r).2 = .ok := by
  intro t ht r
  simp only [portErrors, List.append_eq_nil] at hnone
  obtain ⟨⟨⟨⟨⟨⟨⟨h1, h2⟩, h3⟩, h4⟩, h5⟩, h6⟩, h7⟩, h8⟩ := hnone
  simp only [exportTasks, List.mem_cons, List.mem_singleton, List.not_mem_nil, or_false] at ht
  rcases ht with rfl | rfl | rfl | rfl | rfl | rfl | rfl | rfl
  · simp only [listPodsTask]; cases hl : s.podService.List <;> simp_all [listError]
  · simp only [listNodesTask]; cases hl : s.nodeService.List <;> simp_all [listError]
  · simp only [listPvsTask]; cases hl : s.pvService.List <;> simp_all [listError]
  · simp only [listPvcsTask]; cases hl : s.pvcService.List <;> simp_all [listError]
  · simp only [listStorageClassesTask]
    cases hl : s.storageClassService.List <;> simp_all [listError]
  · simp only [listPcsTask]; cases hl : s.priorityclassService.List <;> simp_all [listError]
  · simp only [listNamespacesTask]; cases hl : s.client.List <;> simp_all [listError]
  · simp only [getSchedulerConfigTask]
    rcases hg : s.schedulerService.GetSchedulerConfig with ⟨ss, _ | err⟩
    · simp
    · rw [hg] at h8
      cases h : err.Is .ErrServiceDisabled <;> simp_all

theorem exportTask_error (s : Service) (opts : options) :
    ∀ t ∈ exportTasks s opts, ∀ (r : ResourcesForExport) (err : Error),
      (t r).2 = .error err → ∃ msg perr, err = .Errorf msg perr ∧ perr ∈ portErrors s := by
  intro t ht r err
  simp only [exportTasks, List.mem_cons, List.mem_singleton, List.not_mem_nil, or_false] at ht
  rcases ht with rfl | rfl | rfl | rfl | rfl | rfl | rfl | rfl
  · simp only [listPodsTask]
    cases hl : s.podService.List <;> cases opts.ignoreErr <;>
      simp [portErrors, listError, hl]
    intro h
    exact ⟨_, _, h.symm, by simp⟩
  · simp only [listNodesTask]
    cases hl : s.nodeService.List <;> cases opts.ignoreErr <;>
      simp [portErrors, listError, hl]
    intro h
    exact ⟨_, _, h.symm, by simp⟩
  · simp only [listPvsTask]
    cases hl : s.pvService.List <;> cases opts.ignoreErr <;>
      simp [portErrors, listError, hl]
    intro h
    exact ⟨_, _, h.symm, by simp⟩
  · simp only [listPvcsTask]
    cases hl : s.pvcService.List <;> cases opts.ignoreErr <;>
      simp [portErrors, listError, hl]
    intro h
    exact ⟨_, _, h.symm, by simp⟩
  · simp only [listStorageClassesTask]
    cases hl : s.storageClassService.List <;> cases opts.ignoreErr <;>
      simp [portErrors, listError, hl]
    intro h
    exact ⟨_, _, h.symm, by simp⟩
  · simp only [listPcsTask]
    cases hl : s.priorityclassService.List <;> cases opts.ignoreErr <;>
      simp [portErrors, listError, hl]
    intro h
    exact ⟨_, _, h.symm, by simp⟩
  · simp only [listNamespacesTask]
    cases hl : s.client.List <;> cases opts.ignoreErr <;>
      simp [portErrors, listError, hl]
    intro h
    exact ⟨_, _, h.symm, by simp⟩
  · simp only [getSchedulerConfigTask]
    rcases hg : s.schedulerService.GetSchedulerConfig with ⟨ss, _ | perr⟩
    · simp
    · cases h : err.Is .ErrServiceDisabled <;> cases hi : perr.Is .ErrServiceDisabled <;>
        cases opts.ignoreErr <;> simp [portErrors, hg, hi] <;>
        (intro h; exact ⟨_, _, h.symm, by simp⟩)

theorem exportTask_fails (s : Service) (opts : options) (hstrict : opts.ignoreErr = false)
    (perr : Error) (hfail : perr ∈ portErrors s) :
    ∃ t ∈ exportTasks s opts, ∀ r : ResourcesForExport, (t r).2 ≠ .ok := by
  simp only [portErrors, List.mem_append] at hfail
  rcases hfail with ((((((h | h) | h) | h) | h) | h) | h) | h
  · refine ⟨listPodsTask s opts, by simp [exportTasks], fun r => ?_⟩
    simp only [listPodsTask]
    cases hl : s.podService.List <;> simp_all [listError]
  · refine ⟨listNodesTask s opts, by simp [exportTasks], fun r => ?_⟩
    simp only [listNodesTask]
    cases hl : s.nodeService.List <;> simp_all [listError]
  · refine ⟨listPvsTask s opts, by simp [exportTasks], fun r => ?_⟩
    simp only [listPvsTask]
    cases hl : s.pvService.List <;> simp_all [listError]
  · refine ⟨listPvcsTask s opts, by simp [exportTasks], fun r => ?_⟩
    simp only [listPvcsTask]
    cases hl : s.pvcService.List <;> simp_all [listError]
  · refine ⟨listStorageClassesTask s opts, by simp [exportTasks], fun r => ?_⟩
    simp only [listStorageClassesTask]
    cases hl : s.storageClassService.List <;> simp_all [listError]
  · refine ⟨listPcsTask s opts, by simp [exportTasks], fun r => ?_⟩
    simp only [listPcsTask]
    cases hl : s.priorityclassService.List <;> simp_all [listError]
  · refine ⟨listNamespacesTask s opts, by simp [exportTasks], fun r => ?_⟩
    simp only [listNamespacesTask]
    cases hl : s.client.List <;> simp_all [listError]
  · refine ⟨getSchedulerConfigTask s opts, by simp [exportTasks], fun r => ?_⟩
    simp only [getSchedulerConfigTask]
    rcases hg : s.schedulerService.GetSchedulerConfig with ⟨ss, _ | err⟩
    · simp [hg] at h
    · cases hi : err.Is .ErrServiceDisabled <;> simp_all

/-! ## Claims on Export -/

/-- C1: for every result of the Namespace List call, the Namespaces of a
Snapshot returned by Export are exactly the listed namespaces (none when the
call failed and was ignored) whose name is neither "default" nor prefixed with
"kube-", in their listed order; so no exported Namespace is reserved or the
default one. -/
theorem export_namespaces_filtered (s : Service) (x : Executor) (opts : List ServiceOption)
    (snap : ResourcesForExport) (hret : (Export s x opts).1 = some snap) :
    snap.Namespaces
        = (listed s.client.List).filter (fun n =>
            decide (n.ObjectMeta.Name ≠ "default" ∧ ¬ Reserved "kube-" n.ObjectMeta.Name)) ∧
      ∀ n ∈ snap.Namespaces,
        n.ObjectMeta.Name ≠ "default" ∧ ¬ Reserved "kube-" n.ObjectMeta.Name := by
  obtain ⟨hsnap, _, _⟩ := Export_some s x opts snap hret
  have h : snap.Namespaces
      = (listed s.client.List).filter (fun n =>
          decide (n.ObjectMeta.Name ≠ "default" ∧ ¬ Reserved "kube-" n.ObjectMeta.Name)) := by
    rw [hsnap]
    exact keptNamespaces_eq _
  refine ⟨h, ?_⟩
  intro n hn
  rw [h] at hn
  simpa using (List.mem_filter.mp hn).2

theorem export_namespaces_filtered_witness :
    (Export sampleService inOrder []).1 = some (snapshotOf sampleService) ∧
      (snapshotOf sampleService).Namespaces
        = (listed sampleService.client.List).filter (fun n =>
            decide (n.ObjectMeta.Name ≠ "default" ∧ ¬ Reserved "kube-" n.ObjectMeta.Name)) ∧
      (snapshotOf sampleService).Namespaces.map (fun n => n.ObjectMeta.Name) = ["team-a", "kube"] :=
  ⟨by decide,
    (export_namespaces_filtered sampleService inOrder [] (snapshotOf sampleService)
      (by decide)).1,
    by decide⟩

/-- C2: for every result of the PriorityClass List call, the PriorityClasses
of a Snapshot returned by Export are exactly the listed priority classes (none
when the call failed and was ignored) whose name does not start with
"system-", in their listed order; no exported PriorityClass has the reserved
prefix. -/
theorem export_priorityclasses_filtered (s : Service) (x : Executor)
    (opts : List ServiceOption) (snap : ResourcesForExport)
    (hret : (Export s x opts).1 = some snap) :
    snap.PriorityClasses
        = (listed s.priorityclassService.List).filter (fun pc =>
            decide (¬ Reserved "system-" pc.ObjectMeta.Name)) ∧
      ∀ pc ∈ snap.PriorityClasses, ¬ Reserved "system-" pc.ObjectMeta.Name := by
  obtain ⟨hsnap, _, _⟩ := Export_some s x opts snap hret
  have h : snap.PriorityClasses
      = (listed s.priorityclassService.List).filter (fun pc =>
          decide (¬ Reserved "system-" pc.ObjectMeta.Name)) := by
    rw [hsnap]
    exact keptPriorityClasses_eq _
  refine ⟨h, ?_⟩
  intro pc hpc
  rw [h] at hpc
  simpa using (List.mem_filter.mp hpc).2

theorem export_priorityclasses_filtered_witness :
    (Export sampleService inOrder []).1 = some (snapshotOf sampleService) ∧
      (snapshotOf sampleService).PriorityClasses.map (fun pc => pc.ObjectMeta.Name) = ["high"] ∧
      ∀ pc ∈ (snapshotOf sampleService).PriorityClasses,
        ¬ Reserved "system-" pc.ObjectMeta.Name :=
  ⟨by decide, by decide,
    (export_priorityclasses_filtered sampleService inOrder [] (snapshotOf sampleService)
      (by decide)).2⟩

/-- C3, as stated, fails: the sample cluster lists a Pod of the reserved
namespace "kube-system" and a PersistentVolumeClaim of the default namespace,
and the Snapshot returned by Export contains both. -/
theorem export_keeps_pods_of_reserved_namespaces :
    ∃ snap, Export sampleService inOrder [] = (some snap, .ok) ∧
      (∃ p ∈ snap.Pods, Reserved "kube-" p.ObjectMeta.Namespace) ∧
      (∃ c ∈ snap.Pvcs, c.ObjectMeta.Namespace = "default") :=
  ⟨snapshotOf sampleService, by decide, by decide, by decide⟩

/-- C3, amended: Export applies no namespace filter to Pods and
PersistentVolumeClaims: in every Snapshot it returns, the Pods and the
PersistentVolumeClaims are exactly the items their List calls returned (none
for a call that failed and was ignored), whatever their namespace. -/
theorem export_pods_and_pvcs_unfiltered (s : Service) (x : Executor)
    (opts : List ServiceOption) (snap : ResourcesForExport)
    (hret : (Export s x opts).1 = some snap) :
    snap.Pods = listed s.podService.List ∧ snap.Pvcs = listed s.pvcService.List := by
  obtain ⟨hsnap, _, _⟩ := Export_some s x opts snap hret
  rw [hsnap]
  exact ⟨rfl, rfl⟩

theorem export_pods_and_pvcs_unfiltered_witness :
    (Export sampleService inOrder []).1 = some (snapshotOf sampleService) ∧
      (snapshotOf sampleService).Pods = listed sampleService.podService.List ∧
      (snapshotOf sampleService).Pvcs = listed sampleService.pvcService.List :=
  ⟨by decide,
    export_pods_and_pvcs_unfiltered sampleService inOrder [] (snapshotOf sampleService)
      (by decide)⟩

theorem Export_lenient (s : Service) (x : Executor) (opts : List ServiceOption)
    (hok : ∀ t ∈ exportTasks s (applyOptions opts), ∀ r : ResourcesForExport, (t r).2 = .ok)
    (hd : ∀ k, k < 8 → x.dispatch k = none) :
    Export s x opts = (some (snapshotOf s), .ok) := by
  obtain ⟨l, hp, hg⟩ := get_of_dispatched s x (applyOptions opts) hd
  have hall : (runSeq l {} none).2 = .ok :=
    runSeq_all_ok l {} (fun t ht => hok t (hp.mem_iff.mp ht))
  have hsnap := runSeq_export_ok s (applyOptions opts) l hp hall
  rw [Export_eq, hg]
  rcases hr : runSeq l {} none with ⟨r, res⟩
  simp only [hr] at hall hsnap
  subst hall hsnap
  rfl

/-- C4, as stated, fails: with the node port and the claim port both down,
strict Export returns the error of the node List call, the first failure; the
error of the failed PersistentVolumeClaim List call is not wrapped in it. -/
theorem export_error_wraps_first_failure_only :
    degradedService.pvcService.List = .error (.backend "claims unavailable") ∧
      Export degradedService inOrder []
        = (none, .error (.Errorf "export resources all" (.Errorf "get resources all"
            (.Errorf "call list nodes" (.backend "nodes unavailable"))))) ∧
      (Error.Errorf "export resources all" (.Errorf "get resources all"
          (.Errorf "call list nodes" (.backend "nodes unavailable")))).Is
        (.backend "claims unavailable") = false :=
  ⟨rfl, by decide, by decide⟩

/-- C4, amended: in strict mode (Export called without the IgnoreErr option),
if the List call of some resource kind or the scheduler-config fetch fails
with a backend error, Export returns no Snapshot and an error; when every task
was dispatched, that error wraps the port error of one of the failed calls,
not necessarily of each of them, hence the port error of the failed call when
a single call fails. -/
theorem export_strict_returns_first_port_error (s : Service) (x : Executor)
    (opts : List ServiceOption)
    (hpub : ∀ o ∈ opts, o = IgnoreErr ∨ o = IgnoreSchedulerConfiguration)
    (hstrict : IgnoreErr ∉ opts) (perr : Error) (hfail : perr ∈ portErrors s) :
    ∃ err, Export s x opts = (none, .error err) ∧
      ((∀ k, k < 8 → x.dispatch k = none) →
        (∃ e ∈ portErrors s, err.Is e = true) ∧ (portErrors s = [perr] → err.Is perr = true)) := by
  have hopt : (applyOptions opts).ignoreErr = false := by
    rw [(applyOptions_public opts hpub).1]
    simpa using hstrict
  by_cases hd : ∀ k, k < 8 → x.dispatch k = none
  · obtain ⟨l, hp, hg⟩ := get_of_dispatched s x (applyOptions opts) hd
    obtain ⟨t0, ht0, hbad⟩ := exportTask_fails s (applyOptions opts) hopt perr hfail
    have hnotok : (runSeq l {} none).2 ≠ .ok :=
      runSeq_not_ok t0 l {} none (hp.mem_iff.mpr ht0) hbad
    have hnopanic : (runSeq l {} none).2 ≠ .panic := by
      apply runSeq_no_panic
      intro t ht r hpanic
      rcases (exportTask_effect s (applyOptions opts) t (hp.mem_iff.mp ht) r).1 with h | ⟨e, h⟩
      · rw [h] at hpanic; cases hpanic
      · rw [h] at hpanic; cases hpanic
    rcases hr : runSeq l {} none with ⟨r, res⟩
    rw [hr] at hnotok hnopanic
    cases res with
    | ok => exact absurd rfl hnotok
    | panic => exact absurd rfl hnopanic
    | error e =>
      have hsrc := runSeq_error_source l {} none e (by rw [hr])
      rcases hsrc with h | ⟨t, ht, r1, h1⟩
      · cases h
      · obtain ⟨msg, perr1, he, hmem⟩ :=
          exportTask_error s (applyOptions opts) t (hp.mem_iff.mp ht) r1 e h1
        subst he
        refine ⟨_, by rw [Export_eq, hg, hr], fun _ => ?_⟩
        have hwrap : (Error.Errorf "export resources all" (.Errorf "get resources all"
            (.Errorf msg perr1))).Is perr1 = true :=
          Error.Is_Errorf _ _ _ (Error.Is_Errorf _ _ _ (Error.Is_Errorf _ _ _ (Error.Is_refl _)))
        refine ⟨⟨perr1, hmem, hwrap⟩, fun hone => ?_⟩
        rw [hone, List.mem_singleton] at hmem
        rw [← hmem]
        exact hwrap
  · have hd1 := hd
    push_neg at hd1
    obtain ⟨k, hk, hne⟩ := hd1
    obtain ⟨msg, err, hg⟩ := get_error_of_not_dispatched s x (applyOptions opts) k hk hne
    exact ⟨_, by rw [Export_eq, hg], fun h => absurd h hd⟩

theorem export_strict_returns_first_port_error_witness :
    portErrors nodesDown = [.backend "nodes unavailable"] ∧
      (∃ err, Export nodesDown inOrder [] = (none, .error err) ∧
        err.Is (.backend "nodes unavailable") = true) ∧
      ∃ err, Export degradedService inOrder [] = (none, .error err) ∧
        ∃ e ∈ portErrors degradedService, err.Is e = true :=
  ⟨by decide,
    match export_strict_returns_first_port_error nodesDown inOrder [] (by simp) (by simp)
      (.backend "nodes unavailable") (by decide) with
    | ⟨err, h1, h2⟩ => ⟨err, h1, (h2 (fun _ _ => rfl)).2 (by decide)⟩,
    match export_strict_returns_first_port_error degradedService inOrder [] (by simp)
      (by simp) (.backend "nodes unavailable") (by decide) with
    | ⟨err, h1, h2⟩ => ⟨err, h1, (h2 (fun _ _ => rfl)).1⟩⟩

/-- C5: in lenient mode (IgnoreErr option), whichever List calls fail, when
every task is dispatched Export returns a Snapshot and no error; the
collection of a kind whose List call failed is empty, and that of a kind whose
List call succeeded holds what the call returned, after the exclusion filter
for namespaces and priority classes. -/
theorem export_lenient_absorbs_failures (s : Service) (x : Executor)
    (opts : List ServiceOption)
    (hpub : ∀ o ∈ opts, o = IgnoreErr ∨ o = IgnoreSchedulerConfiguration)
    (hign : IgnoreErr ∈ opts) (hd : ∀ k, k < 8 → x.dispatch k = none) :
    ∃ snap, Export s x opts = (some snap, .ok) ∧
      snap.Pods = listed s.podService.List ∧
      snap.Nodes = listed s.nodeService.List ∧
      snap.Pvs = listed s.pvService.List ∧
      snap.Pvcs = listed s.pvcService.List ∧
      snap.StorageClasses = listed s.storageClassService.List ∧
      snap.PriorityClasses
        = (listed s.priorityclassService.List).filter (fun pc =>
            decide (¬ Reserved "system-" pc.ObjectMeta.Name)) ∧
      snap.Namespaces
        = (listed s.client.List).filter (fun n =>
            decide (n.ObjectMeta.Name ≠ "default" ∧ ¬ Reserved "kube-" n.ObjectMeta.Name)) := by
  have hopt : (applyOptions opts).ignoreErr = true := by
    rw [(applyOptions_public opts hpub).1]
    simpa using hign
  refine ⟨snapshotOf s,
    Export_lenient s x opts (exportTask_lenient_ok s (applyOptions opts) hopt) hd,
    rfl, rfl, rfl, rfl, rfl, keptPriorityClasses_eq _, keptNamespaces_eq _⟩

theorem export_lenient_absorbs_failures_witness :
    listed degradedService.nodeService.List = [] ∧
    ∃ snap, Export degradedService inOrder [IgnoreErr] = (some snap, .ok) ∧
      snap.Pods = listed degradedService.podService.List ∧
      snap.Nodes = listed degradedService.nodeService.List ∧
      snap.Pvs = listed degradedService.pvService.List ∧
      snap.Pvcs = listed degradedService.pvcService.List ∧
      snap.StorageClasses = listed degradedService.storageClassService.List ∧
      snap.PriorityClasses
        = (listed degradedService.priorityclassService.List).filter (fun pc =>
            decide (¬ Reserved "system-" pc.ObjectMeta.Name)) ∧
      snap.Namespaces
        = (listed degradedService.client.List).filter (fun n =>
            decide (n.ObjectMeta.Name ≠ "default" ∧ ¬ Reserved "kube-" n.ObjectMeta.Name)) :=
  ⟨by decide,
    export_lenient_absorbs_failures degradedService inOrder [IgnoreErr]
      (by simp) (by simp) (by intro k _; rfl)⟩

theorem get_congr_scheduler (s : Service) (x : Executor) (opts : options)
    (cfg : Option KubeSchedulerConfiguration) (err : Error)
    (hdis : s.schedulerService.GetSchedulerConfig = (cfg, some err))
    (his : err.Is .ErrServiceDisabled = true) :
    get s x opts
      = get { s with schedulerService :=
                { s.schedulerService with GetSchedulerConfig := (cfg, none) } } x opts := by
  have htask : getSchedulerConfigTask s opts
      = getSchedulerConfigTask { s with schedulerService :=
          { s.schedulerService with GetSchedulerConfig := (cfg, none) } } opts := by
    funext r
    simp [getSchedulerConfigTask, hdis, his]
  simp only [get, getSchedulerConfig, htask]
  rfl

/-- C6, as stated, fails: a scheduler service that reports the disabled
signal together with a configuration makes Export, in strict and in lenient
mode, return a Snapshot whose SchedulerConfig is that configuration, not
nil. -/
theorem export_keeps_config_sent_with_disabled_signal :
    disabledWithConfig.schedulerService.GetSchedulerConfig
        = (some { body := "profiles" }, some .ErrServiceDisabled) ∧
      (∃ snap, Export disabledWithConfig inOrder [] = (some snap, .ok) ∧
        snap.SchedulerConfig = some { body := "profiles" }) ∧
      ∃ snap, Export disabledWithConfig inOrder [IgnoreErr] = (some snap, .ok) ∧
        snap.SchedulerConfig = some { body := "profiles" } :=
  ⟨rfl, ⟨_, rfl, rfl⟩, ⟨_, rfl, rfl⟩⟩

/-- C6, amended: when the scheduler-config fetch reports the service-disabled
condition, Export, in strict and in lenient mode, returns what it returns
when the fetch succeeds with the same configuration pointer, so it does not
fail because of the signal: when every task is dispatched and no other fetch
fails it returns a Snapshot. The SchedulerConfig of a returned Snapshot is
the pointer the fetch returned with the signal: nil when that pointer is
nil. -/
theorem export_tolerates_disabled_scheduler (s : Service) (x : Executor)
    (opts : List ServiceOption) (cfg : Option KubeSchedulerConfiguration) (err : Error)
    (hdis : s.schedulerService.GetSchedulerConfig = (cfg, some err))
    (his : err.Is .ErrServiceDisabled = true) :
    Export s x opts
        = Export { s with schedulerService :=
            { s.schedulerService with GetSchedulerConfig := (cfg, none) } } x opts ∧
      (∀ snap, (Export s x opts).1 = some snap → snap.SchedulerConfig = cfg) ∧
      ((∀ k, k < 8 → x.dispatch k = none) → portErrors s = [] →
        ∃ snap, Export s x opts = (some snap, .ok) ∧ snap.SchedulerConfig = cfg) := by
  have hsnap : ∀ snap, (Export s x opts).1 = some snap → snap.SchedulerConfig = cfg := by
    intro snap hsnap
    rw [(Export_some s x opts snap hsnap).1]
    simp [snapshotOf, hdis, his]
  refine ⟨?_, hsnap, ?_⟩
  · rw [Export_eq, Export_eq, get_congr_scheduler s x (applyOptions opts) cfg err hdis his]
  · intro hd hnone
    have h := Export_lenient s x opts (exportTask_ok_of_no_errors s _ hnone) hd
    exact ⟨_, h, hsnap _ (by rw [h])⟩

theorem export_tolerates_disabled_scheduler_witness :
    sampleService.schedulerService.GetSchedulerConfig = (none, some .ErrServiceDisabled) ∧
      (∃ snap, Export sampleService inOrder [] = (some snap, .ok) ∧
        snap.SchedulerConfig = none) ∧
      ∃ snap, Export sampleService inOrder [IgnoreErr] = (some snap, .ok) ∧
        snap.SchedulerConfig = none :=
  ⟨rfl,
    (export_tolerates_disabled_scheduler sampleService inOrder [] none .ErrServiceDisabled
      rfl (by decide)).2.2 (fun _ _ => rfl) (by decide),
    (export_tolerates_disabled_scheduler sampleService inOrder [IgnoreErr] none
      .ErrServiceDisabled rfl (by decide)).2.2 (fun _ _ => rfl) (by decide)⟩

/-! ## Import: the port calls of the tasks -/

theorem Emits.mono {K1 K2 : Event → Prop} {t : Task Trace} (h : Emits K1 t)
    (himp : ∀ e, K1 e → K2 e) : Emits K2 t := by
  intro tr
  obtain ⟨es, h1, h2⟩ := h tr
  exact ⟨es, h1, fun e he => himp e (h2 e he)⟩

theorem applyNamespacesTask_emits (s : Service) (opts : options) (i : Nat)
    (ns : NamespaceApplyConfiguration) :
    Emits (fun e => e.phase = 1) (applyNamespacesTask s opts i ns) := by
  intro tr
  unfold applyNamespacesTask
  cases ns.clearUID with
  | none => exact ⟨[], by simp, by simp⟩
  | some c => exact ⟨[_], rfl, by simp [Event.phase]⟩

theorem applyPcsTask_emits (s : Service) (opts : options) (i : Nat)
    (pc : PriorityClassApplyConfiguration) :
    Emits (fun e => e.phase = 2) (applyPcsTask s opts i pc) := by
  intro tr
  unfold applyPcsTask
  cases pc.clearUID with
  | none => exact ⟨[], by simp, by simp⟩
  | some c => exact ⟨[_], rfl, by simp [Event.phase]⟩

theorem applyStorageClassesTask_emits (s : Service) (opts : options) (i : Nat)
    (sc : StorageClassApplyConfiguration) :
    Emits (fun e => e.phase = 2) (applyStorageClassesTask s opts i sc) := by
  intro tr
  unfold applyStorageClassesTask
  cases sc.clearUID with
  | none => exact ⟨[], by simp, by simp⟩
  | some c => exact ⟨[_], rfl, by simp [Event.phase]⟩

theorem applyNodesTask_emits (s : Service) (opts : options) (i : Nat)
    (node : NodeApplyConfiguration) :
    Emits (fun e => e.phase = 2) (applyNodesTask s opts i node) := by
  intro tr
  unfold applyNodesTask
  cases node.clearUID with
  | none => exact ⟨[], by simp, by simp⟩
  | some c => exact ⟨[_], rfl, by simp [Event.phase]⟩

theorem applyPvcsTask_emits (s : Service) (opts : options) (i : Nat)
    (pvc : PersistentVolumeClaimApplyConfiguration) :
    Emits (fun e => e.phase = 2) (applyPvcsTask s opts i pvc) := by
  intro tr
  unfold applyPvcsTask
  cases pvc.clearUID with
  | none => exact ⟨[], by simp, by simp⟩
  | some c =>
    simp only
    cases c.Namespace with
    | none => exact ⟨[], by simp, by simp⟩
    | some ns => exact ⟨[_], rfl, by simp [Event.phase]⟩

theorem applyPodsTask_emits (s : Service) (opts : options) (i : Nat)
    (pod : PodApplyConfiguration) :
    Emits (fun e => e.phase = 2) (applyPodsTask s opts i pod) := by
  intro tr
  unfold applyPodsTask
  cases pod.clearUID with
  | none => exact ⟨[], by simp, by simp⟩
  | some c =>
    simp only
    cases c.Namespace with
    | none => exact ⟨[], by simp, by simp⟩
    | some ns => exact ⟨[_], rfl, by simp [Event.phase]⟩

theorem lookupClaim_emits (s : Service) (i : Nat) (pv pv1 : PersistentVolumeApplyConfiguration)
    (tr tr1 : Trace) (h : lookupClaim s i pv tr = some (tr1, pv1)) :
    ∃ name ns, tr1 = tr ++ [.PersistentVolumeClaimGet name ns] := by
  unfold lookupClaim at h
  split at h
  · cases h
  · split at h
    · cases h
    · split at h
      · cases h
      · split at h
        · cases h
        · split at h <;>
          · simp only [Option.some.injEq, Prod.mk.injEq] at h
            exact ⟨_, _, h.1.symm⟩

theorem applyPvsTask_emits (s : Service) (opts : options) (i : Nat)
    (pv : PersistentVolumeApplyConfiguration) :
    Emits (fun e => e.phase = 3) (applyPvsTask s opts i pv) := by
  intro tr
  unfold applyPvsTask
  cases pv.ObjectMetaApplyConfiguration with
  | none => exact ⟨[], by simp, by simp⟩
  | some m =>
    simp only
    split
    · split
      · exact ⟨[], by simp, by simp⟩
      · next tr1 pv1 hl =>
        obtain ⟨name, ns, h1⟩ := lookupClaim_emits s i _ _ tr tr1 hl
        subst h1
        exact ⟨[.PersistentVolumeClaimGet name ns, .PersistentVolumeApply pv1], by simp,
          by simp [Event.phase]⟩
    · exact ⟨[_], rfl, by simp [Event.phase]⟩

/-! ## Import: the tasks of the group -/

theorem Extends.refl (K : Event → Prop) (tr : Trace) : Extends K tr tr :=
  ⟨[], by simp, by simp⟩

theorem Extends.trans {K : Event → Prop} {tr1 tr2 tr3 : Trace} (h1 : Extends K tr1 tr2)
    (h2 : Extends K tr2 tr3) : Extends K tr1 tr3 := by
  obtain ⟨es1, he1, hk1⟩ := h1
  obtain ⟨es2, he2, hk2⟩ := h2
  refine ⟨es1 ++ es2, by rw [he2, he1, List.append_assoc], ?_⟩
  intro e he
  rcases List.mem_append.mp he with h | h
  · exact hk1 e h
  · exact hk2 e h

theorem Extends.mem {K : Event → Prop} {tr tr1 : Trace} (h : Extends K tr tr1) (e : Event)
    (he : e ∈ tr1) : e ∈ tr ∨ K e := by
  obtain ⟨es, he1, hk⟩ := h
  rw [he1] at he
  rcases List.mem_append.mp he with h1 | h1
  · exact Or.inl h1
  · exact Or.inr (hk e h1)

theorem Go_running {S : Type} (eg : SemaphoredErrGroup S) (fn : Task S) (P : Task S → Prop)
    (hP : ∀ t ∈ eg.running, P t) (hfn : P fn) : ∀ t ∈ (eg.Go fn).2.running, P t := by
  unfold SemaphoredErrGroup.Go
  cases eg.exec.dispatch eg.started with
  | some err => exact hP
  | none =>
    intro t ht
    rcases List.mem_append.mp ht with h | h
    · exact hP t h
    · rw [List.mem_singleton.mp h]
      exact hfn

theorem Wait_running {S : Type} (eg : SemaphoredErrGroup S) (s : S) :
    (eg.Wait s).2.2.running = [] := rfl

theorem runSeq_emits (K : Event → Prop) (l : List (Task Trace)) (tr : Trace)
    (first : Option Error) (h : ∀ t ∈ l, Emits K t) : Extends K tr (runSeq l tr first).1 := by
  refine runSeq_invariant (fun tr1 => Extends K tr tr1) l tr first ?_ (Extends.refl K tr)
  intro t ht tr1 h1
  exact h1.trans (h t ht tr1)

theorem Wait_emits (K : Event → Prop) (eg : SemaphoredErrGroup Trace) (tr : Trace)
    (h : ∀ t ∈ eg.running, Emits K t) : Extends K tr (eg.Wait tr).2.1 := by
  obtain ⟨l, hp, hw⟩ := Wait_eq_runSeq eg tr
  rw [hw]
  exact runSeq_emits K l tr none (fun t ht => h t (hp.mem_iff.mp ht))

theorem applyStorageClassesFrom_running (s : Service) (opts : options) (P : Task Trace → Prop)
    (hP : ∀ j c, P (applyStorageClassesTask s opts j c)) :
    ∀ (l : List _) (i : Nat) (eg : SemaphoredErrGroup Trace), (∀ t ∈ eg.running, P t) →
      ∀ t ∈ (applyStorageClassesFrom s opts i l eg).2.running, P t := by
  intro l
  induction l with
  | nil => intro i eg h; exact h
  | cons c rest ih =>
    intro i eg h
    have hgo := Go_running eg (applyStorageClassesTask s opts i c) P h (hP i c)
    unfold applyStorageClassesFrom
    rcases hg : eg.Go (applyStorageClassesTask s opts i c) with ⟨_ | err, eg1⟩
    · rw [hg] at hgo
      exact ih (i + 1) eg1 hgo
    · rw [hg] at hgo
      exact hgo

theorem applyPvcsFrom_running (s : Service) (opts : options) (P : Task Trace → Prop)
    (hP : ∀ j c, P (applyPvcsTask s opts j c)) :
    ∀ (l : List _) (i : Nat) (eg : SemaphoredErrGroup Trace), (∀ t ∈ eg.running, P t) →
      ∀ t ∈ (applyPvcsFrom s opts i l eg).2.running, P t := by
  intro l
  induction l with
  | nil => intro i eg h; exact h
  | cons c rest ih =>
    intro i eg h
    have hgo := Go_running eg (applyPvcsTask s opts i c) P h (hP i c)
    unfold applyPvcsFrom
    rcases hg : eg.Go (applyPvcsTask s opts i c) with ⟨_ | err, eg1⟩
    · rw [hg] at hgo
      exact ih (i + 1) eg1 hgo
    · rw [hg] at hgo
      exact hgo

theorem applyPvsFrom_running (s : Service) (opts : options) (P : Task Trace → Prop)
    (hP : ∀ j c, P (applyPvsTask s opts j c)) :
    ∀ (l : List _) (i : Nat) (eg : SemaphoredErrGroup Trace), (∀ t ∈ eg.running, P t) →
      ∀ t ∈ (applyPvsFrom s opts i l eg).2.running, P t := by
  intro l
  induction l with
  | nil => intro i eg h; exact h
  | cons c rest ih =>
    intro i eg h
    have hgo := Go_running eg (applyPvsTask s opts i c) P h (hP i c)
    unfold applyPvsFrom
    rcases hg : eg.Go (applyPvsTask s opts i c) with ⟨_ | err, eg1⟩
    · rw [hg] at hgo
      exact ih (i + 1) eg1 hgo
    · rw [hg] at hgo
      exact hgo

theorem applyNodesFrom_running (s : Service) (opts : options) (P : Task Trace → Prop)
    (hP : ∀ j c, P (applyNodesTask s opts j c)) :
    ∀ (l : List _) (i : Nat) (eg : SemaphoredErrGroup Trace), (∀ t ∈ eg.running, P t) →
      ∀ t ∈ (applyNodesFrom s opts i l eg).2.running, P t := by
  intro l
  induction l with
  | nil => intro i eg h; exact h
  | cons c rest ih =>
    intro i eg h
    have hgo := Go_running eg (applyNodesTask s opts i c) P h (hP i c)
    unfold applyNodesFrom
    rcases hg : eg.Go (applyNodesTask s opts i c) with ⟨_ | err, eg1⟩
    · rw [hg] at hgo
      exact ih (i + 1) eg1 hgo
    · rw [hg] at hgo
      exact hgo

theorem applyPodsFrom_running (s : Service) (opts : options) (P : Task Trace → Prop)
    (hP : ∀ j c, P (applyPodsTask s opts j c)) :
    ∀ (l : List _) (i : Nat) (eg : SemaphoredErrGroup Trace), (∀ t ∈ eg.running, P t) →
      ∀ t ∈ (applyPodsFrom s opts i l eg).2.running, P t := by
  intro l
  induction l with
  | nil => intro i eg h; exact h
  | cons c rest ih =>
    intro i eg h
    have hgo := Go_running eg (applyPodsTask s opts i c) P h (hP i c)
    unfold applyPodsFrom
    rcases hg : eg.Go (applyPodsTask s opts i c) with ⟨_ | err, eg1⟩
    · rw [hg] at hgo
      exact ih (i + 1) eg1 hgo
    · rw [hg] at hgo
      exact hgo

theorem applyPcsFrom_running (s : Service) (opts : options) (P : Task Trace → Prop)
    (hP : ∀ j c, ApplyConfiguration.Name c ≠ none → P (applyPcsTask s opts j c)) :
    ∀ (l : List _) (i : Nat) (eg : SemaphoredErrGroup Trace), (∀ t ∈ eg.running, P t) →
      ∀ t ∈ (applyPcsFrom s opts i l eg).2.running, P t := by
  intro l
  induction l with
  | nil => intro i eg h; exact h
  | cons c rest ih =>
    intro i eg h
    unfold applyPcsFrom
    cases hn : ApplyConfiguration.Name c with
    | none => exact h
    | some name =>
      simp only
      split
      · exact ih (i + 1) eg h
      · have hgo := Go_running eg (applyPcsTask s opts i c) P h (hP i c (by simp [hn]))
        rcases hg : eg.Go (applyPcsTask s opts i c) with ⟨_ | err, eg1⟩
        · rw [hg] at hgo
          exact ih (i + 1) eg1 hgo
        · rw [hg] at hgo
          exact hgo

theorem applyNamespacesFrom_running (s : Service) (opts : options) (P : Task Trace → Prop)
    (hP : ∀ j c, ApplyConfiguration.Name c ≠ none → P (applyNamespacesTask s opts j c)) :
    ∀ (l : List _) (i : Nat) (eg : SemaphoredErrGroup Trace), (∀ t ∈ eg.running, P t) →
      ∀ t ∈ (applyNamespacesFrom s opts i l eg).2.running, P t := by
  intro l
  induction l with
  | nil => intro i eg h; exact h
  | cons c rest ih =>
    intro i eg h
    unfold applyNamespacesFrom
    cases hn : ApplyConfiguration.Name c with
    | none => exact h
    | some name =>
      simp only
      split
      · exact ih (i + 1) eg h
      · have hgo := Go_running eg (applyNamespacesTask s opts i c) P h (hP i c (by simp [hn]))
        rcases hg : eg.Go (applyNamespacesTask s opts i c) with ⟨_ | err, eg1⟩
        · rw [hg] at hgo
          exact ih (i + 1) eg1 hgo
        · rw [hg] at hgo
          exact hgo

/-! ## Import: every port call of `apply` is an apply-phase call -/

theorem apply_emits (K : Event → Prop) (hK : ∀ e : Event, 1 ≤ e.phase → K e) (s : Service)
    (x : Executor) (r : ResourcesForImport) (opts : options) (tr : Trace) :
    Extends K tr (apply s x r opts tr).2.1 ∧
      ∀ t ∈ (apply s x r opts tr).2.2.running, Emits K t := by
  have k1 : ∀ e : Event, e.phase = 1 → K e := fun e h => hK e (by omega)
  have k2 : ∀ e : Event, e.phase = 2 → K e := fun e h => hK e (by omega)
  have k3 : ∀ e : Event, e.phase = 3 → K e := fun e h => hK e (by omega)
  have g0 : ∀ t ∈ (NewErrGroupWithSemaphore x : SemaphoredErrGroup Trace).running,
      Emits K t := by
    intro t ht
    simp [NewErrGroupWithSemaphore] at ht
  have a1 := applyNamespacesFrom_running s opts (Emits K)
    (fun j c _ => (applyNamespacesTask_emits s opts j c).mono k1) r.Namespaces 0 _ g0
  unfold apply
  simp only [applyNamespaces, applyPcs, applyStorageClasses, applyPvcs, applyNodes, applyPods,
    applyPvs]
  rcases h1 : applyNamespacesFrom s opts 0 r.Namespaces (NewErrGroupWithSemaphore x)
    with ⟨res, eg1⟩
  rw [h1] at a1
  cases res with
  | error err => exact ⟨Extends.refl K tr, a1⟩
  | panic => exact ⟨Extends.refl K tr, a1⟩
  | ok =>
  simp only
  have w1 := Wait_emits K eg1 tr a1
  have r1 := Wait_running eg1 tr
  rcases h2 : eg1.Wait tr with ⟨res, tr1, eg2⟩
  rw [h2] at w1 r1
  simp only at w1 r1
  have g2 : ∀ t ∈ eg2.running, Emits K t := by
    intro t ht
    rw [r1] at ht
    cases ht
  cases res with
  | error err => exact ⟨w1, g2⟩
  | panic => exact ⟨w1, g2⟩
  | ok =>
  simp only
  have a2 := applyPcsFrom_running s opts (Emits K)
    (fun j c _ => (applyPcsTask_emits s opts j c).mono k2) r.PriorityClasses 0 eg2 g2
  rcases h3 : applyPcsFrom s opts 0 r.PriorityClasses eg2 with ⟨res, eg3⟩
  rw [h3] at a2
  cases res with
  | error err => exact ⟨w1, a2⟩
  | panic => exact ⟨w1, a2⟩
  | ok =>
  simp only
  have a3 := applyStorageClassesFrom_running s opts (Emits K)
    (fun j c => (applyStorageClassesTask_emits s opts j c).mono k2) r.StorageClasses 0 eg3 a2
  rcases h4 : applyStorageClassesFrom s opts 0 r.StorageClasses eg3 with ⟨res, eg4⟩
  rw [h4] at a3
  cases res with
  | error err => exact ⟨w1, a3⟩
  | panic => exact ⟨w1, a3⟩
  | ok =>
  simp only
  have a4 := applyPvcsFrom_running s opts (Emits K)
    (fun j c => (applyPvcsTask_emits s opts j c).mono k2) r.Pvcs 0 eg4 a3
  rcases h5 : applyPvcsFrom s opts 0 r.Pvcs eg4 with ⟨res, eg5⟩
  rw [h5] at a4
  cases res with
  | error err => exact ⟨w1, a4⟩
  | panic => exact ⟨w1, a4⟩
  | ok =>
  simp only
  have a5 := applyNodesFrom_running s opts (Emits K)
    (fun j c => (applyNodesTask_emits s opts j c).mono k2) r.Nodes 0 eg5 a4
  rcases h6 : applyNodesFrom s opts 0 r.Nodes eg5 with ⟨res, eg6⟩
  rw [h6] at a5
  cases res with
  | error err => exact ⟨w1, a5⟩
  | panic => exact ⟨w1, a5⟩
  | ok =>
  simp only
  have a6 := applyPodsFrom_running s opts (Emits K)
    (fun j c => (applyPodsTask_emits s opts j c).mono k2) r.Pods 0 eg6 a5
  rcases h7 : applyPodsFrom s opts 0 r.Pods eg6 with ⟨res, eg7⟩
  rw [h7] at a6
  cases res with
  | error err => exact ⟨w1, a6⟩
  | panic => exact ⟨w1, a6⟩
  | ok =>
  simp only
  have w2 := w1.trans (Wait_emits K eg7 tr1 a6)
  have r2 := Wait_running eg7 tr1
  rcases h8 : eg7.Wait tr1 with ⟨res, tr2, eg8⟩
  rw [h8] at w2 r2
  simp only at w2 r2
  have g8 : ∀ t ∈ eg8.running, Emits K t := by
    intro t ht
    rw [r2] at ht
    cases ht
  cases res with
  | error err => exact ⟨w2, g8⟩
  | panic => exact ⟨w2, g8⟩
  | ok =>
  simp only
  have a9 := applyPvsFrom_running s opts (Emits K)
    (fun j c => (applyPvsTask_emits s opts j c).mono k3) r.Pvs 0 eg8 g8
  rcases h9 : applyPvsFrom s opts 0 r.Pvs eg8 with ⟨res, eg9⟩
  rw [h9] at a9
  cases res with
  | error err => exact ⟨w2, a9⟩
  | panic => exact ⟨w2, a9⟩
  | ok =>
  simp only
  have w3 := w2.trans (Wait_emits K eg9 tr2 a9)
  have r3 := Wait_running eg9 tr2
  rcases h10 : eg9.Wait tr2 with ⟨res, tr3, eg10⟩
  rw [h10] at w3 r3
  simp only at w3 r3
  have g10 : ∀ t ∈ eg10.running, Emits K t := by
    intro t ht
    rw [r3] at ht
    cases ht
  cases res with
  | error err => exact ⟨w3, g10⟩
  | panic => exact ⟨w3, g10⟩
  | ok => exact ⟨w3, g10⟩

theorem Import_eq (s : Service) (x : Executor) (r : ResourcesForImport)
    (opts : List ServiceOption) :
    Import s x r opts =
      (match restart s r (applyOptions opts) with
       | (.error err, tr) => (.error err, tr)
       | (.panic, tr) => (.panic, tr)
       | (.ok, tr) =>
         match apply s x r (applyOptions opts) tr with
         | (.error err, tr, errgrp) =>
           (.error (.Errorf "import resources all" err), errgrp.settle tr)
         | (.panic, tr, errgrp) => (.panic, errgrp.settle tr)
         | (.ok, tr, _) => (.ok, tr)) := rfl

theorem Import_emits (K : Event → Prop) (hK : ∀ e : Event, 1 ≤ e.phase → K e) (s : Service)
    (x : Executor) (r : ResourcesForImport) (opts : List ServiceOption) :
    Extends K (restart s r (applyOptions opts)).2 (Import s x r opts).2 := by
  rw [Import_eq]
  rcases hr : restart s r (applyOptions opts) with ⟨res, tr⟩
  cases res with
  | error err => exact Extends.refl K tr
  | panic => exact Extends.refl K tr
  | ok =>
    simp only
    obtain ⟨hext, hrun⟩ := apply_emits K hK s x r (applyOptions opts) tr
    rcases ha : apply s x r (applyOptions opts) tr with ⟨res, tr1, eg⟩
    rw [ha] at hext hrun
    simp only at hext hrun
    cases res with
    | error err => exact hext.trans (Wait_emits K eg tr1 hrun)
    | panic => exact hext.trans (Wait_emits K eg tr1 hrun)
    | ok => exact hext

/-! ## Import: `apply` reads no scheduler port -/

theorem applyPcsFrom_congr (s1 s2 : Service) (opts : options)
    (h : ∀ i c, applyPcsTask s1 opts i c = applyPcsTask s2 opts i c) :
    ∀ (l : List _) (i : Nat) (eg : SemaphoredErrGroup Trace),
      applyPcsFrom s1 opts i l eg = applyPcsFrom s2 opts i l eg := by
  intro l
  induction l with
  | nil => intro i eg; rfl
  | cons c rest ih =>
    intro i eg
    simp only [applyPcsFrom, h, ih]

theorem applyStorageClassesFrom_congr (s1 s2 : Service) (opts : options)
    (h : ∀ i c, applyStorageClassesTask s1 opts i c = applyStorageClassesTask s2 opts i c) :
    ∀ (l : List _) (i : Nat) (eg : SemaphoredErrGroup Trace),
      applyStorageClassesFrom s1 opts i l eg = applyStorageClassesFrom s2 opts i l eg := by
  intro l
  induction l with
  | nil => intro i eg; rfl
  | cons c rest ih =>
    intro i eg
    simp only [applyStorageClassesFrom, h, ih]

theorem applyPvcsFrom_congr (s1 s2 : Service) (opts : options)
    (h : ∀ i c, applyPvcsTask s1 opts i c = applyPvcsTask s2 opts i c) :
    ∀ (l : List _) (i : Nat) (eg : SemaphoredErrGroup Trace),
      applyPvcsFrom s1 opts i l eg = applyPvcsFrom s2 opts i l eg := by
  intro l
  induction l with
  | nil => intro i eg; rfl
  | cons c rest ih =>
    intro i eg
    simp only [applyPvcsFrom, h, ih]

theorem applyPvsFrom_congr (s1 s2 : Service) (opts : options)
    (h : ∀ i c, applyPvsTask s1 opts i c = applyPvsTask s2 opts i c) :
    ∀ (l : List _) (i : Nat) (eg : SemaphoredErrGroup Trace),
      applyPvsFrom s1 opts i l eg = applyPvsFrom s2 opts i l eg := by
  intro l
  induction l with
  | nil => intro i eg; rfl
  | cons c rest ih =>
    intro i eg
    simp only [applyPvsFrom, h, ih]

theorem applyNodesFrom_congr (s1 s2 : Service) (opts : options)
    (h : ∀ i c, applyNodesTask s1 opts i c = applyNodesTask s2 opts i c) :
    ∀ (l : List _) (i : Nat) (eg : SemaphoredErrGroup Trace),
      applyNodesFrom s1 opts i l eg = applyNodesFrom s2 opts i l eg := by
  intro l
  induction l with
  | nil => intro i eg; rfl
  | cons c rest ih =>
    intro i eg
    simp only [applyNodesFrom, h, ih]

theorem applyPodsFrom_congr (s1 s2 : Service) (opts : options)
    (h : ∀ i c, applyPodsTask s1 opts i c = applyPodsTask s2 opts i c) :
    ∀ (l : List _) (i : Nat) (eg : SemaphoredErrGroup Trace),
      applyPodsFrom s1 opts i l eg = applyPodsFrom s2 opts i l eg := by
  intro l
  induction l with
  | nil => intro i eg; rfl
  | cons c rest ih =>
    intro i eg
    simp only [applyPodsFrom, h, ih]

theorem applyNamespacesFrom_congr (s1 s2 : Service) (opts : options)
    (h : ∀ i c, applyNamespacesTask s1 opts i c = applyNamespacesTask s2 opts i c) :
    ∀ (l : List _) (i : Nat) (eg : SemaphoredErrGroup Trace),
      applyNamespacesFrom s1 opts i l eg = applyNamespacesFrom s2 opts i l eg := by
  intro l
  induction l with
  | nil => intro i eg; rfl
  | cons c rest ih =>
    intro i eg
    simp only [applyNamespacesFrom, h, ih]

theorem apply_congr_scheduler (s : Service) (sched : SchedulerService) (x : Executor)
    (r : ResourcesForImport) (opts : options) (tr : Trace) :
    apply { s with schedulerService := sched } x r opts tr = apply s x r opts tr := by
  simp only [apply, applyNamespaces, applyPcs, applyStorageClasses, applyPvcs, applyNodes,
    applyPods, applyPvs,
    applyNamespacesFrom_congr { s with schedulerService := sched } s opts (fun _ _ => rfl),
    applyPcsFrom_congr { s with schedulerService := sched } s opts (fun _ _ => rfl),
    applyStorageClassesFrom_congr { s with schedulerService := sched } s opts (fun _ _ => rfl),
    applyPvcsFrom_congr { s with schedulerService := sched } s opts (fun _ _ => rfl),
    applyNodesFrom_congr { s with schedulerService := sched } s opts (fun _ _ => rfl),
    applyPodsFrom_congr { s with schedulerService := sched } s opts (fun _ _ => rfl),
    applyPvsFrom_congr { s with schedulerService := sched } s opts (fun _ _ => rfl)]

/-! ## Claims on the restart of the scheduler -/


/-- C7 at the failing input: Import is called with IgnoreErr and
RestartScheduler fails with an error that is not the disabled signal; Import
returns that error and applies nothing. -/
theorem import_aborts_on_restart_failure_despite_ignoreErr :
    Import restartFails inOrder sampleImport [IgnoreErr]
      = (.error (.Errorf "restart scheduler with imported configuration"
            (.backend "scheduler unavailable")),
          [.RestartScheduler sampleImport.SchedulerConfig]) := by
  decide

/-- C8: for every ImportSnapshot, every behaviour of the ports and every
schedule of the executor, Import called with the IgnoreSchedulerConfiguration
option never invokes RestartScheduler. -/
theorem import_skips_restart (s : Service) (x : Executor) (r : ResourcesForImport)
    (opts : List ServiceOption)
    (hpub : ∀ o ∈ opts, o = IgnoreErr ∨ o = IgnoreSchedulerConfiguration)
    (hskip : IgnoreSchedulerConfiguration ∈ opts) :
    ∀ e ∈ (Import s x r opts).2, ∀ cfg, e ≠ .RestartScheduler cfg := by
  have hopt : (applyOptions opts).ignoreSchedulerConfiguration = true := by
    rw [(applyOptions_public opts hpub).2]
    simpa using hskip
  have hrestart : (restart s r (applyOptions opts)).2 = [] := by
    simp [restart, hopt]
  have hext := Import_emits (fun e => 1 ≤ e.phase) (fun _ h => h) s x r opts
  rw [hrestart] at hext
  intro e he cfg hcfg
  rcases hext.mem e he with h | h
  · cases h
  · rw [hcfg] at h
    simp [Event.phase] at h

theorem import_skips_restart_witness :
    (Import restartFails inOrder sampleImport [IgnoreSchedulerConfiguration]).1 = .ok ∧
      (Import restartFails inOrder sampleImport [IgnoreSchedulerConfiguration]).2.length = 7 ∧
      ∀ e ∈ (Import restartFails inOrder sampleImport [IgnoreSchedulerConfiguration]).2,
        ∀ cfg, e ≠ .RestartScheduler cfg :=
  ⟨by decide, by decide,
    import_skips_restart restartFails inOrder sampleImport [IgnoreSchedulerConfiguration]
      (by simp) (by simp)⟩

/-- C9: when RestartScheduler reports the service-disabled signal, Import
does not abort, in either mode: its result and its port calls are those of
the run in which the restart succeeds, that is the result of the apply
phases. -/
theorem import_tolerates_disabled_restart (s : Service) (x : Executor)
    (r : ResourcesForImport) (opts : List ServiceOption) (err : Error)
    (hdis : s.schedulerService.RestartScheduler r.SchedulerConfig = some err)
    (his : err.Is .ErrServiceDisabled = true) :
    Import s x r opts
      = Import { s with schedulerService :=
          { s.schedulerService with RestartScheduler := fun _ => none } } x r opts := by
  have hrestart : restart s r (applyOptions opts)
      = restart { s with schedulerService :=
          { s.schedulerService with RestartScheduler := fun _ => none } } r
          (applyOptions opts) := by
    simp [restart, hdis, his]
  rw [Import_eq, Import_eq, hrestart]
  simp only [apply_congr_scheduler]

theorem import_tolerates_disabled_restart_witness :
    sampleService.schedulerService.RestartScheduler sampleImport.SchedulerConfig
        = some .ErrServiceDisabled ∧
      (Import sampleService inOrder sampleImport []).1 = .ok ∧
      (Import sampleService inOrder sampleImport []).2.length = 8 ∧
      Import sampleService inOrder sampleImport []
        = Import { sampleService with schedulerService :=
            { sampleService.schedulerService with RestartScheduler := fun _ => none } }
            inOrder sampleImport [] :=
  ⟨rfl, by decide, by decide,
    import_tolerates_disabled_restart sampleService inOrder sampleImport [] .ErrServiceDisabled
      rfl (by decide)⟩

/-! ## Import: the namespace phase -/

theorem Go_ok {S : Type} (eg eg1 : SemaphoredErrGroup S) (fn : Task S)
    (h : eg.Go fn = (none, eg1)) : eg1.running = eg.running ++ [fn] := by
  unfold SemaphoredErrGroup.Go at h
  cases hd : eg.exec.dispatch eg.started with
  | some err => simp [hd] at h
  | none =>
    simp only [hd, Prod.mk.injEq, true_and] at h
    rw [← h]

theorem applyNamespacesFrom_ok_mem (s : Service) (opts : options) :
    ∀ (l : List NamespaceApplyConfiguration) (i : Nat) (eg eg1 : SemaphoredErrGroup Trace),
      applyNamespacesFrom s opts i l eg = (.ok, eg1) →
      (∀ t ∈ eg.running, t ∈ eg1.running) ∧
      ∀ j n name, l[j]? = some n → n.Name = some name → isIgnoreNamespace name = false →
        applyNamespacesTask s opts (i + j) n ∈ eg1.running := by
  intro l
  induction l with
  | nil =>
    intro i eg eg1 h
    simp only [applyNamespacesFrom, Prod.mk.injEq, true_and] at h
    subst h
    exact ⟨fun t ht => ht, fun j n name hj => by simp at hj⟩
  | cons c rest ih =>
    intro i eg eg1 h
    unfold applyNamespacesFrom at h
    cases hn : ApplyConfiguration.Name c with
    | none => simp [hn] at h
    | some cname =>
      simp only [hn] at h
      by_cases hskip : isIgnoreNamespace cname = true
      · simp only [hskip, if_true] at h
        obtain ⟨h1, h2⟩ := ih (i + 1) eg eg1 h
        refine ⟨h1, ?_⟩
        intro j n name hj hname hkeep
        cases j with
        | zero =>
          simp only [List.getElem?_cons_zero, Option.some.injEq] at hj
          subst hj
          rw [hn] at hname
          simp only [Option.some.injEq] at hname
          subst hname
          rw [hskip] at hkeep
          cases hkeep
        | succ j =>
          simp only [List.getElem?_cons_succ] at hj
          have := h2 j n name hj hname hkeep
          rwa [show i + (j + 1) = i + 1 + j by omega]
      · simp only [hskip] at h
        rcases hg : eg.Go (applyNamespacesTask s opts i c) with ⟨_ | err, eg2⟩
        · rw [hg] at h
          simp only at h
          have hrun := Go_ok eg eg2 _ hg
          obtain ⟨h1, h2⟩ := ih (i + 1) eg2 eg1 h
          refine ⟨fun t ht => h1 t (by rw [hrun]; exact List.mem_append_left _ ht), ?_⟩
          intro j n name hj hname hkeep
          cases j with
          | zero =>
            simp only [List.getElem?_cons_zero, Option.some.injEq] at hj
            subst hj
            exact h1 _ (by rw [hrun]; simp)
          | succ j =>
            simp only [List.getElem?_cons_succ] at hj
            have := h2 j n name hj hname hkeep
            rwa [show i + (j + 1) = i + 1 + j by omega]
        · rw [hg] at h
          simp at h

theorem applyNamespacesFrom_panic (s : Service) (opts : options) :
    ∀ (l : List NamespaceApplyConfiguration) (i : Nat) (eg : SemaphoredErrGroup Trace),
      (applyNamespacesFrom s opts i l eg).1 = .panic → ∃ n ∈ l, ApplyConfiguration.Name n = none := by
  intro l
  induction l with
  | nil => intro i eg h; simp [applyNamespacesFrom] at h
  | cons c rest ih =>
    intro i eg h
    unfold applyNamespacesFrom at h
    cases hn : ApplyConfiguration.Name c with
    | none => exact ⟨c, List.mem_cons_self _ _, hn⟩
    | some cname =>
      simp only [hn] at h
      split at h
      · obtain ⟨n, hmem, hnone⟩ := ih (i + 1) eg h
        exact ⟨n, List.mem_cons_of_mem _ hmem, hnone⟩
      · rcases hg : eg.Go (applyNamespacesTask s opts i c) with ⟨_ | err, eg2⟩
        · rw [hg] at h
          obtain ⟨n, hmem, hnone⟩ := ih (i + 1) eg2 h
          exact ⟨n, List.mem_cons_of_mem _ hmem, hnone⟩
        · rw [hg] at h
          simp at h

theorem applyResult_ne_panic (opts : options) (msg : String) (resp : Option Error) :
    applyResult opts msg resp ≠ .panic := by
  unfold applyResult
  cases resp with
  | none => simp
  | some err => cases opts.ignoreErr <;> simp

theorem applyNamespacesTask_no_panic (s : Service) (opts : options) (j : Nat)
    (c : NamespaceApplyConfiguration) (hname : ApplyConfiguration.Name c ≠ none) :
    ∀ tr, (applyNamespacesTask s opts j c tr).2 ≠ .panic := by
  intro tr
  unfold applyNamespacesTask ApplyConfiguration.clearUID
  unfold ApplyConfiguration.Name at hname
  cases hm : c.ObjectMetaApplyConfiguration with
  | none => simp [hm] at hname
  | some m => exact applyResult_ne_panic _ _ _

theorem settle_nil {S : Type} (eg : SemaphoredErrGroup S) (s : S) (h : eg.running = []) :
    eg.settle s = s := by
  simp [SemaphoredErrGroup.settle, SemaphoredErrGroup.Wait, h, complete]

theorem restart_phase (s : Service) (r : ResourcesForImport) (opts : options) :
    (restart s r opts).1 ≠ .panic ∧ ∀ e ∈ (restart s r opts).2, ∃ cfg, e = .RestartScheduler cfg := by
  unfold restart
  cases opts.ignoreSchedulerConfiguration with
  | true => simp
  | false =>
    cases s.schedulerService.RestartScheduler r.SchedulerConfig with
    | none => simp
    | some err => cases h : err.Is .ErrServiceDisabled <;> simp [h]

/-- C10: in strict mode, if the Apply of a non-skipped Namespace fails,
Import does not succeed and no port call other than the restart of the
scheduler and Namespace Apply calls is ever made: no PriorityClass,
StorageClass, PersistentVolumeClaim, Node, Pod or PersistentVolume is applied
and no claim is looked up.  When every Namespace of the ImportSnapshot has a
name (no nil dereference), Import returns an error. -/
theorem import_strict_namespace_failure_stops (s : Service) (x : Executor)
    (r : ResourcesForImport) (opts : List ServiceOption)
    (hpub : ∀ o ∈ opts, o = IgnoreErr ∨ o = IgnoreSchedulerConfiguration)
    (hstrict : IgnoreErr ∉ opts)
    (i : Nat) (ns c : NamespaceApplyConfiguration) (name : String) (err : Error)
    (hitem : r.Namespaces[i]? = some ns) (hname : ns.Name = some name)
    (hkeep : isIgnoreNamespace name = false) (hclear : ns.clearUID = some c)
    (hfail : s.client.Apply i ((c.WithAPIVersion "v1").WithKind "Namespace") = some err) :
    (Import s x r opts).1 ≠ .ok ∧
      (∀ e ∈ (Import s x r opts).2,
        (∃ cfg, e = .RestartScheduler cfg) ∨ ∃ n, e = .NamespaceApply n) ∧
      ((∀ n ∈ r.Namespaces, ApplyConfiguration.Name n ≠ none) →
        ∃ e, (Import s x r opts).1 = .error e) := by
  have hopt : (applyOptions opts).ignoreErr = false := by
    rw [(applyOptions_public opts hpub).1]
    simpa using hstrict
  have hK : ∀ e : Event, e.phase = 1 → ∃ n, e = .NamespaceApply n := by
    intro e he
    cases e <;> simp [Event.phase] at he
    exact ⟨_, rfl⟩
  have hbad : ∀ tr, (applyNamespacesTask s (applyOptions opts) i ns tr).2 ≠ .ok := by
    intro tr
    simp [applyNamespacesTask, hclear, hfail, applyResult, hopt]
  obtain ⟨hnp, hrs⟩ := restart_phase s r (applyOptions opts)
  rw [Import_eq]
  rcases hr : restart s r (applyOptions opts) with ⟨res0, tr0⟩
  rw [hr] at hnp hrs
  simp only at hnp hrs
  have hold : ∀ tr1, Extends (fun e => e.phase = 1) tr0 tr1 →
      ∀ e ∈ tr1, (∃ cfg, e = .RestartScheduler cfg) ∨ ∃ n, e = .NamespaceApply n := by
    intro tr1 hext e he
    rcases hext.mem e he with h | h
    · exact Or.inl (hrs e h)
    · exact Or.inr (hK e h)
  cases res0 with
  | panic => exact absurd rfl hnp
  | error e0 =>
    exact ⟨by simp, hold tr0 (Extends.refl _ _), fun _ => ⟨_, rfl⟩⟩
  | ok =>
    simp only
    have g0 : ∀ t ∈ (NewErrGroupWithSemaphore x : SemaphoredErrGroup Trace).running,
        Emits (fun e => e.phase = 1) t ∧ ∀ tr, (t tr).2 ≠ .panic := by
      intro t ht
      simp [NewErrGroupWithSemaphore] at ht
    have a1 := applyNamespacesFrom_running s (applyOptions opts)
      (fun t => Emits (fun e => e.phase = 1) t ∧ ∀ tr, (t tr).2 ≠ .panic)
      (fun j n hn => ⟨applyNamespacesTask_emits s _ j n, applyNamespacesTask_no_panic s _ j n hn⟩)
      r.Namespaces 0 _ g0
    have hpanic := applyNamespacesFrom_panic s (applyOptions opts) r.Namespaces 0
      (NewErrGroupWithSemaphore x)
    have hmem := applyNamespacesFrom_ok_mem s (applyOptions opts) r.Namespaces 0
      (NewErrGroupWithSemaphore x)
    unfold apply
    simp only [applyNamespaces]
    rcases h1 : applyNamespacesFrom s (applyOptions opts) 0 r.Namespaces
      (NewErrGroupWithSemaphore x) with ⟨res1, eg1⟩
    rw [h1] at a1 hpanic
    simp only at a1 hpanic
    cases res1 with
    | error e1 =>
      refine ⟨by simp, ?_, fun _ => ⟨_, rfl⟩⟩
      exact hold _ (Wait_emits _ eg1 tr0 (fun t ht => (a1 t ht).1))
    | panic =>
      refine ⟨by simp, hold _ (Wait_emits _ eg1 tr0 (fun t ht => (a1 t ht).1)), fun hall => ?_⟩
      obtain ⟨n, hn, hnone⟩ := hpanic rfl
      exact absurd hnone (hall n hn)
    | ok =>
      simp only
      have hin : applyNamespacesTask s (applyOptions opts) i ns ∈ eg1.running := by
        have := (hmem eg1 h1).2 i ns name hitem hname hkeep
        simpa using this
      obtain ⟨l, hp, hw⟩ := Wait_eq_runSeq eg1 tr0
      have hnotok : (runSeq l tr0 none).2 ≠ .ok :=
        runSeq_not_ok _ l tr0 none (hp.mem_iff.mpr hin) hbad
      have hnopanic : (runSeq l tr0 none).2 ≠ .panic :=
        runSeq_no_panic l tr0 none (fun t ht => (a1 t (hp.mem_iff.mp ht)).2)
      have hext : Extends (fun e => e.phase = 1) tr0 (runSeq l tr0 none).1 :=
        runSeq_emits _ l tr0 none (fun t ht => (a1 t (hp.mem_iff.mp ht)).1)
      rw [hw]
      rcases hrun : runSeq l tr0 none with ⟨tr1, res2⟩
      rw [hrun] at hnotok hnopanic hext
      simp only at hnotok hnopanic hext
      cases res2 with
      | ok => exact absurd rfl hnotok
      | panic => exact absurd rfl hnopanic
      | error e2 =>
        simp only
        rw [settle_nil _ _ rfl]
        exact ⟨by simp, hold tr1 hext, fun _ => ⟨_, rfl⟩⟩

theorem import_strict_namespace_failure_stops_witness :
    Import namespaceFails inOrder sampleImport []
        = (.error (.Errorf "import resources all" (.Errorf "apply resources"
            (.Errorf "apply Namespace" (.backend "namespace rejected")))),
          [.RestartScheduler sampleImport.SchedulerConfig,
           .NamespaceApply
             { Kind := some "Namespace"
               APIVersion := some "v1"
               ObjectMetaApplyConfiguration :=
                 some { Name := some "team-a", Namespace := some "", UID := none }
               body := "" }]) ∧
      ((Import namespaceFails inOrder sampleImport []).1 ≠ .ok ∧
        (∀ e ∈ (Import namespaceFails inOrder sampleImport []).2,
          (∃ cfg, e = .RestartScheduler cfg) ∨ ∃ n, e = .NamespaceApply n) ∧
        ((∀ n ∈ sampleImport.Namespaces, ApplyConfiguration.Name n ≠ none) →
          ∃ e, (Import namespaceFails inOrder sampleImport []).1 = .error e)) :=
  ⟨by decide,
    import_strict_namespace_failure_stops namespaceFails inOrder sampleImport []
      (by simp) (by simp) 1 (configOf "team-a" "" "n3")
      { Kind := none
        APIVersion := none
        ObjectMetaApplyConfiguration :=
          some { Name := some "team-a", Namespace := some "", UID := none }
        body := "" }
      "team-a" (.backend "namespace rejected") rfl rfl (by decide) rfl rfl⟩

/-! ## Import: the tasks a loop hands to the group, item by item -/

theorem Go_dispatched {S : Type} (eg : SemaphoredErrGroup S) (fn : Task S)
    (hd : ∀ k, eg.exec.dispatch k = none) :
    eg.Go fn = (none, { eg with started := eg.started + 1, running := eg.running ++ [fn] }) := by
  simp [SemaphoredErrGroup.Go, hd]

theorem applyStorageClassesFrom_running_items (s : Service) (opts : options) (P : Task Trace → Prop) :
    ∀ (l : List _) (i : Nat) (eg : SemaphoredErrGroup Trace),
      (∀ j c, l[j]? = some c → P (applyStorageClassesTask s opts (i + j) c)) → (∀ t ∈ eg.running, P t) →
      ∀ t ∈ (applyStorageClassesFrom s opts i l eg).2.running, P t := by
  intro l
  induction l with
  | nil => intro i eg _ h; exact h
  | cons c rest ih =>
    intro i eg hitem h
    have h0 : P (applyStorageClassesTask s opts i c) := by simpa using hitem 0 c (by simp)
    have hrest : ∀ j c1, rest[j]? = some c1 → P (applyStorageClassesTask s opts (i + 1 + j) c1) := by
      intro j c1 hj
      have := hitem (j + 1) c1 (by simpa using hj)
      rwa [show i + (j + 1) = i + 1 + j by omega] at this
    have hgo := Go_running eg (applyStorageClassesTask s opts i c) P h h0
    unfold applyStorageClassesFrom
    rcases hg : eg.Go (applyStorageClassesTask s opts i c) with ⟨_ | err, eg1⟩
    · rw [hg] at hgo
      exact ih (i + 1) eg1 hrest hgo
    · rw [hg] at hgo
      exact hgo

theorem applyStorageClassesFrom_all (s : Service) (opts : options) :
    ∀ (l : List _) (i : Nat) (eg : SemaphoredErrGroup Trace),
      (∀ k, eg.exec.dispatch k = none) →
      (applyStorageClassesFrom s opts i l eg).1 = .ok ∧ (applyStorageClassesFrom s opts i l eg).2.exec = eg.exec ∧
      (∀ t ∈ eg.running, t ∈ (applyStorageClassesFrom s opts i l eg).2.running) ∧
      ∀ j c, l[j]? = some c → applyStorageClassesTask s opts (i + j) c ∈ (applyStorageClassesFrom s opts i l eg).2.running := by
  intro l
  induction l with
  | nil =>
    intro i eg _
    exact ⟨rfl, rfl, fun t ht => ht, fun j c hj => by simp at hj⟩
  | cons c rest ih =>
    intro i eg hd
    unfold applyStorageClassesFrom
    rw [Go_dispatched eg _ hd]
    simp only
    obtain ⟨h1, h2, h3, h4⟩ := ih (i + 1)
      { eg with started := eg.started + 1, running := eg.running ++ [applyStorageClassesTask s opts i c] } hd
    refine ⟨h1, h2, fun t ht => h3 t (List.mem_append_left _ ht), ?_⟩
    intro j c1 hj
    cases j with
    | zero =>
      simp only [List.getElem?_cons_zero, Option.some.injEq] at hj
      subst hj
      exact h3 _ (by simp)
    | succ j =>
      simp only [List.getElem?_cons_succ] at hj
      have := h4 j c1 hj
      rwa [show i + (j + 1) = i + 1 + j by omega]

theorem applyPvcsFrom_running_items (s : Service) (opts : options) (P : Task Trace → Prop) :
    ∀ (l : List _) (i : Nat) (eg : SemaphoredErrGroup Trace),
      (∀ j c, l[j]? = some c → P (applyPvcsTask s opts (i + j) c)) → (∀ t ∈ eg.running, P t) →
      ∀ t ∈ (applyPvcsFrom s opts i l eg).2.running, P t := by
  intro l
  induction l with
  | nil => intro i eg _ h; exact h
  | cons c rest ih =>
    intro i eg hitem h
    have h0 : P (applyPvcsTask s opts i c) := by simpa using hitem 0 c (by simp)
    have hrest : ∀ j c1, rest[j]? = some c1 → P (applyPvcsTask s opts (i + 1 + j) c1) := by
      intro j c1 hj
      have := hitem (j + 1) c1 (by simpa using hj)
      rwa [show i + (j + 1) = i + 1 + j by omega] at this
    have hgo := Go_running eg (applyPvcsTask s opts i c) P h h0
    unfold applyPvcsFrom
    rcases hg : eg.Go (applyPvcsTask s opts i c) with ⟨_ | err, eg1⟩
    · rw [hg] at hgo
      exact ih (i + 1) eg1 hrest hgo
    · rw [hg] at hgo
      exact hgo

theorem applyPvcsFrom_all (s : Service) (opts : options) :
    ∀ (l : List _) (i : Nat) (eg : SemaphoredErrGroup Trace),
      (∀ k, eg.exec.dispatch k = none) →
      (applyPvcsFrom s opts i l eg).1 = .ok ∧ (applyPvcsFrom s opts i l eg).2.exec = eg.exec ∧
      (∀ t ∈ eg.running, t ∈ (applyPvcsFrom s opts i l eg).2.running) ∧
      ∀ j c, l[j]? = some c → applyPvcsTask s opts (i + j) c ∈ (applyPvcsFrom s opts i l eg).2.running := by
  intro l
  induction l with
  | nil =>
    intro i eg _
    exact ⟨rfl, rfl, fun t ht => ht, fun j c hj => by simp at hj⟩
  | cons c rest ih =>
    intro i eg hd
    unfold applyPvcsFrom
    rw [Go_dispatched eg _ hd]
    simp only
    obtain ⟨h1, h2, h3, h4⟩ := ih (i + 1)
      { eg with started := eg.started + 1, running := eg.running ++ [applyPvcsTask s opts i c] } hd
    refine ⟨h1, h2, fun t ht => h3 t (List.mem_append_left _ ht), ?_⟩
    intro j c1 hj
    cases j with
    | zero =>
      simp only [List.getElem?_cons_zero, Option.some.injEq] at hj
      subst hj
      exact h3 _ (by simp)
    | succ j =>
      simp only [List.getElem?_cons_succ] at hj
      have := h4 j c1 hj
      rwa [show i + (j + 1) = i + 1 + j by omega]

theorem applyPvsFrom_running_items (s : Service) (opts : options) (P : Task Trace → Prop) :
    ∀ (l : List _) (i : Nat) (eg : SemaphoredErrGroup Trace),
      (∀ j c, l[j]? = some c → P (applyPvsTask s opts (i + j) c)) → (∀ t ∈ eg.running, P t) →
      ∀ t ∈ (applyPvsFrom s opts i l eg).2.running, P t := by
  intro l
  induction l with
  | nil => intro i eg _ h; exact h
  | cons c rest ih =>
    intro i eg hitem h
    have h0 : P (applyPvsTask s opts i c) := by simpa using hitem 0 c (by simp)
    have hrest : ∀ j c1, rest[j]? = some c1 → P (applyPvsTask s opts (i + 1 + j) c1) := by
      intro j c1 hj
      have := hitem (j + 1) c1 (by simpa using hj)
      rwa [show i + (j + 1) = i + 1 + j by omega] at this
    have hgo := Go_running eg (applyPvsTask s opts i c) P h h0
    unfold applyPvsFrom
    rcases hg : eg.Go (applyPvsTask s opts i c) with ⟨_ | err, eg1⟩
    · rw [hg] at hgo
      exact ih (i + 1) eg1 hrest hgo
    · rw [hg] at hgo
      exact hgo

theorem applyPvsFrom_all (s : Service) (opts : options) :
    ∀ (l : List _) (i : Nat) (eg : SemaphoredErrGroup Trace),
      (∀ k, eg.exec.dispatch k = none) →
      (applyPvsFrom s opts i l eg).1 = .ok ∧ (applyPvsFrom s opts i l eg).2.exec = eg.exec ∧
      (∀ t ∈ eg.running, t ∈ (applyPvsFrom s opts i l eg).2.running) ∧
      ∀ j c, l[j]? = some c → applyPvsTask s opts (i + j) c ∈ (applyPvsFrom s opts i l eg).2.running := by
  intro l
  induction l with
  | nil =>
    intro i eg _
    exact ⟨rfl, rfl, fun t ht => ht, fun j c hj => by simp at hj⟩
  | cons c rest ih =>
    intro i eg hd
    unfold applyPvsFrom
    rw [Go_dispatched eg _ hd]
    simp only
    obtain ⟨h1, h2, h3, h4⟩ := ih (i + 1)
      { eg with started := eg.started + 1, running := eg.running ++ [applyPvsTask s opts i c] } hd
    refine ⟨h1, h2, fun t ht => h3 t (List.mem_append_left _ ht), ?_⟩
    intro j c1 hj
    cases j with
    | zero =>
      simp only [List.getElem?_cons_zero, Option.some.injEq] at hj
      subst hj
      exact h3 _ (by simp)
    | succ j =>
      simp only [List.getElem?_cons_succ] at hj
      have := h4 j c1 hj
      rwa [show i + (j + 1) = i + 1 + j by omega]

theorem applyNodesFrom_running_items (s : Service) (opts : options) (P : Task Trace → Prop) :
    ∀ (l : List _) (i : Nat) (eg : SemaphoredErrGroup Trace),
      (∀ j c, l[j]? = some c → P (applyNodesTask s opts (i + j) c)) → (∀ t ∈ eg.running, P t) →
      ∀ t ∈ (applyNodesFrom s opts i l eg).2.running, P t := by
  intro l
  induction l with
  | nil => intro i eg _ h; exact h
  | cons c rest ih =>
    intro i eg hitem h
    have h0 : P (applyNodesTask s opts i c) := by simpa using hitem 0 c (by simp)
    have hrest : ∀ j c1, rest[j]? = some c1 → P (applyNodesTask s opts (i + 1 + j) c1) := by
      intro j c1 hj
      have := hitem (j + 1) c1 (by simpa using hj)
      rwa [show i + (j + 1) = i + 1 + j by omega] at this
    have hgo := Go_running eg (applyNodesTask s opts i c) P h h0
    unfold applyNodesFrom
    rcases hg : eg.Go (applyNodesTask s opts i c) with ⟨_ | err, eg1⟩
    · rw [hg] at hgo
      exact ih (i + 1) eg1 hrest hgo
    · rw [hg] at hgo
      exact hgo

theorem applyNodesFrom_all (s : Service) (opts : options) :
    ∀ (l : List _) (i : Nat) (eg : SemaphoredErrGroup Trace),
      (∀ k, eg.exec.dispatch k = none) →
      (applyNodesFrom s opts i l eg).1 = .ok ∧ (applyNodesFrom s opts i l eg).2.exec = eg.exec ∧
      (∀ t ∈ eg.running, t ∈ (applyNodesFrom s opts i l eg).2.running) ∧
      ∀ j c, l[j]? = some c → applyNodesTask s opts (i + j) c ∈ (applyNodesFrom s opts i l eg).2.running := by
  intro l
  induction l with
  | nil =>
    intro i eg _
    exact ⟨rfl, rfl, fun t ht => ht, fun j c hj => by simp at hj⟩
  | cons c rest ih =>
    intro i eg hd
    unfold applyNodesFrom
    rw [Go_dispatched eg _ hd]
    simp only
    obtain ⟨h1, h2, h3, h4⟩ := ih (i + 1)
      { eg with started := eg.started + 1, running := eg.running ++ [applyNodesTask s opts i c] } hd
    refine ⟨h1, h2, fun t ht => h3 t (List.mem_append_left _ ht), ?_⟩
    intro j c1 hj
    cases j with
    | zero =>
      simp only [List.getElem?_cons_zero, Option.some.injEq] at hj
      subst hj
      exact h3 _ (by simp)
    | succ j =>
      simp only [List.getElem?_cons_succ] at hj
      have := h4 j c1 hj
      rwa [show i + (j + 1) = i + 1 + j by omega]

theorem applyPodsFrom_running_items (s : Service) (opts : options) (P : Task Trace → Prop) :
    ∀ (l : List _) (i : Nat) (eg : SemaphoredErrGroup Trace),
      (∀ j c, l[j]? = some c → P (applyPodsTask s opts (i + j) c)) → (∀ t ∈ eg.running, P t) →
      ∀ t ∈ (applyPodsFrom s opts i l eg).2.running, P t := by
  intro l
  induction l with
  | nil => intro i eg _ h; exact h
  | cons c rest ih =>
    intro i eg hitem h
    have h0 : P (applyPodsTask s opts i c) := by simpa using hitem 0 c (by simp)
    have hrest : ∀ j c1, rest[j]? = some c1 → P (applyPodsTask s opts (i + 1 + j) c1) := by
      intro j c1 hj
      have := hitem (j + 1) c1 (by simpa using hj)
      rwa [show i + (j + 1) = i + 1 + j by omega] at this
    have hgo := Go_running eg (applyPodsTask s opts i c) P h h0
    unfold applyPodsFrom
    rcases hg : eg.Go (applyPodsTask s opts i c) with ⟨_ | err, eg1⟩
    · rw [hg] at hgo
      exact ih (i + 1) eg1 hrest hgo
    · rw [hg] at hgo
      exact hgo

theorem applyPodsFrom_all (s : Service) (opts : options) :
    ∀ (l : List _) (i : Nat) (eg : SemaphoredErrGroup Trace),
      (∀ k, eg.exec.dispatch k = none) →
      (applyPodsFrom s opts i l eg).1 = .ok ∧ (applyPodsFrom s opts i l eg).2.exec = eg.exec ∧
      (∀ t ∈ eg.running, t ∈ (applyPodsFrom s opts i l eg).2.running) ∧
      ∀ j c, l[j]? = some c → applyPodsTask s opts (i + j) c ∈ (applyPodsFrom s opts i l eg).2.running := by
  intro l
  induction l with
  | nil =>
    intro i eg _
    exact ⟨rfl, rfl, fun t ht => ht, fun j c hj => by simp at hj⟩
  | cons c rest ih =>
    intro i eg hd
    unfold applyPodsFrom
    rw [Go_dispatched eg _ hd]
    simp only
    obtain ⟨h1, h2, h3, h4⟩ := ih (i + 1)
      { eg with started := eg.started + 1, running := eg.running ++ [applyPodsTask s opts i c] } hd
    refine ⟨h1, h2, fun t ht => h3 t (List.mem_append_left _ ht), ?_⟩
    intro j c1 hj
    cases j with
    | zero =>
      simp only [List.getElem?_cons_zero, Option.some.injEq] at hj
      subst hj
      exact h3 _ (by simp)
    | succ j =>
      simp only [List.getElem?_cons_succ] at hj
      have := h4 j c1 hj
      rwa [show i + (j + 1) = i + 1 + j by omega]

theorem applyPcsFrom_running_items (s : Service) (opts : options) (P : Task Trace → Prop) :
    ∀ (l : List _) (i : Nat) (eg : SemaphoredErrGroup Trace),
      (∀ j c name, l[j]? = some c → ApplyConfiguration.Name c = some name →
        isSystemPriorityClass name = false → P (applyPcsTask s opts (i + j) c)) →
      (∀ t ∈ eg.running, P t) →
      ∀ t ∈ (applyPcsFrom s opts i l eg).2.running, P t := by
  intro l
  induction l with
  | nil => intro i eg _ h; exact h
  | cons c rest ih =>
    intro i eg hitem h
    have hrest : ∀ j c1 name, rest[j]? = some c1 → ApplyConfiguration.Name c1 = some name →
        isSystemPriorityClass name = false → P (applyPcsTask s opts (i + 1 + j) c1) := by
      intro j c1 name hj hn hk
      have := hitem (j + 1) c1 name (by simpa using hj) hn hk
      rwa [show i + (j + 1) = i + 1 + j by omega] at this
    unfold applyPcsFrom
    cases hn : ApplyConfiguration.Name c with
    | none => exact h
    | some name =>
      simp only
      by_cases hskip : isSystemPriorityClass name = true
      · simp only [hskip, if_true]
        exact ih (i + 1) eg hrest h
      · simp only [hskip]
        have h0 : P (applyPcsTask s opts i c) := by
          simpa using hitem 0 c name (by simp) hn (by simpa using hskip)
        have hgo := Go_running eg (applyPcsTask s opts i c) P h h0
        rcases hg : eg.Go (applyPcsTask s opts i c) with ⟨_ | err, eg1⟩
        · rw [hg] at hgo
          exact ih (i + 1) eg1 hrest hgo
        · rw [hg] at hgo
          exact hgo

theorem applyPcsFrom_all (s : Service) (opts : options) :
    ∀ (l : List ApplyConfiguration) (i : Nat) (eg : SemaphoredErrGroup Trace),
      (∀ k, eg.exec.dispatch k = none) → (∀ c ∈ l, ApplyConfiguration.Name c ≠ none) →
      (applyPcsFrom s opts i l eg).1 = .ok ∧ (applyPcsFrom s opts i l eg).2.exec = eg.exec ∧
      (∀ t ∈ eg.running, t ∈ (applyPcsFrom s opts i l eg).2.running) ∧
      ∀ j c name, l[j]? = some c → ApplyConfiguration.Name c = some name →
        isSystemPriorityClass name = false → applyPcsTask s opts (i + j) c ∈ (applyPcsFrom s opts i l eg).2.running := by
  intro l
  induction l with
  | nil =>
    intro i eg _ _
    exact ⟨rfl, rfl, fun t ht => ht, fun j c name hj => by simp at hj⟩
  | cons c rest ih =>
    intro i eg hd hnamed
    have hrestnamed : ∀ c1 ∈ rest, ApplyConfiguration.Name c1 ≠ none :=
      fun c1 h1 => hnamed c1 (List.mem_cons_of_mem _ h1)
    unfold applyPcsFrom
    cases hn : ApplyConfiguration.Name c with
    | none => exact absurd hn (hnamed c (List.mem_cons_self _ _))
    | some cname =>
      simp only
      by_cases hskip : isSystemPriorityClass cname = true
      · simp only [hskip, if_true]
        obtain ⟨h1, h2, h3, h4⟩ := ih (i + 1) eg hd hrestnamed
        refine ⟨h1, h2, h3, ?_⟩
        intro j c1 name hj hname hkeep
        cases j with
        | zero =>
          simp only [List.getElem?_cons_zero, Option.some.injEq] at hj
          subst hj
          rw [hn] at hname
          simp only [Option.some.injEq] at hname
          subst hname
          rw [hskip] at hkeep
          cases hkeep
        | succ j =>
          simp only [List.getElem?_cons_succ] at hj
          have := h4 j c1 name hj hname hkeep
          rwa [show i + (j + 1) = i + 1 + j by omega]
      · simp only [hskip]
        rw [Go_dispatched eg _ hd]
        simp only
        obtain ⟨h1, h2, h3, h4⟩ := ih (i + 1)
          { eg with started := eg.started + 1, running := eg.running ++ [applyPcsTask s opts i c] }
          hd hrestnamed
        refine ⟨h1, h2, fun t ht => h3 t (List.mem_append_left _ ht), ?_⟩
        intro j c1 name hj hname hkeep
        cases j with
        | zero =>
          simp only [List.getElem?_cons_zero, Option.some.injEq] at hj
          subst hj
          exact h3 _ (by simp)
        | succ j =>
          simp only [List.getElem?_cons_succ] at hj
          have := h4 j c1 name hj hname hkeep
          rwa [show i + (j + 1) = i + 1 + j by omega]

theorem applyNamespacesFrom_running_items (s : Service) (opts : options) (P : Task Trace → Prop) :
    ∀ (l : List _) (i : Nat) (eg : SemaphoredErrGroup Trace),
      (∀ j c name, l[j]? = some c → ApplyConfiguration.Name c = some name →
        isIgnoreNamespace name = false → P (applyNamespacesTask s opts (i + j) c)) →
      (∀ t ∈ eg.running, P t) →
      ∀ t ∈ (applyNamespacesFrom s opts i l eg).2.running, P t := by
  intro l
  induction l with
  | nil => intro i eg _ h; exact h
  | cons c rest ih =>
    intro i eg hitem h
    have hrest : ∀ j c1 name, rest[j]? = some c1 → ApplyConfiguration.Name c1 = some name →
        isIgnoreNamespace name = false → P (applyNamespacesTask s opts (i + 1 + j) c1) := by
      intro j c1 name hj hn hk
      have := hitem (j + 1) c1 name (by simpa using hj) hn hk
      rwa [show i + (j + 1) = i + 1 + j by omega] at this
    unfold applyNamespacesFrom
    cases hn : ApplyConfiguration.Name c with
    | none => exact h
    | some name =>
      simp only
      by_cases hskip : isIgnoreNamespace name = true
      · simp only [hskip, if_true]
        exact ih (i + 1) eg hrest h
      · simp only [hskip]
        have h0 : P (applyNamespacesTask s opts i c) := by
          simpa using hitem 0 c name (by simp) hn (by simpa using hskip)
        have hgo := Go_running eg (applyNamespacesTask s opts i c) P h h0
        rcases hg : eg.Go (applyNamespacesTask s opts i c) with ⟨_ | err, eg1⟩
        · rw [hg] at hgo
          exact ih (i + 1) eg1 hrest hgo
        · rw [hg] at hgo
          exact hgo

theorem applyNamespacesFrom_all (s : Service) (opts : options) :
    ∀ (l : List ApplyConfiguration) (i : Nat) (eg : SemaphoredErrGroup Trace),
      (∀ k, eg.exec.dispatch k = none) → (∀ c ∈ l, ApplyConfiguration.Name c ≠ none) →
      (applyNamespacesFrom s opts i l eg).1 = .ok ∧ (applyNamespacesFrom s opts i l eg).2.exec = eg.exec ∧
      (∀ t ∈ eg.running, t ∈ (applyNamespacesFrom s opts i l eg).2.running) ∧
      ∀ j c name, l[j]? = some c → ApplyConfiguration.Name c = some name →
        isIgnoreNamespace name = false → applyNamespacesTask s opts (i + j) c ∈ (applyNamespacesFrom s opts i l eg).2.running := by
  intro l
  induction l with
  | nil =>
    intro i eg _ _
    exact ⟨rfl, rfl, fun t ht => ht, fun j c name hj => by simp at hj⟩
  | cons c rest ih =>
    intro i eg hd hnamed
    have hrestnamed : ∀ c1 ∈ rest, ApplyConfiguration.Name c1 ≠ none :=
      fun c1 h1 => hnamed c1 (List.mem_cons_of_mem _ h1)
    unfold applyNamespacesFrom
    cases hn : ApplyConfiguration.Name c with
    | none => exact absurd hn (hnamed c (List.mem_cons_self _ _))
    | some cname =>
      simp only
      by_cases hskip : isIgnoreNamespace cname = true
      · simp only [hskip, if_true]
        obtain ⟨h1, h2, h3, h4⟩ := ih (i + 1) eg hd hrestnamed
        refine ⟨h1, h2, h3, ?_⟩
        intro j c1 name hj hname hkeep
        cases j with
        | zero =>
          simp only [List.getElem?_cons_zero, Option.some.injEq] at hj
          subst hj
          rw [hn] at hname
          simp only [Option.some.injEq] at hname
          subst hname
          rw [hskip] at hkeep
          cases hkeep
        | succ j =>
          simp only [List.getElem?_cons_succ] at hj
          have := h4 j c1 name hj hname hkeep
          rwa [show i + (j + 1) = i + 1 + j by omega]
      · simp only [hskip]
        rw [Go_dispatched eg _ hd]
        simp only
        obtain ⟨h1, h2, h3, h4⟩ := ih (i + 1)
          { eg with started := eg.started + 1, running := eg.running ++ [applyNamespacesTask s opts i c] }
          hd hrestnamed
        refine ⟨h1, h2, fun t ht => h3 t (List.mem_append_left _ ht), ?_⟩
        intro j c1 name hj hname hkeep
        cases j with
        | zero =>
          simp only [List.getElem?_cons_zero, Option.some.injEq] at hj
          subst hj
          exact h3 _ (by simp)
        | succ j =>
          simp only [List.getElem?_cons_succ] at hj
          have := h4 j c1 name hj hname hkeep
          rwa [show i + (j + 1) = i + 1 + j by omega]

theorem runSeq_ran (l : List (Task Trace)) :
    ∀ (tr : Trace) (first : Option Error),
      (∀ t ∈ l, ∀ tr e, e ∈ tr → e ∈ (t tr).1) → (runSeq l tr first).2 ≠ .panic →
      ∀ t ∈ l, Ran t (runSeq l tr first).1 := by
  induction l with
  | nil => intro tr first _ _ t ht; cases ht
  | cons u us ih =>
    intro tr first hmono hnp t ht
    have hrest : ∀ t ∈ us, ∀ tr e, e ∈ tr → e ∈ (t tr).1 :=
      fun t h => hmono t (List.mem_cons_of_mem _ h)
    have hkeep : ∀ (tr1 : Trace) (first1 : Option Error) (e : Event), e ∈ tr1 →
        e ∈ (runSeq us tr1 first1).1 := by
      intro tr1 first1 e he
      exact runSeq_invariant (fun tr2 => e ∈ tr2) us tr1 first1
        (fun v hv tr2 h2 => hrest v hv tr2 e h2) he
    rcases h : u tr with ⟨tr1, res⟩
    cases res with
    | panic => simp [runSeq, h] at hnp
    | ok =>
      simp only [runSeq, h] at hnp ⊢
      rcases List.mem_cons.mp ht with heq | hin
      · subst heq
        exact ⟨tr, fun e he => hkeep tr1 first e (by rw [h] at he; exact he)⟩
      · exact ih tr1 first hrest hnp t hin
    | error err =>
      simp only [runSeq, h] at hnp ⊢
      rcases List.mem_cons.mp ht with heq | hin
      · subst heq
        exact ⟨tr, fun e he => hkeep tr1 _ e (by rw [h] at he; exact he)⟩
      · exact ih tr1 _ hrest hnp t hin

theorem Emits.good_mono {K : Event → Prop} {t : Task Trace} (h : Emits K t) :
    ∀ tr e, e ∈ tr → e ∈ (t tr).1 := by
  intro tr e he
  obtain ⟨es, h1, _⟩ := h tr
  rw [h1]
  exact List.mem_append_left _ he

theorem Ran.later {t : Task Trace} {tr tr1 : Trace} {K : Event → Prop} (h : Ran t tr)
    (hext : Extends K tr tr1) : Ran t tr1 := by
  obtain ⟨tr0, h0⟩ := h
  obtain ⟨es, h1, _⟩ := hext
  exact ⟨tr0, fun e he => by rw [h1]; exact List.mem_append_left _ (h0 e he)⟩

/-! ## Import: what each task submits -/

theorem clearUID_eq (c : ApplyConfiguration)
    (hm : c.ObjectMetaApplyConfiguration.isSome = true) : c.clearUID = some (submitted c) := by
  unfold ApplyConfiguration.clearUID submitted withoutUID
  cases h : c.ObjectMetaApplyConfiguration with
  | none => simp [h] at hm
  | some m => simp

theorem isSome_of_Name {c : ApplyConfiguration} {name : String}
    (h : ApplyConfiguration.Name c = some name) :
    c.ObjectMetaApplyConfiguration.isSome = true := by
  unfold ApplyConfiguration.Name at h
  cases hm : c.ObjectMetaApplyConfiguration with
  | none => simp [hm] at h
  | some m => rfl

theorem isSome_of_Namespace {c : ApplyConfiguration} {ns : String}
    (h : ApplyConfiguration.Namespace c = some ns) :
    c.ObjectMetaApplyConfiguration.isSome = true := by
  unfold ApplyConfiguration.Namespace at h
  cases hm : c.ObjectMetaApplyConfiguration with
  | none => simp [hm] at h
  | some m => rfl

theorem submitted_Namespace (c : ApplyConfiguration) :
    ApplyConfiguration.Namespace (submitted c) = ApplyConfiguration.Namespace c := by
  unfold ApplyConfiguration.Namespace submitted withoutUID
  cases c.ObjectMetaApplyConfiguration <;> rfl

theorem submitted_Name (c : ApplyConfiguration) :
    ApplyConfiguration.Name (submitted c) = ApplyConfiguration.Name c := by
  unfold ApplyConfiguration.Name submitted withoutUID
  cases c.ObjectMetaApplyConfiguration <;> rfl

theorem applyNamespacesTask_eq (s : Service) (opts : options) (i : Nat)
    (c : NamespaceApplyConfiguration) (hm : c.ObjectMetaApplyConfiguration.isSome = true)
    (tr : Trace) :
    applyNamespacesTask s opts i c tr
      = (tr ++ [.NamespaceApply (((submitted c).WithAPIVersion "v1").WithKind "Namespace")],
          applyResult opts "apply Namespace"
            (s.client.Apply i (((submitted c).WithAPIVersion "v1").WithKind "Namespace"))) := by
  simp only [applyNamespacesTask, clearUID_eq c hm]

theorem applyPcsTask_eq (s : Service) (opts : options) (i : Nat)
    (c : PriorityClassApplyConfiguration) (hm : c.ObjectMetaApplyConfiguration.isSome = true)
    (tr : Trace) :
    applyPcsTask s opts i c tr
      = (tr ++ [.PriorityClassApply (submitted c)],
          applyResult opts "apply PriorityClass" (s.priorityclassService.Apply i (submitted c))) := by
  simp only [applyPcsTask, clearUID_eq c hm]

theorem applyStorageClassesTask_eq (s : Service) (opts : options) (i : Nat)
    (c : StorageClassApplyConfiguration) (hm : c.ObjectMetaApplyConfiguration.isSome = true)
    (tr : Trace) :
    applyStorageClassesTask s opts i c tr
      = (tr ++ [.StorageClassApply (submitted c)],
          applyResult opts "apply StorageClass" (s.storageClassService.Apply i (submitted c))) := by
  simp only [applyStorageClassesTask, clearUID_eq c hm]

theorem applyNodesTask_eq (s : Service) (opts : options) (i : Nat)
    (c : NodeApplyConfiguration) (hm : c.ObjectMetaApplyConfiguration.isSome = true)
    (tr : Trace) :
    applyNodesTask s opts i c tr
      = (tr ++ [.NodeApply (submitted c)],
          applyResult opts "apply Node" (s.nodeService.Apply i (submitted c))) := by
  simp only [applyNodesTask, clearUID_eq c hm]

theorem applyPvcsTask_eq (s : Service) (opts : options) (i : Nat)
    (c : PersistentVolumeClaimApplyConfiguration) (ns : String)
    (hns : ApplyConfiguration.Namespace c = some ns) (tr : Trace) :
    applyPvcsTask s opts i c tr
      = (tr ++ [.PersistentVolumeClaimApply ns (submitted c)],
          applyResult opts "apply PersistentVolumeClaims"
            (s.pvcService.Apply i ns (submitted c))) := by
  simp only [applyPvcsTask, clearUID_eq c (isSome_of_Namespace hns), submitted_Namespace, hns]

theorem applyPodsTask_eq (s : Service) (opts : options) (i : Nat)
    (c : PodApplyConfiguration) (ns : String)
    (hns : ApplyConfiguration.Namespace c = some ns) (tr : Trace) :
    applyPodsTask s opts i c tr
      = (tr ++ [.PodApply ns (submitted c)],
          applyResult opts "apply Pod" (s.podService.Apply i ns (submitted c))) := by
  simp only [applyPodsTask, clearUID_eq c (isSome_of_Namespace hns), submitted_Namespace, hns]

theorem isBound_eq (pv q : PersistentVolumeApplyConfiguration) (h : q.Status = pv.Status) :
    isBound q = isBound pv := by
  unfold isBound
  rw [h]

theorem applyPvsTask_unbound (s : Service) (opts : options) (i : Nat)
    (pv : PersistentVolumeApplyConfiguration)
    (hm : pv.ObjectMetaApplyConfiguration.isSome = true) (hb : isBound pv = false) (tr : Trace) :
    applyPvsTask s opts i pv tr
      = (tr ++ [.PersistentVolumeApply (submittedVolume s i pv)],
          applyResult opts "apply PersistentVolume"
            (s.pvService.Apply i (submittedVolume s i pv))) := by
  cases h : pv.ObjectMetaApplyConfiguration with
  | none => simp [h] at hm
  | some m =>
    have hb1 : isBound { pv with ObjectMetaApplyConfiguration := some { m with UID := none } }
        = false := hb
    simp only [applyPvsTask, h, hb1, submittedVolume, hb, withoutUID, Option.map_some']
    rfl

theorem applyPvsTask_bound (s : Service) (opts : options) (i : Nat)
    (pv : PersistentVolumeApplyConfiguration) (name ns : String)
    (hm : pv.ObjectMetaApplyConfiguration.isSome = true) (hb : isBound pv = true)
    (hk : claimKey pv = some (name, ns)) (tr : Trace) :
    applyPvsTask s opts i pv tr
      = (tr ++ [.PersistentVolumeClaimGet name ns,
            .PersistentVolumeApply (submittedVolume s i pv)],
          applyResult opts "apply PersistentVolume"
            (s.pvService.Apply i (submittedVolume s i pv))) := by
  cases h : pv.ObjectMetaApplyConfiguration with
  | none => simp [h] at hm
  | some m =>
    have hb1 : isBound { pv with ObjectMetaApplyConfiguration := some { m with UID := none } }
        = true := hb
    unfold claimKey at hk
    cases hs : pv.Spec with
    | none => simp [hs] at hk
    | some spec =>
      cases hr : spec.ClaimRef with
      | none => simp [hs, hr] at hk
      | some ref =>
        cases hn : ref.Name with
        | none => simp [hs, hr, hn] at hk
        | some name1 =>
          cases hnsp : ref.Namespace with
          | none => simp [hs, hr, hn, hnsp] at hk
          | some ns1 =>
            simp only [hs, hr, hn, hnsp, Option.some.injEq, Prod.mk.injEq] at hk
            obtain ⟨h1, h2⟩ := hk
            subst h1 h2
            have hk1 : claimKey pv = some (name1, ns1) := by
              simp [claimKey, hs, hr, hn, hnsp]
            cases hg : s.pvcService.Get i name1 ns1 with
            | ok pvc =>
              simp [applyPvsTask, h, hb1, lookupClaim, hs, hr, hn, hnsp, hg, submittedVolume, hb,
                hk1, withoutUID, PersistentVolumeApplyConfiguration.withClaimUID]
              exact (isBound_eq pv _ rfl).trans hb
            | error e =>
              simp [applyPvsTask, h, hb1, lookupClaim, hs, hr, hn, hnsp, hg, submittedVolume, hb,
                hk1, withoutUID, PersistentVolumeApplyConfiguration.withClaimUID]
              exact (isBound_eq pv _ rfl).trans hb

theorem applyPvsTask_eq (s : Service) (opts : options) (i : Nat)
    (pv : PersistentVolumeApplyConfiguration)
    (hm : pv.ObjectMetaApplyConfiguration.isSome = true)
    (hk : isBound pv = true → (claimKey pv).isSome = true) :
    ∃ pre : List Event, (∀ e ∈ pre, ∃ name ns, e = .PersistentVolumeClaimGet name ns) ∧
      ∀ tr, applyPvsTask s opts i pv tr
        = (tr ++ (pre ++ [.PersistentVolumeApply (submittedVolume s i pv)]),
            applyResult opts "apply PersistentVolume"
              (s.pvService.Apply i (submittedVolume s i pv))) := by
  cases hb : isBound pv with
  | false =>
    exact ⟨[], by simp, fun tr => by simpa using applyPvsTask_unbound s opts i pv hm hb tr⟩
  | true =>
    have := hk hb
    cases hc : claimKey pv with
    | none => simp [hc] at this
    | some key =>
      obtain ⟨name, ns⟩ := key
      exact ⟨[.PersistentVolumeClaimGet name ns], by simp,
        fun tr => by simpa using applyPvsTask_bound s opts i pv name ns hm hb hc tr⟩

/-! ## Import: the port calls of `apply`, phase by phase -/

theorem Split.exit1 {K1 K2 K3 : Event → Prop} {tr cur : Trace} (eg : SemaphoredErrGroup Trace)
    (h1 : Extends K1 tr cur) (hrun : ∀ t ∈ eg.running, Emits K1 t) :
    Split K1 K2 K3 tr cur ∧ Split K1 K2 K3 tr (eg.settle cur) :=
  ⟨⟨cur, cur, h1, Extends.refl K2 cur, Extends.refl K3 cur⟩,
    ⟨_, _, h1.trans (Wait_emits K1 eg cur hrun), Extends.refl K2 _, Extends.refl K3 _⟩⟩

theorem Split.exit2 {K1 K2 K3 : Event → Prop} {tr m1 cur : Trace}
    (eg : SemaphoredErrGroup Trace) (h1 : Extends K1 tr m1) (h2 : Extends K2 m1 cur)
    (hrun : ∀ t ∈ eg.running, Emits K2 t) :
    Split K1 K2 K3 tr cur ∧ Split K1 K2 K3 tr (eg.settle cur) :=
  ⟨⟨m1, cur, h1, h2, Extends.refl K3 cur⟩,
    ⟨m1, _, h1, h2.trans (Wait_emits K2 eg cur hrun), Extends.refl K3 _⟩⟩

theorem Split.exit3 {K1 K2 K3 : Event → Prop} {tr m1 m2 cur : Trace}
    (eg : SemaphoredErrGroup Trace) (h1 : Extends K1 tr m1) (h2 : Extends K2 m1 m2)
    (h3 : Extends K3 m2 cur) (hrun : ∀ t ∈ eg.running, Emits K3 t) :
    Split K1 K2 K3 tr cur ∧ Split K1 K2 K3 tr (eg.settle cur) :=
  ⟨⟨m1, m2, h1, h2, h3⟩, ⟨m1, m2, h1, h2, h3.trans (Wait_emits K3 eg cur hrun)⟩⟩

theorem running_nil_emits {S : Type} (K : Task S → Prop) (eg : SemaphoredErrGroup S)
    (h : eg.running = []) : ∀ t ∈ eg.running, K t := by
  intro t ht
  rw [h] at ht
  cases ht

theorem apply_split (K1 K2 K3 : Event → Prop) (s : Service) (x : Executor)
    (r : ResourcesForImport) (opts : options) (tr : Trace)
    (hNs : ∀ j c name, r.Namespaces[j]? = some c → ApplyConfiguration.Name c = some name →
      isIgnoreNamespace name = false → Emits K1 (applyNamespacesTask s opts j c))
    (hPc : ∀ j c name, r.PriorityClasses[j]? = some c → ApplyConfiguration.Name c = some name →
      isSystemPriorityClass name = false → Emits K2 (applyPcsTask s opts j c))
    (hSc : ∀ j c, r.StorageClasses[j]? = some c → Emits K2 (applyStorageClassesTask s opts j c))
    (hPvc : ∀ j c, r.Pvcs[j]? = some c → Emits K2 (applyPvcsTask s opts j c))
    (hNode : ∀ j c, r.Nodes[j]? = some c → Emits K2 (applyNodesTask s opts j c))
    (hPod : ∀ j c, r.Pods[j]? = some c → Emits K2 (applyPodsTask s opts j c))
    (hPv : ∀ j c, r.Pvs[j]? = some c → Emits K3 (applyPvsTask s opts j c)) :
    Split K1 K2 K3 tr (apply s x r opts tr).2.1 ∧
      Split K1 K2 K3 tr ((apply s x r opts tr).2.2.settle (apply s x r opts tr).2.1) := by
  have g0 : ∀ t ∈ (NewErrGroupWithSemaphore x : SemaphoredErrGroup Trace).running,
      Emits K1 t := running_nil_emits _ _ rfl
  unfold apply
  simp only [applyNamespaces, applyPcs, applyStorageClasses, applyPvcs, applyNodes, applyPods,
    applyPvs]
  have a1 := applyNamespacesFrom_running_items s opts (Emits K1) r.Namespaces 0 _
    (fun j c name hj hn hk => by simpa using hNs j c name hj hn hk) g0
  rcases h1 : applyNamespacesFrom s opts 0 r.Namespaces (NewErrGroupWithSemaphore x)
    with ⟨res, eg1⟩
  rw [h1] at a1
  cases res with
  | error err => exact Split.exit1 eg1 (Extends.refl K1 tr) a1
  | panic => exact Split.exit1 eg1 (Extends.refl K1 tr) a1
  | ok =>
  simp only
  have w1 := Wait_emits K1 eg1 tr a1
  have r1 := Wait_running eg1 tr
  rcases h2 : eg1.Wait tr with ⟨res, tr1, eg2⟩
  rw [h2] at w1 r1
  simp only at w1 r1
  cases res with
  | error err => exact Split.exit1 eg2 w1 (running_nil_emits _ _ r1)
  | panic => exact Split.exit1 eg2 w1 (running_nil_emits _ _ r1)
  | ok =>
  simp only
  have g2 : ∀ t ∈ eg2.running, Emits K2 t := running_nil_emits _ _ r1
  have x0 := Extends.refl K2 tr1
  have a3 := applyPcsFrom_running_items s opts (Emits K2) r.PriorityClasses 0 eg2
    (fun j c name hj hn hk => by simpa using hPc j c name hj hn hk) g2
  rcases h3 : applyPcsFrom s opts 0 r.PriorityClasses eg2 with ⟨res, eg3⟩
  rw [h3] at a3
  cases res with
  | error err => exact Split.exit2 eg3 w1 x0 a3
  | panic => exact Split.exit2 eg3 w1 x0 a3
  | ok =>
  simp only
  have a4 := applyStorageClassesFrom_running_items s opts (Emits K2) r.StorageClasses 0 eg3
    (fun j c hj => by simpa using hSc j c hj) a3
  rcases h4 : applyStorageClassesFrom s opts 0 r.StorageClasses eg3 with ⟨res, eg4⟩
  rw [h4] at a4
  cases res with
  | error err => exact Split.exit2 eg4 w1 x0 a4
  | panic => exact Split.exit2 eg4 w1 x0 a4
  | ok =>
  simp only
  have a5 := applyPvcsFrom_running_items s opts (Emits K2) r.Pvcs 0 eg4
    (fun j c hj => by simpa using hPvc j c hj) a4
  rcases h5 : applyPvcsFrom s opts 0 r.Pvcs eg4 with ⟨res, eg5⟩
  rw [h5] at a5
  cases res with
  | error err => exact Split.exit2 eg5 w1 x0 a5
  | panic => exact Split.exit2 eg5 w1 x0 a5
  | ok =>
  simp only
  have a6 := applyNodesFrom_running_items s opts (Emits K2) r.Nodes 0 eg5
    (fun j c hj => by simpa using hNode j c hj) a5
  rcases h6 : applyNodesFrom s opts 0 r.Nodes eg5 with ⟨res, eg6⟩
  rw [h6] at a6
  cases res with
  | error err => exact Split.exit2 eg6 w1 x0 a6
  | panic => exact Split.exit2 eg6 w1 x0 a6
  | ok =>
  simp only
  have a7 := applyPodsFrom_running_items s opts (Emits K2) r.Pods 0 eg6
    (fun j c hj => by simpa using hPod j c hj) a6
  rcases h7 : applyPodsFrom s opts 0 r.Pods eg6 with ⟨res, eg7⟩
  rw [h7] at a7
  cases res with
  | error err => exact Split.exit2 eg7 w1 x0 a7
  | panic => exact Split.exit2 eg7 w1 x0 a7
  | ok =>
  simp only
  have w2 := Wait_emits K2 eg7 tr1 a7
  have r2 := Wait_running eg7 tr1
  rcases h8 : eg7.Wait tr1 with ⟨res, tr2, eg8⟩
  rw [h8] at w2 r2
  simp only at w2 r2
  cases res with
  | error err => exact Split.exit2 eg8 w1 w2 (running_nil_emits _ _ r2)
  | panic => exact Split.exit2 eg8 w1 w2 (running_nil_emits _ _ r2)
  | ok =>
  simp only
  have g8 : ∀ t ∈ eg8.running, Emits K3 t := running_nil_emits _ _ r2
  have y0 := Extends.refl K3 tr2
  have a9 := applyPvsFrom_running_items s opts (Emits K3) r.Pvs 0 eg8
    (fun j c hj => by simpa using hPv j c hj) g8
  rcases h9 : applyPvsFrom s opts 0 r.Pvs eg8 with ⟨res, eg9⟩
  rw [h9] at a9
  cases res with
  | error err => exact Split.exit3 eg9 w1 w2 y0 a9
  | panic => exact Split.exit3 eg9 w1 w2 y0 a9
  | ok =>
  simp only
  have w3 := Wait_emits K3 eg9 tr2 a9
  have r3 := Wait_running eg9 tr2
  rcases h10 : eg9.Wait tr2 with ⟨res, tr3, eg10⟩
  rw [h10] at w3 r3
  simp only at w3 r3
  cases res with
  | error err => exact Split.exit3 eg10 w1 w2 w3 (running_nil_emits _ _ r3)
  | panic => exact Split.exit3 eg10 w1 w2 w3 (running_nil_emits _ _ r3)
  | ok => exact Split.exit3 eg10 w1 w2 w3 (running_nil_emits _ _ r3)

theorem Import_split (K1 K2 K3 : Event → Prop) (s : Service) (x : Executor)
    (r : ResourcesForImport) (opts : List ServiceOption)
    (hNs : ∀ j c name, r.Namespaces[j]? = some c → ApplyConfiguration.Name c = some name →
      isIgnoreNamespace name = false → Emits K1 (applyNamespacesTask s (applyOptions opts) j c))
    (hPc : ∀ j c name, r.PriorityClasses[j]? = some c → ApplyConfiguration.Name c = some name →
      isSystemPriorityClass name = false → Emits K2 (applyPcsTask s (applyOptions opts) j c))
    (hSc : ∀ j c, r.StorageClasses[j]? = some c → Emits K2 (applyStorageClassesTask s (applyOptions opts) j c))
    (hPvc : ∀ j c, r.Pvcs[j]? = some c → Emits K2 (applyPvcsTask s (applyOptions opts) j c))
    (hNode : ∀ j c, r.Nodes[j]? = some c → Emits K2 (applyNodesTask s (applyOptions opts) j c))
    (hPod : ∀ j c, r.Pods[j]? = some c → Emits K2 (applyPodsTask s (applyOptions opts) j c))
    (hPv : ∀ j c, r.Pvs[j]? = some c → Emits K3 (applyPvsTask s (applyOptions opts) j c)) :
    Split K1 K2 K3 (restart s r (applyOptions opts)).2 (Import s x r opts).2 := by
  rw [Import_eq]
  rcases hr : restart s r (applyOptions opts) with ⟨res, tr⟩
  cases res with
  | error err => exact ⟨tr, tr, Extends.refl K1 tr, Extends.refl K2 tr, Extends.refl K3 tr⟩
  | panic => exact ⟨tr, tr, Extends.refl K1 tr, Extends.refl K2 tr, Extends.refl K3 tr⟩
  | ok =>
    simp only
    obtain ⟨h1, h2⟩ := apply_split K1 K2 K3 s x r (applyOptions opts) tr hNs hPc hSc hPvc hNode
      hPod hPv
    rcases ha : apply s x r (applyOptions opts) tr with ⟨res, tr1, eg⟩
    rw [ha] at h1 h2
    simp only at h1 h2
    cases res with
    | error err => exact h2
    | panic => exact h2
    | ok => exact h1

/-! ## Import: runs in which every task is dispatched and nothing is nil -/

theorem noNilDeref_iff (r : ResourcesForImport) :
    noNilDeref r = true ↔
      (∀ c ∈ r.Namespaces, (ApplyConfiguration.Name c).isSome = true) ∧
      (∀ c ∈ r.PriorityClasses, (ApplyConfiguration.Name c).isSome = true) ∧
      (∀ c ∈ r.StorageClasses, c.ObjectMetaApplyConfiguration.isSome = true) ∧
      (∀ c ∈ r.Pvcs, (ApplyConfiguration.Namespace c).isSome = true) ∧
      (∀ c ∈ r.Nodes, c.ObjectMetaApplyConfiguration.isSome = true) ∧
      (∀ c ∈ r.Pods, (ApplyConfiguration.Namespace c).isSome = true) ∧
      (∀ pv ∈ r.Pvs, pv.ObjectMetaApplyConfiguration.isSome = true ∧
        (isBound pv = true → (claimKey pv).isSome = true)) := by
  simp only [noNilDeref, Bool.and_eq_true, List.all_eq_true, Bool.or_eq_true,
    Bool.not_eq_true', and_assoc]
  constructor
  · rintro ⟨h1, h2, h3, h4, h5, h6, h7⟩
    refine ⟨h1, h2, h3, h4, h5, h6, fun pv hpv => ⟨(h7 pv hpv).1, fun hb => ?_⟩⟩
    rcases (h7 pv hpv).2 with h | h
    · rw [hb] at h; cases h
    · exact h
  · rintro ⟨h1, h2, h3, h4, h5, h6, h7⟩
    refine ⟨h1, h2, h3, h4, h5, h6, fun pv hpv => ⟨(h7 pv hpv).1, ?_⟩⟩
    cases hb : isBound pv with
    | false => exact Or.inl rfl
    | true => exact Or.inr ((h7 pv hpv).2 hb)

theorem good_of_eq (t : Task Trace) (es : List Event) (res : Trace → Result)
    (hres : ∀ tr, res tr ≠ .panic) (h : ∀ tr, t tr = (tr ++ es, res tr)) : Good t := by
  refine ⟨fun tr => ?_, fun tr e he => ?_⟩
  · rw [h tr]; exact hres tr
  · rw [h tr]; exact List.mem_append_left _ he

theorem applyNamespacesTask_good (s : Service) (opts : options) (i : Nat)
    (c : NamespaceApplyConfiguration) (hm : c.ObjectMetaApplyConfiguration.isSome = true) :
    Good (applyNamespacesTask s opts i c) :=
  good_of_eq _ _ _ (fun _ => applyResult_ne_panic _ _ _) (applyNamespacesTask_eq s opts i c hm)

theorem applyPcsTask_good (s : Service) (opts : options) (i : Nat)
    (c : PriorityClassApplyConfiguration) (hm : c.ObjectMetaApplyConfiguration.isSome = true) :
    Good (applyPcsTask s opts i c) :=
  good_of_eq _ _ _ (fun _ => applyResult_ne_panic _ _ _) (applyPcsTask_eq s opts i c hm)

theorem applyStorageClassesTask_good (s : Service) (opts : options) (i : Nat)
    (c : StorageClassApplyConfiguration) (hm : c.ObjectMetaApplyConfiguration.isSome = true) :
    Good (applyStorageClassesTask s opts i c) :=
  good_of_eq _ _ _ (fun _ => applyResult_ne_panic _ _ _)
    (applyStorageClassesTask_eq s opts i c hm)

theorem applyNodesTask_good (s : Service) (opts : options) (i : Nat)
    (c : NodeApplyConfiguration) (hm : c.ObjectMetaApplyConfiguration.isSome = true) :
    Good (applyNodesTask s opts i c) :=
  good_of_eq _ _ _ (fun _ => applyResult_ne_panic _ _ _) (applyNodesTask_eq s opts i c hm)

theorem applyPvcsTask_good (s : Service) (opts : options) (i : Nat)
    (c : PersistentVolumeClaimApplyConfiguration)
    (hns : (ApplyConfiguration.Namespace c).isSome = true) :
    Good (applyPvcsTask s opts i c) := by
  cases h : ApplyConfiguration.Namespace c with
  | none => simp [h] at hns
  | some ns =>
    exact good_of_eq _ _ _ (fun _ => applyResult_ne_panic _ _ _) (applyPvcsTask_eq s opts i c ns h)

theorem applyPodsTask_good (s : Service) (opts : options) (i : Nat)
    (c : PodApplyConfiguration) (hns : (ApplyConfiguration.Namespace c).isSome = true) :
    Good (applyPodsTask s opts i c) := by
  cases h : ApplyConfiguration.Namespace c with
  | none => simp [h] at hns
  | some ns =>
    exact good_of_eq _ _ _ (fun _ => applyResult_ne_panic _ _ _) (applyPodsTask_eq s opts i c ns h)

theorem applyPvsTask_good (s : Service) (opts : options) (i : Nat)
    (pv : PersistentVolumeApplyConfiguration)
    (hm : pv.ObjectMetaApplyConfiguration.isSome = true)
    (hk : isBound pv = true → (claimKey pv).isSome = true) :
    Good (applyPvsTask s opts i pv) := by
  obtain ⟨pre, _, h⟩ := applyPvsTask_eq s opts i pv hm hk
  exact good_of_eq _ _ _ (fun _ => applyResult_ne_panic _ _ _) h

theorem isSome_Name_meta {c : ApplyConfiguration}
    (h : (ApplyConfiguration.Name c).isSome = true) :
    c.ObjectMetaApplyConfiguration.isSome = true := by
  cases hn : ApplyConfiguration.Name c with
  | none => simp [hn] at h
  | some name => exact isSome_of_Name hn

theorem runSeq_keeps (l : List (Task Trace)) (tr : Trace) (first : Option Error)
    (hmono : ∀ t ∈ l, ∀ tr e, e ∈ tr → e ∈ (t tr).1) :
    ∀ e ∈ tr, e ∈ (runSeq l tr first).1 := by
  intro e he
  exact runSeq_invariant (fun tr2 => e ∈ tr2) l tr first
    (fun v hv tr2 h2 => hmono v hv tr2 e h2) he

theorem Ran.of_keeps {t : Task Trace} {tr tr1 : Trace} (h : Ran t tr)
    (hkeep : ∀ e ∈ tr, e ∈ tr1) : Ran t tr1 := by
  obtain ⟨tr0, h0⟩ := h
  exact ⟨tr0, fun e he => hkeep e (h0 e he)⟩

theorem Wait_exec {S : Type} (eg : SemaphoredErrGroup S) (s : S) :
    (eg.Wait s).2.2.exec = eg.exec := rfl

theorem Wait_live (eg : SemaphoredErrGroup Trace) (tr : Trace)
    (hgood : ∀ t ∈ eg.running, Good t) :
    (eg.Wait tr).1 ≠ .panic ∧ (∀ t ∈ eg.running, Ran t (eg.Wait tr).2.1) ∧
      (∀ e ∈ tr, e ∈ (eg.Wait tr).2.1) ∧
      ((∀ t ∈ eg.running, Quiet t) → (eg.Wait tr).1 = .ok) := by
  obtain ⟨l, hp, hw⟩ := Wait_eq_runSeq eg tr
  have hmono : ∀ t ∈ l, ∀ tr e, e ∈ tr → e ∈ (t tr).1 :=
    fun t ht => (hgood t (hp.mem_iff.mp ht)).2
  have hnp : (runSeq l tr none).2 ≠ .panic :=
    runSeq_no_panic l tr none (fun t ht => (hgood t (hp.mem_iff.mp ht)).1)
  rw [hw]
  refine ⟨hnp, fun t ht => runSeq_ran l tr none hmono hnp t (hp.mem_iff.mpr ht),
    runSeq_keeps l tr none hmono, fun hq => ?_⟩
  exact runSeq_all_ok l tr (fun t ht => hq t (hp.mem_iff.mp ht))

theorem apply_live (s : Service) (x : Executor) (r : ResourcesForImport) (opts : options)
    (tr : Trace) (hd : ∀ k, x.dispatch k = none) (hwf : noNilDeref r = true) :
    (apply s x r opts tr).1 ≠ .panic ∧ (apply s x r opts tr).2.2.running = [] ∧
      (∀ e ∈ tr, e ∈ (apply s x r opts tr).2.1) ∧
      RanNamespaces s opts r (apply s x r opts tr).2.1 ∧
      (QuietNamespaces s opts r → RanPhase2 s opts r (apply s x r opts tr).2.1) ∧
      (QuietNamespaces s opts r → QuietPhase2 s opts r →
        RanPvs s opts r (apply s x r opts tr).2.1) ∧
      (QuietNamespaces s opts r → QuietPhase2 s opts r → QuietPvs s opts r →
        (apply s x r opts tr).1 = .ok) := by
  obtain ⟨w1, w2, w3, w4, w5, w6, w7⟩ := (noNilDeref_iff r).mp hwf
  have named : ∀ (l : List ApplyConfiguration),
      (∀ c ∈ l, (ApplyConfiguration.Name c).isSome = true) →
      ∀ c ∈ l, ApplyConfiguration.Name c ≠ none := by
    intro l h c hc hn
    have := h c hc
    rw [hn] at this
    cases this
  have n := applyNamespacesFrom_all s opts r.Namespaces 0 (NewErrGroupWithSemaphore x) hd
    (named _ w1)
  have a1 := applyNamespacesFrom_running_items s opts
    (fun t => Good t ∧ (QuietNamespaces s opts r → Quiet t)) r.Namespaces 0
    (NewErrGroupWithSemaphore x)
    (fun j c name hj hn hk => by
      rw [Nat.zero_add]
      exact ⟨applyNamespacesTask_good s opts j c (isSome_of_Name hn),
        fun q => q j c name hj hn hk⟩)
    (running_nil_emits _ _ rfl)
  unfold apply
  simp only [applyNamespaces, applyPcs, applyStorageClasses, applyPvcs, applyNodes, applyPods,
    applyPvs]
  rcases h1 : applyNamespacesFrom s opts 0 r.Namespaces (NewErrGroupWithSemaphore x)
    with ⟨res, eg1⟩
  rw [h1] at n a1
  simp only at n a1
  obtain ⟨n1, n2, n3, n4⟩ := n
  subst n1
  simp only
  obtain ⟨l1np, l1ran, l1keep, l1ok⟩ := Wait_live eg1 tr (fun t ht => (a1 t ht).1)
  have r1 := Wait_running eg1 tr
  have e1 := Wait_exec eg1 tr
  rcases h2 : eg1.Wait tr with ⟨res, tr1, eg2⟩
  rw [h2] at l1np l1ran l1keep l1ok r1 e1
  simp only at l1np l1ran l1keep l1ok r1 e1
  have ns1 : RanNamespaces s opts r tr1 := fun j c name hj hn hk =>
    l1ran _ (by simpa using n4 j c name hj hn hk)
  have q1 : QuietNamespaces s opts r → res = .ok := fun q => l1ok (fun t ht => (a1 t ht).2 q)
  cases res with
  | panic => exact absurd rfl l1np
  | error err =>
    exact ⟨by simp, r1, l1keep, ns1, fun q => (by cases q1 q), fun q => (by cases q1 q),
      fun q => (by cases q1 q)⟩
  | ok =>
  simp only
  have d2 : ∀ k, eg2.exec.dispatch k = none := by
    rw [e1, n2]
    exact hd
  have m3 := applyPcsFrom_all s opts r.PriorityClasses 0 eg2 d2 (named _ w2)
  have a3 := applyPcsFrom_running_items s opts
    (fun t => Good t ∧ (QuietPhase2 s opts r → Quiet t)) r.PriorityClasses 0 eg2
    (fun j c name hj hn hk => by
      rw [Nat.zero_add]
      exact ⟨applyPcsTask_good s opts j c (isSome_of_Name hn), fun q => q.1 j c name hj hn hk⟩)
    (running_nil_emits _ _ r1)
  rcases h3 : applyPcsFrom s opts 0 r.PriorityClasses eg2 with ⟨res, eg3⟩
  rw [h3] at m3 a3
  simp only at m3 a3
  obtain ⟨m31, m32, m33, m34⟩ := m3
  subst m31
  simp only
  have d3 : ∀ k, eg3.exec.dispatch k = none := by
    rw [m32]
    exact d2
  have m4 := applyStorageClassesFrom_all s opts r.StorageClasses 0 eg3 d3
  have a4 := applyStorageClassesFrom_running_items s opts
    (fun t => Good t ∧ (QuietPhase2 s opts r → Quiet t)) r.StorageClasses 0 eg3
    (fun j c hj => by
      rw [Nat.zero_add]
      exact ⟨applyStorageClassesTask_good s opts j c (w3 c (List.getElem?_mem hj)), fun q => q.2.1 j c hj⟩)
    a3
  rcases h4 : applyStorageClassesFrom s opts 0 r.StorageClasses eg3 with ⟨res, eg4⟩
  rw [h4] at m4 a4
  simp only at m4 a4
  obtain ⟨m41, m42, m43, m44⟩ := m4
  subst m41
  simp only
  have d4 : ∀ k, eg4.exec.dispatch k = none := by
    rw [m42]
    exact d3
  have m5 := applyPvcsFrom_all s opts r.Pvcs 0 eg4 d4
  have a5 := applyPvcsFrom_running_items s opts
    (fun t => Good t ∧ (QuietPhase2 s opts r → Quiet t)) r.Pvcs 0 eg4
    (fun j c hj => by
      rw [Nat.zero_add]
      exact ⟨applyPvcsTask_good s opts j c (w4 c (List.getElem?_mem hj)), fun q => q.2.2.1 j c hj⟩)
    a4
  rcases h5 : applyPvcsFrom s opts 0 r.Pvcs eg4 with ⟨res, eg5⟩
  rw [h5] at m5 a5
  simp only at m5 a5
  obtain ⟨m51, m52, m53, m54⟩ := m5
  subst m51
  simp only
  have d5 : ∀ k, eg5.exec.dispatch k = none := by
    rw [m52]
    exact d4
  have m6 := applyNodesFrom_all s opts r.Nodes 0 eg5 d5
  have a6 := applyNodesFrom_running_items s opts
    (fun t => Good t ∧ (QuietPhase2 s opts r → Quiet t)) r.Nodes 0 eg5
    (fun j c hj => by
      rw [Nat.zero_add]
      exact ⟨applyNodesTask_good s opts j c (w5 c (List.getElem?_mem hj)), fun q => q.2.2.2.1 j c hj⟩)
    a5
  rcases h6 : applyNodesFrom s opts 0 r.Nodes eg5 with ⟨res, eg6⟩
  rw [h6] at m6 a6
  simp only at m6 a6
  obtain ⟨m61, m62, m63, m64⟩ := m6
  subst m61
  simp only
  have d6 : ∀ k, eg6.exec.dispatch k = none := by
    rw [m62]
    exact d5
  have m7 := applyPodsFrom_all s opts r.Pods 0 eg6 d6
  have a7 := applyPodsFrom_running_items s opts
    (fun t => Good t ∧ (QuietPhase2 s opts r → Quiet t)) r.Pods 0 eg6
    (fun j c hj => by
      rw [Nat.zero_add]
      exact ⟨applyPodsTask_good s opts j c (w6 c (List.getElem?_mem hj)), fun q => q.2.2.2.2 j c hj⟩)
    a6
  rcases h7 : applyPodsFrom s opts 0 r.Pods eg6 with ⟨res, eg7⟩
  rw [h7] at m7 a7
  simp only at m7 a7
  obtain ⟨m71, m72, m73, m74⟩ := m7
  subst m71
  simp only
  have d7 : ∀ k, eg7.exec.dispatch k = none := by
    rw [m72]
    exact d6
  obtain ⟨l2np, l2ran, l2keep, l2ok⟩ := Wait_live eg7 tr1 (fun t ht => (a7 t ht).1)
  have r2 := Wait_running eg7 tr1
  have e2 := Wait_exec eg7 tr1
  rcases h8 : eg7.Wait tr1 with ⟨res, tr2, eg8⟩
  rw [h8] at l2np l2ran l2keep l2ok r2 e2
  simp only at l2np l2ran l2keep l2ok r2 e2
  have ns2 : RanNamespaces s opts r tr2 := fun j c name hj hn hk =>
    (ns1 j c name hj hn hk).of_keeps l2keep
  have p2 : RanPhase2 s opts r tr2 :=
    ⟨fun j c name hj hn hk =>
        l2ran _ (m73 _ (m63 _ (m53 _ (m43 _ (by simpa using m34 j c name hj hn hk))))),
      fun j c hj => l2ran _ (m73 _ (m63 _ (m53 _ (by simpa using m44 j c hj)))),
      fun j c hj => l2ran _ (m73 _ (m63 _ (by simpa using m54 j c hj))),
      fun j c hj => l2ran _ (m73 _ (by simpa using m64 j c hj)),
      fun j c hj => l2ran _ (by simpa using m74 j c hj)⟩
  have q2 : QuietPhase2 s opts r → res = .ok := fun q => l2ok (fun t ht => (a7 t ht).2 q)
  cases res with
  | panic => exact absurd rfl l2np
  | error err =>
    exact ⟨by simp, r2, fun e he => l2keep e (l1keep e he), ns2, fun _ => p2,
      fun _ q => (by cases q2 q), fun _ q => (by cases q2 q)⟩
  | ok =>
  simp only
  have d8 : ∀ k, eg8.exec.dispatch k = none := by
    rw [e2]
    exact d7
  have m9 := applyPvsFrom_all s opts r.Pvs 0 eg8 d8
  have a9 := applyPvsFrom_running_items s opts
    (fun t => Good t ∧ (QuietPvs s opts r → Quiet t)) r.Pvs 0 eg8
    (fun j c hj => by
      rw [Nat.zero_add]
      exact ⟨applyPvsTask_good s opts j c (w7 c (List.getElem?_mem hj)).1
        (w7 c (List.getElem?_mem hj)).2, fun q => q j c hj⟩)
    (running_nil_emits _ _ r2)
  rcases h9 : applyPvsFrom s opts 0 r.Pvs eg8 with ⟨res, eg9⟩
  rw [h9] at m9 a9
  simp only at m9 a9
  obtain ⟨m91, m92, m93, m94⟩ := m9
  subst m91
  simp only
  obtain ⟨l3np, l3ran, l3keep, l3ok⟩ := Wait_live eg9 tr2 (fun t ht => (a9 t ht).1)
  have r3 := Wait_running eg9 tr2
  rcases h10 : eg9.Wait tr2 with ⟨res, tr3, eg10⟩
  rw [h10] at l3np l3ran l3keep l3ok r3
  simp only at l3np l3ran l3keep l3ok r3
  have ns3 : RanNamespaces s opts r tr3 := fun j c name hj hn hk =>
    (ns2 j c name hj hn hk).of_keeps l3keep
  have p3 : RanPhase2 s opts r tr3 :=
    ⟨fun j c name hj hn hk => (p2.1 j c name hj hn hk).of_keeps l3keep,
      fun j c hj => (p2.2.1 j c hj).of_keeps l3keep,
      fun j c hj => (p2.2.2.1 j c hj).of_keeps l3keep,
      fun j c hj => (p2.2.2.2.1 j c hj).of_keeps l3keep,
      fun j c hj => (p2.2.2.2.2 j c hj).of_keeps l3keep⟩
  have v3 : RanPvs s opts r tr3 := fun j c hj => l3ran _ (by simpa using m94 j c hj)
  have q3 : QuietPvs s opts r → res = .ok := fun q => l3ok (fun t ht => (a9 t ht).2 q)
  have k3 : ∀ e ∈ tr, e ∈ tr3 := fun e he => l3keep e (l2keep e (l1keep e he))
  cases res with
  | panic => exact absurd rfl l3np
  | error err => exact ⟨by simp, r3, k3, ns3, fun _ => p3, fun _ _ => v3, fun _ _ q => (by cases q3 q)⟩
  | ok => exact ⟨by simp, r3, k3, ns3, fun _ => p3, fun _ _ => v3, fun _ _ _ => rfl⟩

/-! ## Import: tasks that return nil, and the exact call of every task -/

theorem applyResult_ok (opts : options) (msg : String) (resp : Option Error)
    (h : opts.ignoreErr = true ∨ resp = none) : applyResult opts msg resp = .ok := by
  unfold applyResult
  cases resp with
  | none => rfl
  | some err =>
    rcases h with h | h
    · simp [h]
    · cases h

theorem quiet_of (s : Service) (opts : options) (r : ResourcesForImport)
    (hq : opts.ignoreErr = true ∨ AppliesSucceed s) (hwf : noNilDeref r = true) :
    QuietNamespaces s opts r ∧ QuietPhase2 s opts r ∧ QuietPvs s opts r := by
  obtain ⟨w1, w2, w3, w4, w5, w6, w7⟩ := (noNilDeref_iff r).mp hwf
  have hres : ∀ (msg : String) (resp : Option Error), (AppliesSucceed s → resp = none) →
      applyResult opts msg resp = .ok := by
    intro msg resp h
    rcases hq with h1 | h1
    · exact applyResult_ok opts msg resp (Or.inl h1)
    · exact applyResult_ok opts msg resp (Or.inr (h h1))
  refine ⟨?_, ⟨?_, ?_, ?_, ?_, ?_⟩, ?_⟩
  · intro j c name hj hn _ tr
    rw [applyNamespacesTask_eq s opts j c (isSome_of_Name hn)]
    exact hres _ _ (fun h => h.1 _ _)
  · intro j c name hj hn _ tr
    rw [applyPcsTask_eq s opts j c (isSome_of_Name hn)]
    exact hres _ _ (fun h => h.2.1 _ _)
  · intro j c hj tr
    rw [applyStorageClassesTask_eq s opts j c (w3 c (List.getElem?_mem hj))]
    exact hres _ _ (fun h => h.2.2.1 _ _)
  · intro j c hj tr
    have := w4 c (List.getElem?_mem hj)
    cases hns : ApplyConfiguration.Namespace c with
    | none => simp [hns] at this
    | some ns =>
      rw [applyPvcsTask_eq s opts j c ns hns]
      exact hres _ _ (fun h => h.2.2.2.1 _ _ _)
  · intro j c hj tr
    rw [applyNodesTask_eq s opts j c (w5 c (List.getElem?_mem hj))]
    exact hres _ _ (fun h => h.2.2.2.2.1 _ _)
  · intro j c hj tr
    have := w6 c (List.getElem?_mem hj)
    cases hns : ApplyConfiguration.Namespace c with
    | none => simp [hns] at this
    | some ns =>
      rw [applyPodsTask_eq s opts j c ns hns]
      exact hres _ _ (fun h => h.2.2.2.2.2.1 _ _ _)
  · intro j c hj tr
    obtain ⟨pre, _, h⟩ := applyPvsTask_eq s opts j c (w7 c (List.getElem?_mem hj)).1
      (w7 c (List.getElem?_mem hj)).2
    rw [h tr]
    exact hres _ _ (fun h => h.2.2.2.2.2.2 _ _)

theorem Import_live (s : Service) (x : Executor) (r : ResourcesForImport)
    (opts : List ServiceOption) (hd : ∀ k, x.dispatch k = none) (hwf : noNilDeref r = true)
    (hrestart : (restart s r (applyOptions opts)).1 = .ok) :
    (Import s x r opts).1 ≠ .panic ∧
      (∀ e ∈ (restart s r (applyOptions opts)).2, e ∈ (Import s x r opts).2) ∧
      RanNamespaces s (applyOptions opts) r (Import s x r opts).2 ∧
      (QuietNamespaces s (applyOptions opts) r →
        RanPhase2 s (applyOptions opts) r (Import s x r opts).2) ∧
      (QuietNamespaces s (applyOptions opts) r → QuietPhase2 s (applyOptions opts) r →
        RanPvs s (applyOptions opts) r (Import s x r opts).2) ∧
      (QuietNamespaces s (applyOptions opts) r → QuietPhase2 s (applyOptions opts) r →
        QuietPvs s (applyOptions opts) r → (Import s x r opts).1 = .ok) := by
  rw [Import_eq]
  rcases hr : restart s r (applyOptions opts) with ⟨res, tr⟩
  rw [hr] at hrestart
  simp only at hrestart
  subst hrestart
  simp only
  obtain ⟨h1, h2, h3, h4, h5, h6, h7⟩ := apply_live s x r (applyOptions opts) tr hd hwf
  rcases ha : apply s x r (applyOptions opts) tr with ⟨res, tr1, eg⟩
  rw [ha] at h1 h2 h3 h4 h5 h6 h7
  simp only at h1 h2 h3 h4 h5 h6 h7
  cases res with
  | panic => exact absurd rfl h1
  | error err =>
    simp only
    rw [settle_nil eg tr1 h2]
    exact ⟨by simp, h3, h4, h5, h6, fun a b c => by cases h7 a b c⟩
  | ok => exact ⟨by simp, h3, h4, h5, h6, fun _ _ _ => rfl⟩

theorem restart_ok (s : Service) (r : ResourcesForImport) (opts : options)
    (h : opts.ignoreSchedulerConfiguration = true ∨
      s.schedulerService.RestartScheduler r.SchedulerConfig = none) :
    (restart s r opts).1 = .ok := by
  unfold restart
  rcases h with h | h
  · simp [h]
  · cases opts.ignoreSchedulerConfiguration <;> simp [h]

theorem emits_nil (K : Event → Prop) (t : Task Trace) (h : ∀ tr, (t tr).1 = tr) : Emits K t :=
  fun tr => ⟨[], by simp [h tr], by simp⟩

theorem emits_of_eq (K : Event → Prop) (t : Task Trace) (es : List Event) (res : Trace → Result)
    (h : ∀ tr, t tr = (tr ++ es, res tr)) (hK : ∀ e ∈ es, K e) : Emits K t :=
  fun tr => ⟨es, by rw [h tr], hK⟩

theorem applyNamespacesTask_exact (s : Service) (opts : options) (i : Nat)
    (c : NamespaceApplyConfiguration) :
    Emits (fun e => e = .NamespaceApply (((submitted c).WithAPIVersion "v1").WithKind "Namespace"))
      (applyNamespacesTask s opts i c) := by
  cases hm : c.ObjectMetaApplyConfiguration.isSome with
  | true => exact emits_of_eq _ _ _ _ (applyNamespacesTask_eq s opts i c hm) (by simp)
  | false =>
    apply emits_nil
    intro tr
    cases hc : c.ObjectMetaApplyConfiguration with
    | none => simp [applyNamespacesTask, ApplyConfiguration.clearUID, hc]
    | some m => simp [hc] at hm

theorem applyPcsTask_exact (s : Service) (opts : options) (i : Nat)
    (c : PriorityClassApplyConfiguration) :
    Emits (fun e => e = .PriorityClassApply (submitted c)) (applyPcsTask s opts i c) := by
  cases hm : c.ObjectMetaApplyConfiguration.isSome with
  | true => exact emits_of_eq _ _ _ _ (applyPcsTask_eq s opts i c hm) (by simp)
  | false =>
    apply emits_nil
    intro tr
    cases hc : c.ObjectMetaApplyConfiguration with
    | none => simp [applyPcsTask, ApplyConfiguration.clearUID, hc]
    | some m => simp [hc] at hm

theorem applyStorageClassesTask_exact (s : Service) (opts : options) (i : Nat)
    (c : StorageClassApplyConfiguration) :
    Emits (fun e => e = .StorageClassApply (submitted c))
      (applyStorageClassesTask s opts i c) := by
  cases hm : c.ObjectMetaApplyConfiguration.isSome with
  | true => exact emits_of_eq _ _ _ _ (applyStorageClassesTask_eq s opts i c hm) (by simp)
  | false =>
    apply emits_nil
    intro tr
    cases hc : c.ObjectMetaApplyConfiguration with
    | none => simp [applyStorageClassesTask, ApplyConfiguration.clearUID, hc]
    | some m => simp [hc] at hm

theorem applyNodesTask_exact (s : Service) (opts : options) (i : Nat)
    (c : NodeApplyConfiguration) :
    Emits (fun e => e = .NodeApply (submitted c)) (applyNodesTask s opts i c) := by
  cases hm : c.ObjectMetaApplyConfiguration.isSome with
  | true => exact emits_of_eq _ _ _ _ (applyNodesTask_eq s opts i c hm) (by simp)
  | false =>
    apply emits_nil
    intro tr
    cases hc : c.ObjectMetaApplyConfiguration with
    | none => simp [applyNodesTask, ApplyConfiguration.clearUID, hc]
    | some m => simp [hc] at hm

theorem applyPvcsTask_exact (s : Service) (opts : options) (i : Nat)
    (c : PersistentVolumeClaimApplyConfiguration) :
    Emits (fun e => ∃ ns, e = .PersistentVolumeClaimApply ns (submitted c))
      (applyPvcsTask s opts i c) := by
  cases hns : ApplyConfiguration.Namespace c with
  | some ns => exact emits_of_eq _ _ _ _ (applyPvcsTask_eq s opts i c ns hns) (by simp)
  | none =>
    apply emits_nil
    intro tr
    cases hc : c.ObjectMetaApplyConfiguration with
    | none => simp [applyPvcsTask, ApplyConfiguration.clearUID, hc]
    | some m =>
      have h1 : c.ObjectMetaApplyConfiguration.isSome = true := by simp [hc]
      simp [applyPvcsTask, clearUID_eq c h1, submitted_Namespace, hns]

theorem applyPodsTask_exact (s : Service) (opts : options) (i : Nat)
    (c : PodApplyConfiguration) :
    Emits (fun e => ∃ ns, e = .PodApply ns (submitted c)) (applyPodsTask s opts i c) := by
  cases hns : ApplyConfiguration.Namespace c with
  | some ns => exact emits_of_eq _ _ _ _ (applyPodsTask_eq s opts i c ns hns) (by simp)
  | none =>
    apply emits_nil
    intro tr
    cases hc : c.ObjectMetaApplyConfiguration with
    | none => simp [applyPodsTask, ApplyConfiguration.clearUID, hc]
    | some m =>
      have h1 : c.ObjectMetaApplyConfiguration.isSome = true := by simp [hc]
      simp [applyPodsTask, clearUID_eq c h1, submitted_Namespace, hns]

theorem lookupClaim_some (s : Service) (i : Nat) (pv pv1 : PersistentVolumeApplyConfiguration)
    (tr tr1 : Trace) (h : lookupClaim s i pv tr = some (tr1, pv1)) :
    (claimKey pv).isSome = true := by
  unfold lookupClaim at h
  unfold claimKey
  cases hs : pv.Spec with
  | none => simp [hs] at h
  | some spec =>
    cases hr : spec.ClaimRef with
    | none => simp [hs, hr] at h
    | some ref =>
      cases hn : ref.Name with
      | none => simp [hs, hr, hn] at h
      | some name =>
        cases hnsp : ref.Namespace with
        | none => simp [hs, hr, hn, hnsp] at h
        | some ns => simp [hr, hn, hnsp]

theorem applyPvsTask_exact (s : Service) (opts : options) (i : Nat)
    (pv : PersistentVolumeApplyConfiguration) :
    Emits (fun e => (∃ name ns, e = .PersistentVolumeClaimGet name ns) ∨
        e = .PersistentVolumeApply (submittedVolume s i pv)) (applyPvsTask s opts i pv) := by
  by_cases hgood : pv.ObjectMetaApplyConfiguration.isSome = true ∧
      (isBound pv = true → (claimKey pv).isSome = true)
  · obtain ⟨pre, hpre, h⟩ := applyPvsTask_eq s opts i pv hgood.1 hgood.2
    refine emits_of_eq _ _ _ _ h ?_
    intro e he
    rcases List.mem_append.mp he with h1 | h1
    · exact Or.inl (hpre e h1)
    · exact Or.inr (List.mem_singleton.mp h1)
  · apply emits_nil
    intro tr
    unfold applyPvsTask
    cases hc : pv.ObjectMetaApplyConfiguration with
    | none => rfl
    | some m =>
      simp only
      have hb1 : isBound { pv with ObjectMetaApplyConfiguration := some { m with UID := none } }
          = isBound pv := isBound_eq pv _ rfl
      rw [hb1]
      cases hb : isBound pv with
      | false => exact absurd ⟨by simp [hc], fun h => by rw [hb] at h; cases h⟩ hgood
      | true =>
        simp only [if_true]
        cases hl : lookupClaim s i
            { pv with ObjectMetaApplyConfiguration := some { m with UID := none } } tr with
        | none => rfl
        | some out =>
          obtain ⟨tr1, pv1⟩ := out
          have := lookupClaim_some s i _ _ tr tr1 hl
          exact absurd ⟨by simp [hc], fun _ => this⟩ hgood

/-! ## Claims on the apply phases -/

theorem Split.origin {K1 K2 K3 : Event → Prop} {tr cur : Trace} (h : Split K1 K2 K3 tr cur)
    (e : Event) (he : e ∈ cur) : e ∈ tr ∨ K1 e ∨ K2 e ∨ K3 e := by
  obtain ⟨m1, m2, h1, h2, h3⟩ := h
  rcases h3.mem e he with h | h
  · rcases h2.mem e h with h | h
    · rcases h1.mem e h with h | h
      · exact Or.inl h
      · exact Or.inr (Or.inl h)
    · exact Or.inr (Or.inr (Or.inl h))
  · exact Or.inr (Or.inr (Or.inr h))

theorem Ran.event {t : Task Trace} {final : Trace} (h : Ran t final) (es : List Event)
    (res : Trace → Result) (heq : ∀ tr, t tr = (tr ++ es, res tr)) : ∀ e ∈ es, e ∈ final := by
  obtain ⟨tr0, h0⟩ := h
  intro e he
  exact h0 e (by rw [heq tr0]; exact List.mem_append_right _ he)

theorem submitted_uid (c : ApplyConfiguration) :
    (submitted c).ObjectMetaApplyConfiguration.bind (fun m => m.UID) = none := by
  unfold submitted withoutUID
  cases c.ObjectMetaApplyConfiguration <;> rfl

theorem submittedVolume_meta (s : Service) (i : Nat) (pv : PersistentVolumeApplyConfiguration) :
    (submittedVolume s i pv).ObjectMetaApplyConfiguration
      = withoutUID pv.ObjectMetaApplyConfiguration := by
  unfold submittedVolume
  simp only
  split
  · split
    · rfl
    · split <;> rfl
  · rfl

theorem submittedVolume_uid (s : Service) (i : Nat) (pv : PersistentVolumeApplyConfiguration) :
    (submittedVolume s i pv).ObjectMetaApplyConfiguration.bind (fun m => m.UID) = none := by
  rw [submittedVolume_meta]
  unfold withoutUID
  cases pv.ObjectMetaApplyConfiguration <;> rfl

/-- C11: with ignoreErrors set, the scheduler restart skipped or succeeding,
every task dispatched and no nil field in the ImportSnapshot, Import returns
success whichever Apply calls fail (in particular when the Apply of one
resource kind fails for every item), and every non-skipped item of every
resource kind is submitted to its Apply port. -/
theorem import_lenient_submits_everything (s : Service) (x : Executor)
    (r : ResourcesForImport) (opts : List ServiceOption)
    (hpub : ∀ o ∈ opts, o = IgnoreErr ∨ o = IgnoreSchedulerConfiguration)
    (hign : IgnoreErr ∈ opts)
    (hrestart : IgnoreSchedulerConfiguration ∈ opts ∨
      s.schedulerService.RestartScheduler r.SchedulerConfig = none)
    (hd : ∀ k, x.dispatch k = none) (hwf : noNilDeref r = true) :
    (Import s x r opts).1 = .ok ∧
      (∀ c name, c ∈ r.Namespaces → ApplyConfiguration.Name c = some name →
        name ≠ "default" → ¬ Reserved "kube-" name →
        Event.NamespaceApply (((submitted c).WithAPIVersion "v1").WithKind "Namespace")
          ∈ (Import s x r opts).2) ∧
      (∀ c name, c ∈ r.PriorityClasses → ApplyConfiguration.Name c = some name →
        ¬ Reserved "system-" name →
        Event.PriorityClassApply (submitted c) ∈ (Import s x r opts).2) ∧
      (∀ c ∈ r.StorageClasses, Event.StorageClassApply (submitted c) ∈ (Import s x r opts).2) ∧
      (∀ c ns, c ∈ r.Pvcs → ApplyConfiguration.Namespace c = some ns →
        Event.PersistentVolumeClaimApply ns (submitted c) ∈ (Import s x r opts).2) ∧
      (∀ c ∈ r.Nodes, Event.NodeApply (submitted c) ∈ (Import s x r opts).2) ∧
      (∀ c ns, c ∈ r.Pods → ApplyConfiguration.Namespace c = some ns →
        Event.PodApply ns (submitted c) ∈ (Import s x r opts).2) ∧
      (∀ j pv, r.Pvs[j]? = some pv →
        Event.PersistentVolumeApply (submittedVolume s j pv) ∈ (Import s x r opts).2) := by
  have hopt : (applyOptions opts).ignoreErr = true := by
    rw [(applyOptions_public opts hpub).1]
    simpa using hign
  have hres : (restart s r (applyOptions opts)).1 = .ok := by
    apply restart_ok
    rcases hrestart with h | h
    · left
      rw [(applyOptions_public opts hpub).2]
      simpa using h
    · exact Or.inr h
  obtain ⟨w1, w2, w3, w4, w5, w6, w7⟩ := (noNilDeref_iff r).mp hwf
  obtain ⟨q1, q2, q3⟩ := quiet_of s (applyOptions opts) r (Or.inl hopt) hwf
  obtain ⟨_, _, l1, l2, l3, l4⟩ := Import_live s x r opts hd hwf hres
  have p2 := l2 q1
  refine ⟨l4 q1 q2 q3, ?_, ?_, ?_, ?_, ?_, ?_, ?_⟩
  · intro c name hc hn h1 h2
    obtain ⟨j, hj⟩ := List.mem_iff_getElem?.mp hc
    exact (l1 j c name hj hn ((isIgnoreNamespace_eq_false name).mpr ⟨h1, h2⟩)).event _ _
      (applyNamespacesTask_eq s _ j c (isSome_of_Name hn)) _ (by simp)
  · intro c name hc hn h1
    obtain ⟨j, hj⟩ := List.mem_iff_getElem?.mp hc
    exact (p2.1 j c name hj hn ((isSystemPriorityClass_eq_false name).mpr h1)).event _ _
      (applyPcsTask_eq s _ j c (isSome_of_Name hn)) _ (by simp)
  · intro c hc
    obtain ⟨j, hj⟩ := List.mem_iff_getElem?.mp hc
    exact (p2.2.1 j c hj).event _ _ (applyStorageClassesTask_eq s _ j c (w3 c hc)) _ (by simp)
  · intro c ns hc hns
    obtain ⟨j, hj⟩ := List.mem_iff_getElem?.mp hc
    exact (p2.2.2.1 j c hj).event _ _ (applyPvcsTask_eq s _ j c ns hns) _ (by simp)
  · intro c hc
    obtain ⟨j, hj⟩ := List.mem_iff_getElem?.mp hc
    exact (p2.2.2.2.1 j c hj).event _ _ (applyNodesTask_eq s _ j c (w5 c hc)) _ (by simp)
  · intro c ns hc hns
    obtain ⟨j, hj⟩ := List.mem_iff_getElem?.mp hc
    exact (p2.2.2.2.2 j c hj).event _ _ (applyPodsTask_eq s _ j c ns hns) _ (by simp)
  · intro j pv hj
    obtain ⟨pre, _, h⟩ := applyPvsTask_eq s (applyOptions opts) j pv
      (w7 pv (List.getElem?_mem hj)).1 (w7 pv (List.getElem?_mem hj)).2
    exact (l3 q1 q2 j pv hj).event _ _ h _ (by simp)

theorem import_lenient_submits_everything_witness :
    (∀ i c, nodeApplyFails.nodeService.Apply i c ≠ none) ∧
      Event.NodeApply (submitted (configOf "node-1" "" "m1"))
        ∈ (Import nodeApplyFails inOrder sampleImport [IgnoreErr]).2 ∧
      ((Import nodeApplyFails inOrder sampleImport [IgnoreErr]).1 = .ok ∧
      (∀ c name, c ∈ sampleImport.Namespaces → ApplyConfiguration.Name c = some name →
        name ≠ "default" → ¬ Reserved "kube-" name →
        Event.NamespaceApply (((submitted c).WithAPIVersion "v1").WithKind "Namespace")
          ∈ (Import nodeApplyFails inOrder sampleImport [IgnoreErr]).2) ∧
      (∀ c name, c ∈ sampleImport.PriorityClasses → ApplyConfiguration.Name c = some name →
        ¬ Reserved "system-" name →
        Event.PriorityClassApply (submitted c)
          ∈ (Import nodeApplyFails inOrder sampleImport [IgnoreErr]).2) ∧
      (∀ c ∈ sampleImport.StorageClasses,
        Event.StorageClassApply (submitted c)
          ∈ (Import nodeApplyFails inOrder sampleImport [IgnoreErr]).2) ∧
      (∀ c ns, c ∈ sampleImport.Pvcs → ApplyConfiguration.Namespace c = some ns →
        Event.PersistentVolumeClaimApply ns (submitted c)
          ∈ (Import nodeApplyFails inOrder sampleImport [IgnoreErr]).2) ∧
      (∀ c ∈ sampleImport.Nodes,
        Event.NodeApply (submitted c)
          ∈ (Import nodeApplyFails inOrder sampleImport [IgnoreErr]).2) ∧
      (∀ c ns, c ∈ sampleImport.Pods → ApplyConfiguration.Namespace c = some ns →
        Event.PodApply ns (submitted c)
          ∈ (Import nodeApplyFails inOrder sampleImport [IgnoreErr]).2) ∧
      (∀ j pv, sampleImport.Pvs[j]? = some pv →
        Event.PersistentVolumeApply (submittedVolume nodeApplyFails j pv)
          ∈ (Import nodeApplyFails inOrder sampleImport [IgnoreErr]).2)) :=
  ⟨fun _ _ h => (by cases h), by decide,
    import_lenient_submits_everything nodeApplyFails inOrder sampleImport [IgnoreErr]
      (by simp) (by simp) (Or.inr rfl) (fun _ => rfl) (by decide)⟩

/-- C12: for every ImportSnapshot, every behaviour of the ports and every
schedule, every object that Import submits to an Apply port (Namespace,
PriorityClass, StorageClass, PersistentVolumeClaim, Node, Pod,
PersistentVolume) has no metadata UID, whatever UID the item carried. -/
theorem import_submits_without_uid (s : Service) (x : Executor) (r : ResourcesForImport)
    (opts : List ServiceOption) : ∀ e ∈ (Import s x r opts).2, e.submittedUID = none := by
  have hsplit := Import_split (fun e => e.submittedUID = none) (fun e => e.submittedUID = none)
    (fun e => e.submittedUID = none) s x r opts
    (fun j c name _ _ _ => (applyNamespacesTask_exact s _ j c).mono (fun e he => by
      rw [he]
      exact submitted_uid c))
    (fun j c name _ _ _ => (applyPcsTask_exact s _ j c).mono (fun e he => by
      rw [he]
      exact submitted_uid c))
    (fun j c _ => (applyStorageClassesTask_exact s _ j c).mono (fun e he => by
      rw [he]
      exact submitted_uid c))
    (fun j c _ => (applyPvcsTask_exact s _ j c).mono (fun e he => by
      obtain ⟨ns, he⟩ := he
      rw [he]
      exact submitted_uid c))
    (fun j c _ => (applyNodesTask_exact s _ j c).mono (fun e he => by
      rw [he]
      exact submitted_uid c))
    (fun j c _ => (applyPodsTask_exact s _ j c).mono (fun e he => by
      obtain ⟨ns, he⟩ := he
      rw [he]
      exact submitted_uid c))
    (fun j c _ => (applyPvsTask_exact s _ j c).mono (fun e he => by
      rcases he with ⟨name, ns, he⟩ | he
      · rw [he]; rfl
      · rw [he]
        exact submittedVolume_uid s j c))
  intro e he
  rcases hsplit.origin e he with h | h | h | h
  · obtain ⟨cfg, hcfg⟩ := (restart_phase s r (applyOptions opts)).2 e h
    rw [hcfg]
    rfl
  · exact h
  · exact h
  · exact h

theorem import_submits_without_uid_witness :
    (configOf "node-1" "" "m1").ObjectMetaApplyConfiguration.bind (fun m => m.UID) = some "m1" ∧
      Event.submittedUID (.NodeApply (submitted (configOf "node-1" "" "m1"))) = none :=
  ⟨by decide,
    import_submits_without_uid quietService inOrder sampleImport []
      (.NodeApply (submitted (configOf "node-1" "" "m1"))) (by decide)⟩

theorem Import_volume_events (s : Service) (x : Executor) (r : ResourcesForImport)
    (opts : List ServiceOption) :
    ∀ q, Event.PersistentVolumeApply q ∈ (Import s x r opts).2 →
      ∃ j pv, r.Pvs[j]? = some pv ∧ q = submittedVolume s j pv := by
  have hsplit := Import_split (fun e => e.phase = 1) (fun e => e.phase = 2)
    (fun e => ∀ q, e = Event.PersistentVolumeApply q →
      ∃ j pv, r.Pvs[j]? = some pv ∧ q = submittedVolume s j pv) s x r opts
    (fun j c name _ _ _ => applyNamespacesTask_emits s _ j c)
    (fun j c name _ _ _ => applyPcsTask_emits s _ j c)
    (fun j c _ => applyStorageClassesTask_emits s _ j c)
    (fun j c _ => applyPvcsTask_emits s _ j c)
    (fun j c _ => applyNodesTask_emits s _ j c)
    (fun j c _ => applyPodsTask_emits s _ j c)
    (fun j c hj => (applyPvsTask_exact s _ j c).mono (fun e he q hq => by
      rcases he with ⟨name, ns, he⟩ | he
      · rw [he] at hq; cases hq
      · rw [he] at hq
        simp only [Event.PersistentVolumeApply.injEq] at hq
        exact ⟨j, c, hj, hq.symm⟩))
  intro q hq
  rcases hsplit.origin _ hq with h | h | h | h
  · obtain ⟨cfg, hcfg⟩ := (restart_phase s r (applyOptions opts)).2 _ h
    cases hcfg
  · simp [Event.phase] at h
  · simp [Event.phase] at h
  · exact h q rfl

theorem Import_volume_submitted (s : Service) (x : Executor) (r : ResourcesForImport)
    (opts : List ServiceOption) (j : Nat) (pv : PersistentVolumeApplyConfiguration)
    (hitem : r.Pvs[j]? = some pv) (hd : ∀ k, x.dispatch k = none) (hwf : noNilDeref r = true)
    (hrestart : s.schedulerService.RestartScheduler r.SchedulerConfig = none)
    (hq : AppliesSucceed s) :
    (Import s x r opts).1 = .ok ∧
      Event.PersistentVolumeApply (submittedVolume s j pv) ∈ (Import s x r opts).2 := by
  obtain ⟨w1, w2, w3, w4, w5, w6, w7⟩ := (noNilDeref_iff r).mp hwf
  obtain ⟨q1, q2, q3⟩ := quiet_of s (applyOptions opts) r (Or.inr hq) hwf
  obtain ⟨_, _, l1, l2, l3, l4⟩ := Import_live s x r opts hd hwf
    (restart_ok s r _ (Or.inr hrestart))
  refine ⟨l4 q1 q2 q3, ?_⟩
  obtain ⟨pre, _, h⟩ := applyPvsTask_eq s (applyOptions opts) j pv
    (w7 pv (List.getElem?_mem hitem)).1 (w7 pv (List.getElem?_mem hitem)).2
  exact (l3 q1 q2 j pv hitem).event _ _ h _ (by simp)

theorem claimKey_eq (pv : PersistentVolumeApplyConfiguration)
    (spec : PersistentVolumeSpecApplyConfiguration) (ref : ObjectReferenceApplyConfiguration)
    (name ns : String) (hs : pv.Spec = some spec) (hr : spec.ClaimRef = some ref)
    (hn : ref.Name = some name) (hns : ref.Namespace = some ns) :
    claimKey pv = some (name, ns) := by
  simp [claimKey, hs, hr, hn, hns]

/-- C13: for a PersistentVolume of the ImportSnapshot whose status phase is
"Bound" and whose claim lookup Get(claimRef.name, claimRef.namespace)
succeeds, the closure of applyPvs looks the claim up and submits to Apply the
volume whose claim-reference UID is the UID of the claim the destination
returned, whatever UID the ImportSnapshot carried; every PersistentVolume
Apply of a run submits the volume of an item in that form, and the volume is
submitted when nothing fails. -/
theorem import_rewrites_claim_uid (s : Service) (x : Executor) (r : ResourcesForImport)
    (opts : List ServiceOption) (j : Nat) (pv : PersistentVolumeApplyConfiguration)
    (m : ObjectMetaApplyConfiguration) (spec : PersistentVolumeSpecApplyConfiguration)
    (ref : ObjectReferenceApplyConfiguration) (name ns : String) (pvc : PersistentVolumeClaim)
    (hitem : r.Pvs[j]? = some pv) (hm : pv.ObjectMetaApplyConfiguration = some m)
    (hb : isBound pv = true) (hs : pv.Spec = some spec) (hr : spec.ClaimRef = some ref)
    (hn : ref.Name = some name) (hns : ref.Namespace = some ns)
    (hget : s.pvcService.Get j name ns = .ok pvc) :
    submittedVolume s j pv
        = { pv with
            ObjectMetaApplyConfiguration := some { m with UID := none }
            Spec := some { spec with
              ClaimRef := some { ref with UID := some pvc.ObjectMeta.UID } } } ∧
      (∀ tr, applyPvsTask s (applyOptions opts) j pv tr
        = (tr ++ [.PersistentVolumeClaimGet name ns,
              .PersistentVolumeApply (submittedVolume s j pv)],
            applyResult (applyOptions opts) "apply PersistentVolume"
              (s.pvService.Apply j (submittedVolume s j pv)))) ∧
      (∀ q, Event.PersistentVolumeApply q ∈ (Import s x r opts).2 →
        ∃ j1 pv1, r.Pvs[j1]? = some pv1 ∧ q = submittedVolume s j1 pv1) ∧
      ((∀ k, x.dispatch k = none) → noNilDeref r = true →
        s.schedulerService.RestartScheduler r.SchedulerConfig = none → AppliesSucceed s →
        Event.PersistentVolumeApply (submittedVolume s j pv) ∈ (Import s x r opts).2) := by
  have hk := claimKey_eq pv spec ref name ns hs hr hn hns
  refine ⟨?_, ?_, Import_volume_events s x r opts, ?_⟩
  · simp [submittedVolume, hb, hk, hget, withoutUID, hm, hs, hr,
      PersistentVolumeApplyConfiguration.withClaimUID]
  · exact applyPvsTask_bound s _ j pv name ns (by simp [hm]) hb hk
  · intro hd hwf hrestart hq
    exact (Import_volume_submitted s x r opts j pv hitem hd hwf hrestart hq).2

theorem import_rewrites_claim_uid_witness :
    Event.PersistentVolumeApply
        { Kind := none
          APIVersion := none
          ObjectMetaApplyConfiguration :=
            some { Name := some "vol", Namespace := none, UID := none }
          Spec := some
            { ClaimRef :=
                some { Name := some "data", Namespace := some "team-a", UID := some "c1-new" }
              body := "" }
          Status := some { Phase := some "Bound" } }
        ∈ (Import claimFound inOrder sampleImport []).2 ∧
      ∃ pv, sampleImport.Pvs[0]? = some pv ∧
        submittedVolume claimFound 0 pv
          = { pv with
              ObjectMetaApplyConfiguration :=
                some { Name := some "vol", Namespace := none, UID := none }
              Spec := some
                { ClaimRef :=
                    some { Name := some "data", Namespace := some "team-a",
                           UID := some "c1-new" }
                  body := "" } } :=
  ⟨by decide, _, rfl,
    (import_rewrites_claim_uid claimFound inOrder sampleImport [] 0 _
      { Name := some "vol", Namespace := none, UID := some "v1" }
      { ClaimRef := some { Name := some "data", Namespace := some "team-a", UID := some "c1" }
        body := "" }
      { Name := some "data", Namespace := some "team-a", UID := some "c1" }
      "data" "team-a"
      { ObjectMeta := { Name := "data", Namespace := "team-a", UID := "c1-new" }, body := "" }
      rfl rfl (by decide) rfl rfl rfl rfl rfl).1⟩

/-- C14: for a "Bound" PersistentVolume whose claim lookup fails, the closure
of applyPvs still submits the volume to Apply, with its claim-reference UID
absent, and its result is that of the Apply call alone; so the lookup failure
never makes Import return an error: when every task is dispatched, nothing is
nil, the restart and every Apply call succeed, Import returns success, in
strict mode as in lenient mode, and the volume is among the calls made. -/
theorem import_clears_claim_uid_on_lookup_failure (s : Service) (x : Executor)
    (r : ResourcesForImport) (opts : List ServiceOption) (j : Nat)
    (pv : PersistentVolumeApplyConfiguration) (m : ObjectMetaApplyConfiguration)
    (spec : PersistentVolumeSpecApplyConfiguration) (ref : ObjectReferenceApplyConfiguration)
    (name ns : String) (gerr : Error)
    (hitem : r.Pvs[j]? = some pv) (hm : pv.ObjectMetaApplyConfiguration = some m)
    (hb : isBound pv = true) (hs : pv.Spec = some spec) (hr : spec.ClaimRef = some ref)
    (hn : ref.Name = some name) (hns : ref.Namespace = some ns)
    (hget : s.pvcService.Get j name ns = .error gerr) :
    submittedVolume s j pv
        = { pv with
            ObjectMetaApplyConfiguration := some { m with UID := none }
            Spec := some { spec with ClaimRef := some { ref with UID := none } } } ∧
      (∀ tr, applyPvsTask s (applyOptions opts) j pv tr
        = (tr ++ [.PersistentVolumeClaimGet name ns,
              .PersistentVolumeApply (submittedVolume s j pv)],
            applyResult (applyOptions opts) "apply PersistentVolume"
              (s.pvService.Apply j (submittedVolume s j pv)))) ∧
      (∀ q, Event.PersistentVolumeApply q ∈ (Import s x r opts).2 →
        ∃ j1 pv1, r.Pvs[j1]? = some pv1 ∧ q = submittedVolume s j1 pv1) ∧
      ((∀ k, x.dispatch k = none) → noNilDeref r = true →
        s.schedulerService.RestartScheduler r.SchedulerConfig = none → AppliesSucceed s →
        (Import s x r opts).1 = .ok ∧
          Event.PersistentVolumeApply (submittedVolume s j pv) ∈ (Import s x r opts).2) := by
  have hk := claimKey_eq pv spec ref name ns hs hr hn hns
  refine ⟨?_, ?_, Import_volume_events s x r opts, ?_⟩
  · simp [submittedVolume, hb, hk, hget, withoutUID, hm, hs, hr,
      PersistentVolumeApplyConfiguration.withClaimUID]
  · exact applyPvsTask_bound s _ j pv name ns (by simp [hm]) hb hk
  · intro hd hwf hrestart hq
    exact Import_volume_submitted s x r opts j pv hitem hd hwf hrestart hq

theorem import_clears_claim_uid_on_lookup_failure_witness :
    (Import quietService inOrder sampleImport []).1 = .ok ∧
      Event.PersistentVolumeApply
        { Kind := none
          APIVersion := none
          ObjectMetaApplyConfiguration :=
            some { Name := some "vol", Namespace := none, UID := none }
          Spec := some
            { ClaimRef := some { Name := some "data", Namespace := some "team-a", UID := none }
              body := "" }
          Status := some { Phase := some "Bound" } }
        ∈ (Import quietService inOrder sampleImport []).2 ∧
      ∃ pv, sampleImport.Pvs[0]? = some pv ∧
        submittedVolume quietService 0 pv
          = { pv with
              ObjectMetaApplyConfiguration :=
                some { Name := some "vol", Namespace := none, UID := none }
              Spec := some
                { ClaimRef :=
                    some { Name := some "data", Namespace := some "team-a", UID := none }
                  body := "" } } :=
  ⟨by decide, by decide, _, rfl,
    (import_clears_claim_uid_on_lookup_failure quietService inOrder sampleImport [] 0 _
      { Name := some "vol", Namespace := none, UID := some "v1" }
      { ClaimRef := some { Name := some "data", Namespace := some "team-a", UID := some "c1" }
        body := "" }
      { Name := some "data", Namespace := some "team-a", UID := some "c1" }
      "data" "team-a" (.backend "not found")
      rfl rfl (by decide) rfl rfl rfl rfl rfl).1⟩

theorem Name_stamped (c : ApplyConfiguration) (v k : String) :
    ApplyConfiguration.Name (((submitted c).WithAPIVersion v).WithKind k)
      = ApplyConfiguration.Name c := by
  rw [← submitted_Name c]
  rfl

theorem sorted_extend (k : Nat) (tr cur : Trace)
    (hs : List.Pairwise (fun a b => a.phase ≤ b.phase) tr) (hle : ∀ e ∈ tr, e.phase ≤ k)
    (h : Extends (fun e => e.phase = k) tr cur) :
    List.Pairwise (fun a b => a.phase ≤ b.phase) cur ∧ ∀ e ∈ cur, e.phase ≤ k := by
  obtain ⟨es, he, hk⟩ := h
  subst he
  refine ⟨List.pairwise_append.mpr ⟨hs, ?_, ?_⟩, ?_⟩
  · exact List.pairwise_of_forall_mem_list (fun a ha b hb => by rw [hk a ha, hk b hb])
  · intro a ha b hb
    rw [hk b hb]
    exact hle a ha
  · intro e he
    rcases List.mem_append.mp he with h1 | h1
    · exact hle e h1
    · exact le_of_eq (hk e h1)

theorem restart_sorted (s : Service) (r : ResourcesForImport) (opts : options) :
    List.Pairwise (fun a b => a.phase ≤ b.phase) (restart s r opts).2 ∧
      ∀ e ∈ (restart s r opts).2, e.phase ≤ 0 := by
  have h := (restart_phase s r opts).2
  have h0 : ∀ e ∈ (restart s r opts).2, e.phase = 0 := by
    intro e he
    obtain ⟨cfg, hc⟩ := h e he
    rw [hc]
    rfl
  exact ⟨List.pairwise_of_forall_mem_list (fun a ha b hb => by rw [h0 a ha, h0 b hb]),
    fun e he => le_of_eq (h0 e he)⟩

/-- C15: Import never submits to Apply a Namespace named "default" or prefixed
with "kube-", nor a PriorityClass prefixed with "system-": every Namespace or
PriorityClass Apply of a run carries a name outside these. When every task is
dispatched, nothing is nil and the restart step succeeds, every other
Namespace of the ImportSnapshot is submitted, and every other PriorityClass is
submitted when the first phase does not stop the call (lenient mode, or every
Namespace Apply succeeding). -/
theorem import_skips_reserved_names (s : Service) (x : Executor) (r : ResourcesForImport)
    (opts : List ServiceOption) :
    (∀ q, Event.NamespaceApply q ∈ (Import s x r opts).2 →
      ∃ name, ApplyConfiguration.Name q = some name ∧ name ≠ "default" ∧
        ¬ Reserved "kube-" name) ∧
    (∀ q, Event.PriorityClassApply q ∈ (Import s x r opts).2 →
      ∃ name, ApplyConfiguration.Name q = some name ∧ ¬ Reserved "system-" name) ∧
    ((∀ k, x.dispatch k = none) → noNilDeref r = true →
      (restart s r (applyOptions opts)).1 = .ok →
      (∀ c name, c ∈ r.Namespaces → ApplyConfiguration.Name c = some name →
        name ≠ "default" → ¬ Reserved "kube-" name →
        Event.NamespaceApply (((submitted c).WithAPIVersion "v1").WithKind "Namespace")
          ∈ (Import s x r opts).2) ∧
      ((applyOptions opts).ignoreErr = true ∨ (∀ i c, s.client.Apply i c = none) →
        ∀ c name, c ∈ r.PriorityClasses → ApplyConfiguration.Name c = some name →
          ¬ Reserved "system-" name →
          Event.PriorityClassApply (submitted c) ∈ (Import s x r opts).2)) := by
  have hsplit := Import_split
    (fun e => (∀ q, e = Event.NamespaceApply q →
        ∃ name, ApplyConfiguration.Name q = some name ∧ name ≠ "default" ∧
          ¬ Reserved "kube-" name) ∧
      ∀ q, e ≠ Event.PriorityClassApply q)
    (fun e => (∀ q, e ≠ Event.NamespaceApply q) ∧
      ∀ q, e = Event.PriorityClassApply q →
        ∃ name, ApplyConfiguration.Name q = some name ∧ ¬ Reserved "system-" name)
    (fun e => (∀ q, e ≠ Event.NamespaceApply q) ∧ ∀ q, e ≠ Event.PriorityClassApply q)
    s x r opts
    (fun j c name _ hn hi => (applyNamespacesTask_exact s _ j c).mono (fun e he => by
      subst he
      refine ⟨fun q hq => ?_, (fun q hq => by cases hq)⟩
      simp only [Event.NamespaceApply.injEq] at hq
      subst hq
      exact ⟨name, (Name_stamped c _ _).trans hn, (isIgnoreNamespace_eq_false name).mp hi⟩))
    (fun j c name _ hn hi => (applyPcsTask_exact s _ j c).mono (fun e he => by
      subst he
      refine ⟨(fun q hq => by cases hq), fun q hq => ?_⟩
      simp only [Event.PriorityClassApply.injEq] at hq
      subst hq
      exact ⟨name, (submitted_Name c).trans hn, (isSystemPriorityClass_eq_false name).mp hi⟩))
    (fun j c _ => (applyStorageClassesTask_exact s _ j c).mono (fun e he => by
      subst he
      exact ⟨(fun q hq => by cases hq), (fun q hq => by cases hq)⟩))
    (fun j c _ => (applyPvcsTask_exact s _ j c).mono (fun e he => by
      obtain ⟨ns, he⟩ := he
      subst he
      exact ⟨(fun q hq => by cases hq), (fun q hq => by cases hq)⟩))
    (fun j c _ => (applyNodesTask_exact s _ j c).mono (fun e he => by
      subst he
      exact ⟨(fun q hq => by cases hq), (fun q hq => by cases hq)⟩))
    (fun j c _ => (applyPodsTask_exact s _ j c).mono (fun e he => by
      obtain ⟨ns, he⟩ := he
      subst he
      exact ⟨(fun q hq => by cases hq), (fun q hq => by cases hq)⟩))
    (fun j c _ => (applyPvsTask_exact s _ j c).mono (fun e he => by
      rcases he with ⟨name, ns, he⟩ | he <;> subst he <;>
        exact ⟨(fun q hq => by cases hq), (fun q hq => by cases hq)⟩))
  refine ⟨?_, ?_, ?_⟩
  · intro q hq
    rcases hsplit.origin _ hq with h | h | h | h
    · obtain ⟨cfg, hcfg⟩ := (restart_phase s r (applyOptions opts)).2 _ h
      cases hcfg
    · exact h.1 q rfl
    · exact absurd rfl (h.1 q)
    · exact absurd rfl (h.1 q)
  · intro q hq
    rcases hsplit.origin _ hq with h | h | h | h
    · obtain ⟨cfg, hcfg⟩ := (restart_phase s r (applyOptions opts)).2 _ h
      cases hcfg
    · exact absurd rfl (h.2 q)
    · exact h.2 q rfl
    · exact absurd rfl (h.2 q)
  · intro hd hwf hres
    obtain ⟨_, _, l1, l2, _, _⟩ := Import_live s x r opts hd hwf hres
    refine ⟨?_, ?_⟩
    · intro c name hc hn h1 h2
      obtain ⟨j, hj⟩ := List.mem_iff_getElem?.mp hc
      exact (l1 j c name hj hn ((isIgnoreNamespace_eq_false name).mpr ⟨h1, h2⟩)).event _ _
        (applyNamespacesTask_eq s _ j c (isSome_of_Name hn)) _ (by simp)
    · intro hq c name hc hn h1
      have q1 : QuietNamespaces s (applyOptions opts) r := by
        intro j c name hj hn _ tr
        rw [applyNamespacesTask_eq s _ j c (isSome_of_Name hn)]
        rcases hq with h | h
        · exact applyResult_ok _ _ _ (Or.inl h)
        · exact applyResult_ok _ _ _ (Or.inr (h _ _))
      obtain ⟨j, hj⟩ := List.mem_iff_getElem?.mp hc
      exact ((l2 q1).1 j c name hj hn ((isSystemPriorityClass_eq_false name).mpr h1)).event _ _
        (applyPcsTask_eq s _ j c (isSome_of_Name hn)) _ (by simp)

theorem import_skips_reserved_names_witness :
    configOf "kube-system" "" "n1" ∈ sampleImport.Namespaces ∧
      Event.NamespaceApply
          (((submitted (configOf "kube-system" "" "n1")).WithAPIVersion "v1").WithKind
            "Namespace")
        ∉ (Import quietService inOrder sampleImport []).2 ∧
      Event.NamespaceApply
          (((submitted (configOf "team-a" "" "n3")).WithAPIVersion "v1").WithKind "Namespace")
        ∈ (Import quietService inOrder sampleImport []).2 ∧
      Event.PriorityClassApply (submitted (configOf "high" "" "q2"))
        ∈ (Import quietService inOrder sampleImport []).2 :=
  have h := (import_skips_reserved_names quietService inOrder sampleImport []).2.2
    (fun _ => rfl) (by decide) (by decide)
  ⟨by decide, by decide,
    h.1 (configOf "team-a" "" "n3") "team-a" (by decide) rfl (by decide) (by decide),
    h.2 (Or.inr (fun _ _ => rfl)) (configOf "high" "" "q2") "high" (by decide) rfl
      (by decide)⟩

/-- C16: in every run of Import the port calls are phase-ordered: a call of a
later phase never precedes a call of an earlier phase, where the restart of
the scheduler is phase 0, a Namespace Apply phase 1, the Apply of a
PriorityClass, StorageClass, PersistentVolumeClaim, Node or Pod phase 2, and a
PersistentVolumeClaim lookup or PersistentVolume Apply phase 3. -/
theorem import_calls_phase_ordered (s : Service) (x : Executor) (r : ResourcesForImport)
    (opts : List ServiceOption) (i j : Nat) (a b : Event)
    (ha : (Import s x r opts).2[i]? = some a) (hb : (Import s x r opts).2[j]? = some b)
    (hphase : a.phase < b.phase) : i < j := by
  obtain ⟨m1, m2, h1, h2, h3⟩ := Import_split (fun e => e.phase = 1) (fun e => e.phase = 2)
    (fun e => e.phase = 3) s x r opts
    (fun j c name _ _ _ => applyNamespacesTask_emits s _ j c)
    (fun j c name _ _ _ => applyPcsTask_emits s _ j c)
    (fun j c _ => applyStorageClassesTask_emits s _ j c)
    (fun j c _ => applyPvcsTask_emits s _ j c)
    (fun j c _ => applyNodesTask_emits s _ j c)
    (fun j c _ => applyPodsTask_emits s _ j c)
    (fun j c _ => applyPvsTask_emits s _ j c)
  obtain ⟨s0, l0⟩ := restart_sorted s r (applyOptions opts)
  obtain ⟨s1, l1⟩ := sorted_extend 1 _ _ s0 (fun e he => le_trans (l0 e he) (by decide)) h1
  obtain ⟨s2, l2⟩ := sorted_extend 2 _ _ s1 (fun e he => le_trans (l1 e he) (by decide)) h2
  obtain ⟨s3, _⟩ := sorted_extend 3 _ _ s2 (fun e he => le_trans (l2 e he) (by decide)) h3
  by_contra hij
  have hji : j ≤ i := Nat.le_of_not_lt hij
  obtain ⟨hi, hai⟩ := List.getElem?_eq_some_iff.mp ha
  obtain ⟨hj, hbj⟩ := List.getElem?_eq_some_iff.mp hb
  rcases Nat.lt_or_eq_of_le hji with hlt | heq
  · have := List.pairwise_iff_getElem.mp s3 j i hj hi hlt
    rw [hai, hbj] at this
    omega
  · subst heq
    rw [hai] at hbj
    subst hbj
    omega

theorem import_calls_phase_ordered_witness :
    (Import quietService inOrder sampleImport []).2[3]?
        = some (.PersistentVolumeClaimApply "team-a" (submitted (configOf "data" "team-a" "c1"))) ∧
      (Import quietService inOrder sampleImport []).2[6]?
        = some (.PersistentVolumeClaimGet "data" "team-a") ∧
      3 < 6 :=
  ⟨by decide, by decide,
    import_calls_phase_ordered quietService inOrder sampleImport [] 3 6
      (.PersistentVolumeClaimApply "team-a" (submitted (configOf "data" "team-a" "c1")))
      (.PersistentVolumeClaimGet "data" "team-a") (by decide) (by decide) (by decide)⟩

/-! ## Import: no nil dereference -/

theorem applyStorageClassesFrom_ne_panic (s : Service) (opts : options) :
    ∀ (l : List _) (i : Nat) (eg : SemaphoredErrGroup Trace),
      (applyStorageClassesFrom s opts i l eg).1 ≠ .panic := by
  intro l
  induction l with
  | nil => intro i eg; simp [applyStorageClassesFrom]
  | cons c rest ih =>
    intro i eg
    unfold applyStorageClassesFrom
    rcases hg : eg.Go (applyStorageClassesTask s opts i c) with ⟨_ | err, eg1⟩
    · exact ih (i + 1) eg1
    · simp

theorem applyPvcsFrom_ne_panic (s : Service) (opts : options) :
    ∀ (l : List _) (i : Nat) (eg : SemaphoredErrGroup Trace),
      (applyPvcsFrom s opts i l eg).1 ≠ .panic := by
  intro l
  induction l with
  | nil => intro i eg; simp [applyPvcsFrom]
  | cons c rest ih =>
    intro i eg
    unfold applyPvcsFrom
    rcases hg : eg.Go (applyPvcsTask s opts i c) with ⟨_ | err, eg1⟩
    · exact ih (i + 1) eg1
    · simp

theorem applyPvsFrom_ne_panic (s : Service) (opts : options) :
    ∀ (l : List _) (i : Nat) (eg : SemaphoredErrGroup Trace),
      (applyPvsFrom s opts i l eg).1 ≠ .panic := by
  intro l
  induction l with
  | nil => intro i eg; simp [applyPvsFrom]
  | cons c rest ih =>
    intro i eg
    unfold applyPvsFrom
    rcases hg : eg.Go (applyPvsTask s opts i c) with ⟨_ | err, eg1⟩
    · exact ih (i + 1) eg1
    · simp

theorem applyNodesFrom_ne_panic (s : Service) (opts : options) :
    ∀ (l : List _) (i : Nat) (eg : SemaphoredErrGroup Trace),
      (applyNodesFrom s opts i l eg).1 ≠ .panic := by
  intro l
  induction l with
  | nil => intro i eg; simp [applyNodesFrom]
  | cons c rest ih =>
    intro i eg
    unfold applyNodesFrom
    rcases hg : eg.Go (applyNodesTask s opts i c) with ⟨_ | err, eg1⟩
    · exact ih (i + 1) eg1
    · simp

theorem applyPodsFrom_ne_panic (s : Service) (opts : options) :
    ∀ (l : List _) (i : Nat) (eg : SemaphoredErrGroup Trace),
      (applyPodsFrom s opts i l eg).1 ≠ .panic := by
  intro l
  induction l with
  | nil => intro i eg; simp [applyPodsFrom]
  | cons c rest ih =>
    intro i eg
    unfold applyPodsFrom
    rcases hg : eg.Go (applyPodsTask s opts i c) with ⟨_ | err, eg1⟩
    · exact ih (i + 1) eg1
    · simp

theorem applyPcsFrom_panic (s : Service) (opts : options) :
    ∀ (l : List PriorityClassApplyConfiguration) (i : Nat) (eg : SemaphoredErrGroup Trace),
      (applyPcsFrom s opts i l eg).1 = .panic → ∃ n ∈ l, ApplyConfiguration.Name n = none := by
  intro l
  induction l with
  | nil => intro i eg h; simp [applyPcsFrom] at h
  | cons c rest ih =>
    intro i eg h
    unfold applyPcsFrom at h
    cases hn : ApplyConfiguration.Name c with
    | none => exact ⟨c, List.mem_cons_self _ _, hn⟩
    | some cname =>
      simp only [hn] at h
      split at h
      · obtain ⟨n, hmem, hnone⟩ := ih (i + 1) eg h
        exact ⟨n, List.mem_cons_of_mem _ hmem, hnone⟩
      · rcases hg : eg.Go (applyPcsTask s opts i c) with ⟨_ | err, eg2⟩
        · rw [hg] at h
          obtain ⟨n, hmem, hnone⟩ := ih (i + 1) eg2 h
          exact ⟨n, List.mem_cons_of_mem _ hmem, hnone⟩
        · rw [hg] at h
          simp at h

theorem Wait_no_panic (eg : SemaphoredErrGroup Trace) (tr : Trace)
    (hgood : ∀ t ∈ eg.running, Good t) : (eg.Wait tr).1 ≠ .panic := by
  obtain ⟨l, hp, hw⟩ := Wait_eq_runSeq eg tr
  rw [hw]
  exact runSeq_no_panic l tr none (fun t ht => (hgood t (hp.mem_iff.mp ht)).1)

theorem apply_safe (s : Service) (x : Executor) (r : ResourcesForImport) (opts : options)
    (tr : Trace) (hwf : noNilDeref r = true) :
    (apply s x r opts tr).1 ≠ .panic ∧ ∀ t ∈ (apply s x r opts tr).2.2.running, Good t := by
  obtain ⟨w1, w2, w3, w4, w5, w6, w7⟩ := (noNilDeref_iff r).mp hwf
  have named : ∀ (l : List ApplyConfiguration),
      (∀ c ∈ l, (ApplyConfiguration.Name c).isSome = true) →
      ¬ ∃ n ∈ l, ApplyConfiguration.Name n = none := by
    rintro l h ⟨c, hc, hn⟩
    have := h c hc
    rw [hn] at this
    cases this
  have a1 := applyNamespacesFrom_running_items s opts Good r.Namespaces 0
    (NewErrGroupWithSemaphore x)
    (fun j c name _ hn _ => applyNamespacesTask_good s opts _ c (isSome_of_Name hn))
    (running_nil_emits _ _ rfl)
  have p1 := fun h => named _ w1 (applyNamespacesFrom_panic s opts r.Namespaces 0
    (NewErrGroupWithSemaphore x) h)
  unfold apply
  simp only [applyNamespaces, applyPcs, applyStorageClasses, applyPvcs, applyNodes, applyPods,
    applyPvs]
  rcases h1 : applyNamespacesFrom s opts 0 r.Namespaces (NewErrGroupWithSemaphore x)
    with ⟨res, eg1⟩
  rw [h1] at a1 p1
  cases res with
  | error err => exact ⟨by simp, a1⟩
  | panic => exact absurd rfl p1
  | ok =>
  simp only
  have n1 := Wait_no_panic eg1 tr a1
  have r1 := Wait_running eg1 tr
  rcases h2 : eg1.Wait tr with ⟨res, tr1, eg2⟩
  rw [h2] at n1 r1
  simp only at n1 r1
  have g2 : ∀ t ∈ eg2.running, Good t := running_nil_emits _ _ r1
  cases res with
  | error err => exact ⟨by simp, g2⟩
  | panic => exact absurd rfl n1
  | ok =>
  simp only
  have a2 := applyPcsFrom_running_items s opts Good r.PriorityClasses 0 eg2
    (fun j c name _ hn _ => applyPcsTask_good s opts _ c (isSome_of_Name hn)) g2
  have p2 := fun h => named _ w2 (applyPcsFrom_panic s opts r.PriorityClasses 0 eg2 h)
  rcases h3 : applyPcsFrom s opts 0 r.PriorityClasses eg2 with ⟨res, eg3⟩
  rw [h3] at a2 p2
  cases res with
  | error err => exact ⟨by simp, a2⟩
  | panic => exact absurd rfl p2
  | ok =>
  simp only
  have a3 := applyStorageClassesFrom_running_items s opts Good r.StorageClasses 0 eg3
    (fun j c hj => applyStorageClassesTask_good s opts _ c (w3 c (List.getElem?_mem hj))) a2
  have p3 := applyStorageClassesFrom_ne_panic s opts r.StorageClasses 0 eg3
  rcases h4 : applyStorageClassesFrom s opts 0 r.StorageClasses eg3 with ⟨res, eg4⟩
  rw [h4] at a3 p3
  cases res with
  | error err => exact ⟨by simp, a3⟩
  | panic => exact absurd rfl p3
  | ok =>
  simp only
  have a4 := applyPvcsFrom_running_items s opts Good r.Pvcs 0 eg4
    (fun j c hj => applyPvcsTask_good s opts _ c (w4 c (List.getElem?_mem hj))) a3
  have p4 := applyPvcsFrom_ne_panic s opts r.Pvcs 0 eg4
  rcases h5 : applyPvcsFrom s opts 0 r.Pvcs eg4 with ⟨res, eg5⟩
  rw [h5] at a4 p4
  cases res with
  | error err => exact ⟨by simp, a4⟩
  | panic => exact absurd rfl p4
  | ok =>
  simp only
  have a5 := applyNodesFrom_running_items s opts Good r.Nodes 0 eg5
    (fun j c hj => applyNodesTask_good s opts _ c (w5 c (List.getElem?_mem hj))) a4
  have p5 := applyNodesFrom_ne_panic s opts r.Nodes 0 eg5
  rcases h6 : applyNodesFrom s opts 0 r.Nodes eg5 with ⟨res, eg6⟩
  rw [h6] at a5 p5
  cases res with
  | error err => exact ⟨by simp, a5⟩
  | panic => exact absurd rfl p5
  | ok =>
  simp only
  have a6 := applyPodsFrom_running_items s opts Good r.Pods 0 eg6
    (fun j c hj => applyPodsTask_good s opts _ c (w6 c (List.getElem?_mem hj))) a5
  have p6 := applyPodsFrom_ne_panic s opts r.Pods 0 eg6
  rcases h7 : applyPodsFrom s opts 0 r.Pods eg6 with ⟨res, eg7⟩
  rw [h7] at a6 p6
  cases res with
  | error err => exact ⟨by simp, a6⟩
  | panic => exact absurd rfl p6
  | ok =>
  simp only
  have n2 := Wait_no_panic eg7 tr1 a6
  have r2 := Wait_running eg7 tr1
  rcases h8 : eg7.Wait tr1 with ⟨res, tr2, eg8⟩
  rw [h8] at n2 r2
  simp only at n2 r2
  have g8 : ∀ t ∈ eg8.running, Good t := running_nil_emits _ _ r2
  cases res with
  | error err => exact ⟨by simp, g8⟩
  | panic => exact absurd rfl n2
  | ok =>
  simp only
  have a9 := applyPvsFrom_running_items s opts Good r.Pvs 0 eg8
    (fun j c hj => applyPvsTask_good s opts _ c (w7 c (List.getElem?_mem hj)).1
      (w7 c (List.getElem?_mem hj)).2) g8
  have p9 := applyPvsFrom_ne_panic s opts r.Pvs 0 eg8
  rcases h9 : applyPvsFrom s opts 0 r.Pvs eg8 with ⟨res, eg9⟩
  rw [h9] at a9 p9
  cases res with
  | error err => exact ⟨by simp, a9⟩
  | panic => exact absurd rfl p9
  | ok =>
  simp only
  have n3 := Wait_no_panic eg9 tr2 a9
  have r3 := Wait_running eg9 tr2
  rcases h10 : eg9.Wait tr2 with ⟨res, tr3, eg10⟩
  rw [h10] at n3 r3
  simp only at n3 r3
  have g10 : ∀ t ∈ eg10.running, Good t := running_nil_emits _ _ r3
  cases res with
  | error err => exact ⟨by simp, g10⟩
  | panic => exact absurd rfl n3
  | ok => exact ⟨by simp, g10⟩

/-- C27: for every ImportSnapshot in which no item makes a closure or a loop
dereference nil (namespaces and priority classes have a name, storage classes
and nodes have metadata, claims and pods have a namespace, volumes have
metadata and, when their phase is "Bound", a claim reference with a name and
a namespace), whatever the ports answer, whichever tasks are dispatched and in
whatever order they complete, Import does not panic, and no closure of any
item panics, whenever it runs. -/
theorem import_dereferences_no_nil (s : Service) (x : Executor) (r : ResourcesForImport)
    (opts : List ServiceOption) (hwf : noNilDeref r = true) :
    (Import s x r opts).1 ≠ .panic ∧
    (∀ c ∈ r.Namespaces, ∀ j tr,
      (applyNamespacesTask s (applyOptions opts) j c tr).2 ≠ .panic) ∧
    (∀ c ∈ r.PriorityClasses, ∀ j tr,
      (applyPcsTask s (applyOptions opts) j c tr).2 ≠ .panic) ∧
    (∀ c ∈ r.StorageClasses, ∀ j tr,
      (applyStorageClassesTask s (applyOptions opts) j c tr).2 ≠ .panic) ∧
    (∀ c ∈ r.Pvcs, ∀ j tr, (applyPvcsTask s (applyOptions opts) j c tr).2 ≠ .panic) ∧
    (∀ c ∈ r.Nodes, ∀ j tr, (applyNodesTask s (applyOptions opts) j c tr).2 ≠ .panic) ∧
    (∀ c ∈ r.Pods, ∀ j tr, (applyPodsTask s (applyOptions opts) j c tr).2 ≠ .panic) ∧
    (∀ c ∈ r.Pvs, ∀ j tr, (applyPvsTask s (applyOptions opts) j c tr).2 ≠ .panic) := by
  obtain ⟨w1, w2, w3, w4, w5, w6, w7⟩ := (noNilDeref_iff r).mp hwf
  refine ⟨?_, ?_, ?_, ?_, ?_, ?_, ?_, ?_⟩
  · rw [Import_eq]
    have hr := (restart_phase s r (applyOptions opts)).1
    rcases h : restart s r (applyOptions opts) with ⟨res, tr⟩
    rw [h] at hr
    cases res with
    | error err => simp
    | panic => exact absurd rfl hr
    | ok =>
      simp only
      have ha := (apply_safe s x r (applyOptions opts) tr hwf).1
      rcases h1 : apply s x r (applyOptions opts) tr with ⟨res, tr1, eg⟩
      rw [h1] at ha
      cases res with
      | error err => simp
      | panic => exact absurd rfl ha
      | ok => simp
  · exact fun c hc j tr => (applyNamespacesTask_good s _ j c (isSome_Name_meta (w1 c hc))).1 tr
  · exact fun c hc j tr => (applyPcsTask_good s _ j c (isSome_Name_meta (w2 c hc))).1 tr
  · exact fun c hc j tr => (applyStorageClassesTask_good s _ j c (w3 c hc)).1 tr
  · exact fun c hc j tr => (applyPvcsTask_good s _ j c (w4 c hc)).1 tr
  · exact fun c hc j tr => (applyNodesTask_good s _ j c (w5 c hc)).1 tr
  · exact fun c hc j tr => (applyPodsTask_good s _ j c (w6 c hc)).1 tr
  · exact fun c hc j tr => (applyPvsTask_good s _ j c (w7 c hc).1 (w7 c hc).2).1 tr

theorem import_dereferences_no_nil_witness :
    (Import quietService inOrder
        { sampleImport with
          Namespaces := [{ Kind := none, APIVersion := none,
                           ObjectMetaApplyConfiguration := none, body := "" }] } []).1
        = .panic ∧
      noNilDeref sampleImport = true ∧
      (Import quietService inOrder sampleImport []).1 ≠ .panic :=
  ⟨by decide, by decide,
    (import_dereferences_no_nil quietService inOrder sampleImport [] (by decide)).1⟩

end Simulator.Export

/-! # The store of extender results: theorems -/

namespace Simulator.ResultStore

/-! ## Annotations -/

theorem annotate_Namespace (pod : Pod) (ann value : String) :
    (pod.annotate ann value).Namespace = pod.Namespace := by
  unfold Pod.annotate Pod.Namespace SetMetaDataAnnotation
  cases pod.ObjectMeta.Annotations <;> rfl

theorem annotate_Name (pod : Pod) (ann value : String) :
    (pod.annotate ann value).Name = pod.Name := by
  unfold Pod.annotate Pod.Name SetMetaDataAnnotation
  cases pod.ObjectMeta.Annotations <;> rfl

theorem annotated_annotate (pod : Pod) (ann value : String) :
    (pod.annotate ann value).annotated ann = some value := by
  unfold Pod.annotate Pod.annotated SetMetaDataAnnotation
  cases pod.ObjectMeta.Annotations with
  | none => exact AList.lookup_insert _
  | some m => exact AList.lookup_insert _

theorem annotated_annotate_ne (pod : Pod) (ann ann1 value : String) (h : ann1 ≠ ann) :
    (pod.annotate ann value).annotated ann1 = pod.annotated ann1 := by
  unfold Pod.annotate Pod.annotated SetMetaDataAnnotation
  cases pod.ObjectMeta.Annotations with
  | none => exact (AList.lookup_insert_ne h).trans (AList.lookup_empty _)
  | some m => exact AList.lookup_insert_ne h

theorem distinct_iff (keys : AnnotationKeys) :
    keys.Distinct ↔
      (keys.ExtenderFilterResultAnnotationKey ≠ keys.ExtenderPrioritizeResultAnnotationKey ∧
        keys.ExtenderFilterResultAnnotationKey ≠ keys.ExtenderPreemptResultAnnotationKey ∧
        keys.ExtenderFilterResultAnnotationKey ≠ keys.ExtenderBindResultAnnotationKey) ∧
      (keys.ExtenderPrioritizeResultAnnotationKey ≠ keys.ExtenderPreemptResultAnnotationKey ∧
        keys.ExtenderPrioritizeResultAnnotationKey ≠ keys.ExtenderBindResultAnnotationKey) ∧
      keys.ExtenderPreemptResultAnnotationKey ≠ keys.ExtenderBindResultAnnotationKey := by
  unfold AnnotationKeys.Distinct
  simp

theorem annotate_key (pod : Pod) (ann value : String) :
    newKey (pod.annotate ann value).Namespace (pod.annotate ann value).Name
      = newKey pod.Namespace pod.Name := by
  rw [annotate_Name, annotate_Namespace]

/-! ## AddStoredResultToPod -/

theorem addFilterResultToPod_eq (s : store) (json : Json) (keys : AnnotationKeys)
    (pod pod0 : Pod) (d : result)
    (hk : newKey pod.Namespace pod.Name = newKey pod0.Namespace pod0.Name)
    (hd : s.results.lookup (newKey pod0.Namespace pod0.Name) = some d) :
    s.addFilterResultToPod json keys pod
      = some (match json.filter d.filter with
          | .error err => (pod, some (.Errorf "encode Filter results to json: %w" err))
          | .ok results => (pod.annotate keys.ExtenderFilterResultAnnotationKey results, none)) := by
  unfold store.addFilterResultToPod
  simp only
  rw [hk, hd]
  simp only
  cases json.filter d.filter <;> rfl

theorem addPrioritizeResultToPod_eq (s : store) (json : Json) (keys : AnnotationKeys)
    (pod pod0 : Pod) (d : result)
    (hk : newKey pod.Namespace pod.Name = newKey pod0.Namespace pod0.Name)
    (hd : s.results.lookup (newKey pod0.Namespace pod0.Name) = some d) :
    s.addPrioritizeResultToPod json keys pod
      = some (match json.prioritize d.prioritize with
          | .error err => (pod, some (.Errorf "encode Prioritize results to json: %w" err))
          | .ok results => (pod.annotate keys.ExtenderPrioritizeResultAnnotationKey results, none)) := by
  unfold store.addPrioritizeResultToPod
  simp only
  rw [hk, hd]
  simp only
  cases json.prioritize d.prioritize <;> rfl

theorem addPreemptResultToPod_eq (s : store) (json : Json) (keys : AnnotationKeys)
    (pod pod0 : Pod) (d : result)
    (hk : newKey pod.Namespace pod.Name = newKey pod0.Namespace pod0.Name)
    (hd : s.results.lookup (newKey pod0.Namespace pod0.Name) = some d) :
    s.addPreemptResultToPod json keys pod
      = some (match json.preempt d.preempt with
          | .error err => (pod, some (.Errorf "encode Preempt results to json: %w" err))
          | .ok results => (pod.annotate keys.ExtenderPreemptResultAnnotationKey results, none)) := by
  unfold store.addPreemptResultToPod
  simp only
  rw [hk, hd]
  simp only
  cases json.preempt d.preempt <;> rfl

theorem addBindResultToPod_eq (s : store) (json : Json) (keys : AnnotationKeys)
    (pod pod0 : Pod) (d : result)
    (hk : newKey pod.Namespace pod.Name = newKey pod0.Namespace pod0.Name)
    (hd : s.results.lookup (newKey pod0.Namespace pod0.Name) = some d) :
    s.addBindResultToPod json keys pod
      = some (match json.bind d.bind with
          | .error err => (pod, some (.Errorf "encode Bind results to json: %w" err))
          | .ok results => (pod.annotate keys.ExtenderBindResultAnnotationKey results, none)) := by
  unfold store.addBindResultToPod
  simp only
  rw [hk, hd]
  simp only
  cases json.bind d.bind <;> rfl

theorem AddStoredResultToPod_absent (s : store) (json : Json) (keys : AnnotationKeys)
    (pod : Pod) (h : s.results.lookup (newKey pod.Namespace pod.Name) = none) :
    s.AddStoredResultToPod json keys pod = some (pod, []) := by
  simp [store.AddStoredResultToPod, h]

theorem AddStoredResultToPod_filter_error (s : store) (json : Json) (keys : AnnotationKeys)
    (pod : Pod) (d : result) (err : Error)
    (hd : s.results.lookup (newKey pod.Namespace pod.Name) = some d)
    (hf : json.filter d.filter = .error err) :
    s.AddStoredResultToPod json keys pod
      = some (pod, [{ format := "failed to add filtering result to the pod: %+v"
                      err := .Errorf "encode Filter results to json: %w" err }]) := by
  unfold store.AddStoredResultToPod
  simp only [hd]
  rw [addFilterResultToPod_eq s json keys pod pod d rfl hd, hf]

theorem AddStoredResultToPod_prioritize_error (s : store) (json : Json)
    (keys : AnnotationKeys) (pod : Pod) (d : result) (f : String) (err : Error)
    (hd : s.results.lookup (newKey pod.Namespace pod.Name) = some d)
    (hf : json.filter d.filter = .ok f) (hp : json.prioritize d.prioritize = .error err) :
    s.AddStoredResultToPod json keys pod
      = some (pod.annotate keys.ExtenderFilterResultAnnotationKey f,
          [{ format := "failed to add prioritize result to the pod: %+v"
             err := .Errorf "encode Prioritize results to json: %w" err }]) := by
  unfold store.AddStoredResultToPod
  simp only [hd]
  rw [addFilterResultToPod_eq s json keys pod pod d rfl hd, hf]
  simp only
  rw [addPrioritizeResultToPod_eq s json keys _ pod d (by simp only [annotate_key]) hd, hp]

theorem AddStoredResultToPod_preempt_error (s : store) (json : Json) (keys : AnnotationKeys)
    (pod : Pod) (d : result) (f p : String) (err : Error)
    (hd : s.results.lookup (newKey pod.Namespace pod.Name) = some d)
    (hf : json.filter d.filter = .ok f) (hp : json.prioritize d.prioritize = .ok p)
    (hq : json.preempt d.preempt = .error err) :
    s.AddStoredResultToPod json keys pod
      = some ((pod.annotate keys.ExtenderFilterResultAnnotationKey f).annotate
            keys.ExtenderPrioritizeResultAnnotationKey p,
          [{ format := "failed to add preempt result to the pod: %+v"
             err := .Errorf "encode Preempt results to json: %w" err }]) := by
  unfold store.AddStoredResultToPod
  simp only [hd]
  rw [addFilterResultToPod_eq s json keys pod pod d rfl hd, hf]
  simp only
  rw [addPrioritizeResultToPod_eq s json keys _ pod d (by simp only [annotate_key]) hd, hp]
  simp only
  rw [addPreemptResultToPod_eq s json keys _ pod d (by simp only [annotate_key]) hd, hq]

theorem AddStoredResultToPod_bind_error (s : store) (json : Json) (keys : AnnotationKeys)
    (pod : Pod) (d : result) (f p q : String) (err : Error)
    (hd : s.results.lookup (newKey pod.Namespace pod.Name) = some d)
    (hf : json.filter d.filter = .ok f) (hp : json.prioritize d.prioritize = .ok p)
    (hq : json.preempt d.preempt = .ok q) (hb : json.bind d.bind = .error err) :
    s.AddStoredResultToPod json keys pod
      = some (((pod.annotate keys.ExtenderFilterResultAnnotationKey f).annotate
            keys.ExtenderPrioritizeResultAnnotationKey p).annotate
            keys.ExtenderPreemptResultAnnotationKey q,
          [{ format := "failed to add bind result to the pod: $+v"
             err := .Errorf "encode Bind results to json: %w" err }]) := by
  unfold store.AddStoredResultToPod
  simp only [hd]
  rw [addFilterResultToPod_eq s json keys pod pod d rfl hd, hf]
  simp only
  rw [addPrioritizeResultToPod_eq s json keys _ pod d (by simp only [annotate_key]) hd, hp]
  simp only
  rw [addPreemptResultToPod_eq s json keys _ pod d (by simp only [annotate_key]) hd, hq]
  simp only
  rw [addBindResultToPod_eq s json keys _ pod d (by simp only [annotate_key]) hd, hb]

theorem AddStoredResultToPod_ok (s : store) (json : Json) (keys : AnnotationKeys)
    (pod : Pod) (d : result) (f p q b : String)
    (hd : s.results.lookup (newKey pod.Namespace pod.Name) = some d)
    (hf : json.filter d.filter = .ok f) (hp : json.prioritize d.prioritize = .ok p)
    (hq : json.preempt d.preempt = .ok q) (hb : json.bind d.bind = .ok b) :
    s.AddStoredResultToPod json keys pod
      = some ((((pod.annotate keys.ExtenderFilterResultAnnotationKey f).annotate
            keys.ExtenderPrioritizeResultAnnotationKey p).annotate
            keys.ExtenderPreemptResultAnnotationKey q).annotate
            keys.ExtenderBindResultAnnotationKey b, []) := by
  unfold store.AddStoredResultToPod
  simp only [hd]
  rw [addFilterResultToPod_eq s json keys pod pod d rfl hd, hf]
  simp only
  rw [addPrioritizeResultToPod_eq s json keys _ pod d (by simp only [annotate_key]) hd, hp]
  simp only
  rw [addPreemptResultToPod_eq s json keys _ pod d (by simp only [annotate_key]) hd, hq]
  simp only
  rw [addBindResultToPod_eq s json keys _ pod d (by simp only [annotate_key]) hd, hb]

theorem except_cases {ε α : Type} (x : Except ε α) : (∃ e, x = .error e) ∨ ∃ a, x = .ok a := by
  cases x with
  | error e => exact Or.inl ⟨e, rfl⟩
  | ok a => exact Or.inr ⟨a, rfl⟩

theorem decorated_filter (s : store) (json : Json) (keys : AnnotationKeys) (pod : Pod)
    (d : result) (f : String) (hkeys : keys.Distinct)
    (hd : s.results.lookup (newKey pod.Namespace pod.Name) = some d)
    (hf : json.filter d.filter = .ok f) :
    Decorated s json keys pod keys.ExtenderFilterResultAnnotationKey f := by
  obtain ⟨⟨h12, h13, h14⟩, ⟨h23, h24⟩, h34⟩ := (distinct_iff keys).mp hkeys
  rcases except_cases (json.prioritize d.prioritize) with ⟨e, hp⟩ | ⟨p, hp⟩
  · exact ⟨_, _, AddStoredResultToPod_prioritize_error s json keys pod d f e hd hf hp,
      annotated_annotate _ _ _⟩
  rcases except_cases (json.preempt d.preempt) with ⟨e, hq⟩ | ⟨q, hq⟩
  · refine ⟨_, _, AddStoredResultToPod_preempt_error s json keys pod d f p e hd hf hp hq, ?_⟩
    rw [annotated_annotate_ne _ _ _ _ h12, annotated_annotate]
  rcases except_cases (json.bind d.bind) with ⟨e, hb⟩ | ⟨b, hb⟩
  · refine ⟨_, _, AddStoredResultToPod_bind_error s json keys pod d f p q e hd hf hp hq hb, ?_⟩
    rw [annotated_annotate_ne _ _ _ _ h13, annotated_annotate_ne _ _ _ _ h12,
      annotated_annotate]
  · refine ⟨_, _, AddStoredResultToPod_ok s json keys pod d f p q b hd hf hp hq hb, ?_⟩
    rw [annotated_annotate_ne _ _ _ _ h14, annotated_annotate_ne _ _ _ _ h13,
      annotated_annotate_ne _ _ _ _ h12, annotated_annotate]

theorem decorated_prioritize (s : store) (json : Json) (keys : AnnotationKeys) (pod : Pod)
    (d : result) (f p : String) (hkeys : keys.Distinct)
    (hd : s.results.lookup (newKey pod.Namespace pod.Name) = some d)
    (hf : json.filter d.filter = .ok f) (hp : json.prioritize d.prioritize = .ok p) :
    Decorated s json keys pod keys.ExtenderPrioritizeResultAnnotationKey p := by
  obtain ⟨⟨h12, h13, h14⟩, ⟨h23, h24⟩, h34⟩ := (distinct_iff keys).mp hkeys
  rcases except_cases (json.preempt d.preempt) with ⟨e, hq⟩ | ⟨q, hq⟩
  · exact ⟨_, _, AddStoredResultToPod_preempt_error s json keys pod d f p e hd hf hp hq,
      annotated_annotate _ _ _⟩
  rcases except_cases (json.bind d.bind) with ⟨e, hb⟩ | ⟨b, hb⟩
  · refine ⟨_, _, AddStoredResultToPod_bind_error s json keys pod d f p q e hd hf hp hq hb, ?_⟩
    rw [annotated_annotate_ne _ _ _ _ h23, annotated_annotate]
  · refine ⟨_, _, AddStoredResultToPod_ok s json keys pod d f p q b hd hf hp hq hb, ?_⟩
    rw [annotated_annotate_ne _ _ _ _ h24, annotated_annotate_ne _ _ _ _ h23,
      annotated_annotate]

theorem decorated_preempt (s : store) (json : Json) (keys : AnnotationKeys) (pod : Pod)
    (d : result) (f p q : String) (hkeys : keys.Distinct)
    (hd : s.results.lookup (newKey pod.Namespace pod.Name) = some d)
    (hf : json.filter d.filter = .ok f) (hp : json.prioritize d.prioritize = .ok p)
    (hq : json.preempt d.preempt = .ok q) :
    Decorated s json keys pod keys.ExtenderPreemptResultAnnotationKey q := by
  obtain ⟨⟨h12, h13, h14⟩, ⟨h23, h24⟩, h34⟩ := (distinct_iff keys).mp hkeys
  rcases except_cases (json.bind d.bind) with ⟨e, hb⟩ | ⟨b, hb⟩
  · exact ⟨_, _, AddStoredResultToPod_bind_error s json keys pod d f p q e hd hf hp hq hb,
      annotated_annotate _ _ _⟩
  · refine ⟨_, _, AddStoredResultToPod_ok s json keys pod d f p q b hd hf hp hq hb, ?_⟩
    rw [annotated_annotate_ne _ _ _ _ h34, annotated_annotate]

theorem decorated_bind (s : store) (json : Json) (keys : AnnotationKeys) (pod : Pod)
    (d : result) (f p q b : String)
    (hd : s.results.lookup (newKey pod.Namespace pod.Name) = some d)
    (hf : json.filter d.filter = .ok f) (hp : json.prioritize d.prioritize = .ok p)
    (hq : json.preempt d.preempt = .ok q) (hb : json.bind d.bind = .ok b) :
    Decorated s json keys pod keys.ExtenderBindResultAnnotationKey b :=
  ⟨_, _, AddStoredResultToPod_ok s json keys pod d f p q b hd hf hp hq hb,
    annotated_annotate _ _ _⟩

/-! ## The record operations -/

theorem ensure_update (s : store) (k : key) (f : result → result) :
    (s.ensure k).update k f = some { s with results := s.results.insert k (f (s.recordOf k)) } := by
  unfold store.ensure store.update store.recordOf
  cases h : s.results.lookup k with
  | some d => simp only [h]
  | none =>
    simp only [AList.lookup_insert]
    rw [AList.insert_insert]

theorem record_twice (s : store) (k : key) (f g : result → result) :
    ∃ s1, (s.ensure k).update k f = some s1 ∧
      (s1.ensure k).update k g
        = some { s with results := s.results.insert k (g (f (s.recordOf k))) } := by
  refine ⟨_, ensure_update s k f, ?_⟩
  rw [ensure_update]
  simp only [store.recordOf, AList.lookup_insert]
  rw [AList.insert_insert]

theorem count_key {V : Type} (m : GoMap V) (a : String) (v : V) :
    (m.insert a v).keys.count a = 1 :=
  List.count_eq_one_of_mem (AList.keys_nodup _) (AList.mem_keys.mp ((AList.mem_insert m).mpr (Or.inl rfl)))

theorem erase_absent (m : AList (fun _ : key => result)) (k : key) (h : m.lookup k = none) :
    m.erase k = m := by
  apply AList.ext
  exact List.kerase_of_not_mem_keys (AList.mem_keys.not.mp (AList.lookup_eq_none.mp h))

/-! ## Claims on the store of extender results -/

/-- C17: for every phase (filter, prioritize, preempt, bind), store, pod and
participant A, recording a payload p1 and then a payload p2 for the key of
the pod under A succeeds and leaves the store that recording p2 alone
leaves: the mapping of the phase holds p2 under A, in a single entry for A.
Decorating the pod then attaches the serialization of that mapping as the
annotation of the phase, when the mapping and those of the phases handled
before it can be serialized and the four annotation keys are distinct. -/
theorem record_twice_last_write_wins (s : store) (json : Json) (keys : AnnotationKeys)
    (pod : Pod) (A : String) (hkeys : keys.Distinct) :
    (∀ (args : ExtenderArgs) (pod0 : Pod) (p1 p2 : ExtenderFilterResult),
      args.Pod = some pod0 →
      newKey pod0.Namespace pod0.Name = newKey pod.Namespace pod.Name →
      ∃ s1 s2 d, s.AddFilterResult args p1 A = some s1 ∧
        s1.AddFilterResult args p2 A = some s2 ∧ s.AddFilterResult args p2 A = some s2 ∧
        s2.results.lookup (newKey pod.Namespace pod.Name) = some d ∧
        d.filter.lookup A = some p2 ∧ d.filter.keys.count A = 1 ∧
        ∀ f, json.filter d.filter = .ok f →
          Decorated s2 json keys pod keys.ExtenderFilterResultAnnotationKey f) ∧
    (∀ (args : ExtenderArgs) (pod0 : Pod) (p1 p2 : HostPriorityList),
      args.Pod = some pod0 →
      newKey pod0.Namespace pod0.Name = newKey pod.Namespace pod.Name →
      ∃ s1 s2 d, s.AddPrioritizeResult args p1 A = some s1 ∧
        s1.AddPrioritizeResult args p2 A = some s2 ∧ s.AddPrioritizeResult args p2 A = some s2 ∧
        s2.results.lookup (newKey pod.Namespace pod.Name) = some d ∧
        d.prioritize.lookup A = some p2 ∧ d.prioritize.keys.count A = 1 ∧
        ∀ f p, json.filter d.filter = .ok f →
          json.prioritize d.prioritize = .ok p →
          Decorated s2 json keys pod keys.ExtenderPrioritizeResultAnnotationKey p) ∧
    (∀ (args : ExtenderPreemptionArgs) (pod0 : Pod) (p1 p2 : ExtenderPreemptionResult),
      args.Pod = some pod0 →
      newKey pod0.Namespace pod0.Name = newKey pod.Namespace pod.Name →
      ∃ s1 s2 d, s.AddPreemptResult args p1 A = some s1 ∧
        s1.AddPreemptResult args p2 A = some s2 ∧ s.AddPreemptResult args p2 A = some s2 ∧
        s2.results.lookup (newKey pod.Namespace pod.Name) = some d ∧
        d.preempt.lookup A = some p2 ∧ d.preempt.keys.count A = 1 ∧
        ∀ f p q, json.filter d.filter = .ok f →
          json.prioritize d.prioritize = .ok p →
          json.preempt d.preempt = .ok q →
          Decorated s2 json keys pod keys.ExtenderPreemptResultAnnotationKey q) ∧
    (∀ (args : ExtenderBindingArgs) (p1 p2 : ExtenderBindingResult),
      newKey args.PodNamespace args.PodName = newKey pod.Namespace pod.Name →
      ∃ s1 s2 d, s.AddBindResult args p1 A = some s1 ∧
        s1.AddBindResult args p2 A = some s2 ∧ s.AddBindResult args p2 A = some s2 ∧
        s2.results.lookup (newKey pod.Namespace pod.Name) = some d ∧
        d.bind.lookup A = some p2 ∧ d.bind.keys.count A = 1 ∧
        ∀ f p q b, json.filter d.filter = .ok f →
          json.prioritize d.prioritize = .ok p →
          json.preempt d.preempt = .ok q →
          json.bind d.bind = .ok b →
          Decorated s2 json keys pod keys.ExtenderBindResultAnnotationKey b) := by
  refine ⟨?_, ?_, ?_, ?_⟩
  · intro args pod0 p1 p2 ha hk
    obtain ⟨s1, h1, h2⟩ := record_twice s (newKey pod0.Namespace pod0.Name)
      (fun d => { d with filter := d.filter.insert A p1 })
      (fun d => { d with filter := d.filter.insert A p2 })
    have hd : ({ s with
        results := s.results.insert (newKey pod0.Namespace pod0.Name)
          { s.recordOf (newKey pod0.Namespace pod0.Name) with
            filter := (s.recordOf (newKey pod0.Namespace pod0.Name)).filter.insert A p2 } } : store).results.lookup
        (newKey pod.Namespace pod.Name)
        = some { s.recordOf (newKey pod0.Namespace pod0.Name) with
            filter := (s.recordOf (newKey pod0.Namespace pod0.Name)).filter.insert A p2 } := by
      rw [← hk]
      exact AList.lookup_insert _
    refine ⟨s1, _, _, ?_, ?_, ?_, hd, AList.lookup_insert _, count_key _ _ _, ?_⟩
    · simp only [store.AddFilterResult, ha]
      exact h1
    · simp only [store.AddFilterResult, ha]
      rw [h2]
      simp only
      rw [AList.insert_insert]
    · simp only [store.AddFilterResult, ha]
      exact ensure_update s _ _
    · intro f hf
      exact decorated_filter _ json keys pod _ f hkeys hd hf
  · intro args pod0 p1 p2 ha hk
    obtain ⟨s1, h1, h2⟩ := record_twice s (newKey pod0.Namespace pod0.Name)
      (fun d => { d with prioritize := d.prioritize.insert A p1 })
      (fun d => { d with prioritize := d.prioritize.insert A p2 })
    have hd : ({ s with
        results := s.results.insert (newKey pod0.Namespace pod0.Name)
          { s.recordOf (newKey pod0.Namespace pod0.Name) with
            prioritize := (s.recordOf (newKey pod0.Namespace pod0.Name)).prioritize.insert A p2 } } : store).results.lookup
        (newKey pod.Namespace pod.Name)
        = some { s.recordOf (newKey pod0.Namespace pod0.Name) with
            prioritize := (s.recordOf (newKey pod0.Namespace pod0.Name)).prioritize.insert A p2 } := by
      rw [← hk]
      exact AList.lookup_insert _
    refine ⟨s1, _, _, ?_, ?_, ?_, hd, AList.lookup_insert _, count_key _ _ _, ?_⟩
    · simp only [store.AddPrioritizeResult, ha]
      exact h1
    · simp only [store.AddPrioritizeResult, ha]
      rw [h2]
      simp only
      rw [AList.insert_insert]
    · simp only [store.AddPrioritizeResult, ha]
      exact ensure_update s _ _
    · intro f p hf hp
      exact decorated_prioritize _ json keys pod _ f p hkeys hd hf hp
  · intro args pod0 p1 p2 ha hk
    obtain ⟨s1, h1, h2⟩ := record_twice s (newKey pod0.Namespace pod0.Name)
      (fun d => { d with preempt := d.preempt.insert A p1 })
      (fun d => { d with preempt := d.preempt.insert A p2 })
    have hd : ({ s with
        results := s.results.insert (newKey pod0.Namespace pod0.Name)
          { s.recordOf (newKey pod0.Namespace pod0.Name) with
            preempt := (s.recordOf (newKey pod0.Namespace pod0.Name)).preempt.insert A p2 } } : store).results.lookup
        (newKey pod.Namespace pod.Name)
        = some { s.recordOf (newKey pod0.Namespace pod0.Name) with
            preempt := (s.recordOf (newKey pod0.Namespace pod0.Name)).preempt.insert A p2 } := by
      rw [← hk]
      exact AList.lookup_insert _
    refine ⟨s1, _, _, ?_, ?_, ?_, hd, AList.lookup_insert _, count_key _ _ _, ?_⟩
    · simp only [store.AddPreemptResult, ha]
      exact h1
    · simp only [store.AddPreemptResult, ha]
      rw [h2]
      simp only
      rw [AList.insert_insert]
    · simp only [store.AddPreemptResult, ha]
      exact ensure_update s _ _
    · intro f p q hf hp hq
      exact decorated_preempt _ json keys pod _ f p q hkeys hd hf hp hq
  · intro args p1 p2 hk
    obtain ⟨s1, h1, h2⟩ := record_twice s (newKey args.PodNamespace args.PodName)
      (fun d => { d with bind := d.bind.insert A p1 })
      (fun d => { d with bind := d.bind.insert A p2 })
    have hd : ({ s with
        results := s.results.insert (newKey args.PodNamespace args.PodName)
          { s.recordOf (newKey args.PodNamespace args.PodName) with
            bind := (s.recordOf (newKey args.PodNamespace args.PodName)).bind.insert A p2 } } : store).results.lookup
        (newKey pod.Namespace pod.Name)
        = some { s.recordOf (newKey args.PodNamespace args.PodName) with
            bind := (s.recordOf (newKey args.PodNamespace args.PodName)).bind.insert A p2 } := by
      rw [← hk]
      exact AList.lookup_insert _
    refine ⟨s1, _, _, ?_, ?_, ?_, hd, AList.lookup_insert _, count_key _ _ _, ?_⟩
    · simp only [store.AddBindResult]
      exact h1
    · simp only [store.AddBindResult]
      rw [h2]
      simp only
      rw [AList.insert_insert]
    · simp only [store.AddBindResult]
      exact ensure_update s _ _
    · intro f p q b hf hp hq hb
      exact decorated_bind _ json keys pod _ f p q b hd hf hp hq hb

theorem record_twice_last_write_wins_witness :
    sampleKeys.Distinct ∧
      ∃ s1 s2 d,
        New.AddFilterResult { Pod := some (podOf "team-a" "app"), body := "" }
            { body := "rejected" } "ext-1" = some s1 ∧
        s1.AddFilterResult { Pod := some (podOf "team-a" "app"), body := "" }
            { body := "passed" } "ext-1" = some s2 ∧
        New.AddFilterResult { Pod := some (podOf "team-a" "app"), body := "" }
            { body := "passed" } "ext-1" = some s2 ∧
        s2.results.lookup (newKey (podOf "team-a" "app").Namespace (podOf "team-a" "app").Name)
          = some d ∧
        d.filter.lookup "ext-1" = some { body := "passed" } ∧
        d.filter.keys.count "ext-1" = 1 ∧
        ∀ f, sampleJson.filter d.filter = .ok f →
          Decorated s2 sampleJson sampleKeys (podOf "team-a" "app")
            sampleKeys.ExtenderFilterResultAnnotationKey f :=
  ⟨by decide,
    (record_twice_last_write_wins New sampleJson sampleKeys (podOf "team-a" "app") "ext-1"
      (by decide)).1 { Pod := some (podOf "team-a" "app"), body := "" } (podOf "team-a" "app")
      { body := "rejected" } { body := "passed" } rfl rfl⟩

/-- C18: for every store and every pod for whose key the store holds no
result, AddStoredResultToPod returns the pod unchanged, with no annotation
added, and logs no error. -/
theorem decorate_without_record_is_noop (s : store) (json : Json) (keys : AnnotationKeys)
    (pod : Pod) (h : s.results.lookup (newKey pod.Namespace pod.Name) = none) :
    s.AddStoredResultToPod json keys pod = some (pod, []) :=
  AddStoredResultToPod_absent s json keys pod h

theorem decorate_without_record_is_noop_witness :
    (sampleStore.results.lookup "team-a/app").isSome = true ∧
      sampleStore.AddStoredResultToPod sampleJson sampleKeys (podOf "team-b" "app")
        = some (podOf "team-b" "app", []) :=
  ⟨rfl, decorate_without_record_is_noop sampleStore sampleJson sampleKeys (podOf "team-b" "app")
    rfl⟩

/-- C19, as stated, fails: in a store holding a prioritize result for the pod
and with an encoder that fails on the filter mapping only, AddStoredResultToPod
returns at the filter phase; the prioritize mapping can be serialized, yet
the pod gets no prioritize annotation. -/
theorem decorate_skips_phases_after_failure :
    (∃ d, sampleStore.results.lookup (newKey "team-a" "app") = some d ∧
      filterUnencodable.prioritize d.prioritize = .ok "ext-1:node-1=7") ∧
    ∃ pod1 log,
      sampleStore.AddStoredResultToPod filterUnencodable sampleKeys (podOf "team-a" "app")
        = some (pod1, log) ∧
      pod1.annotated sampleKeys.ExtenderPrioritizeResultAnnotationKey = none :=
  ⟨⟨_, rfl, rfl⟩, _, _, rfl, rfl⟩

/-- C19, amended: AddStoredResultToPod handles the phases in the order filter,
prioritize, preempt, bind and returns at the first phase whose mapping cannot
be serialized: the pod carries the annotations of the phases handled before
it, and neither the annotation of the failing phase nor that of any later
phase is set; the failure is logged, wrapped, in one line. -/
theorem decorate_stops_at_first_unencodable_phase (s : store) (json : Json)
    (keys : AnnotationKeys) (pod : Pod) (d : result)
    (hd : s.results.lookup (newKey pod.Namespace pod.Name) = some d) :
    (∀ err, json.filter d.filter = .error err →
      s.AddStoredResultToPod json keys pod
        = some (pod, [{ format := "failed to add filtering result to the pod: %+v"
                        err := .Errorf "encode Filter results to json: %w" err }])) ∧
    (∀ f err, json.filter d.filter = .ok f → json.prioritize d.prioritize = .error err →
      s.AddStoredResultToPod json keys pod
        = some (pod.annotate keys.ExtenderFilterResultAnnotationKey f,
            [{ format := "failed to add prioritize result to the pod: %+v"
               err := .Errorf "encode Prioritize results to json: %w" err }])) ∧
    (∀ f p err, json.filter d.filter = .ok f → json.prioritize d.prioritize = .ok p →
      json.preempt d.preempt = .error err →
      s.AddStoredResultToPod json keys pod
        = some ((pod.annotate keys.ExtenderFilterResultAnnotationKey f).annotate
              keys.ExtenderPrioritizeResultAnnotationKey p,
            [{ format := "failed to add preempt result to the pod: %+v"
               err := .Errorf "encode Preempt results to json: %w" err }])) ∧
    (∀ f p q err, json.filter d.filter = .ok f → json.prioritize d.prioritize = .ok p →
      json.preempt d.preempt = .ok q → json.bind d.bind = .error err →
      s.AddStoredResultToPod json keys pod
        = some (((pod.annotate keys.ExtenderFilterResultAnnotationKey f).annotate
              keys.ExtenderPrioritizeResultAnnotationKey p).annotate
              keys.ExtenderPreemptResultAnnotationKey q,
            [{ format := "failed to add bind result to the pod: $+v"
               err := .Errorf "encode Bind results to json: %w" err }])) :=
  ⟨fun err hf => AddStoredResultToPod_filter_error s json keys pod d err hd hf,
    fun f err hf hp => AddStoredResultToPod_prioritize_error s json keys pod d f err hd hf hp,
    fun f p err hf hp hq =>
      AddStoredResultToPod_preempt_error s json keys pod d f p err hd hf hp hq,
    fun f p q err hf hp hq hb =>
      AddStoredResultToPod_bind_error s json keys pod d f p q err hd hf hp hq hb⟩

theorem decorate_stops_at_first_unencodable_phase_witness :
    sampleStore.AddStoredResultToPod filterUnencodable sampleKeys (podOf "team-a" "app")
      = some (podOf "team-a" "app",
          [{ format := "failed to add filtering result to the pod: %+v"
             err := .Errorf "encode Filter results to json: %w"
               (.encoding "unsupported value") }]) :=
  (decorate_stops_at_first_unencodable_phase sampleStore filterUnencodable sampleKeys
    (podOf "team-a" "app") _ rfl).1 (.encoding "unsupported value") rfl

/-- C20: for every store and pod, after DeleteData(pod) the store holds no
result for the key of the pod, so that AddStoredResultToPod then returns
every pod of that key unchanged and logs nothing; the result of every other
key and the weights are unchanged, and when the store held no result for
the key the store is unchanged. -/
theorem delete_removes_record (s : store) (json : Json) (keys : AnnotationKeys) (pod : Pod) :
    (s.DeleteData pod).results.lookup (newKey pod.Namespace pod.Name) = none ∧
    (∀ pod1, newKey pod1.Namespace pod1.Name = newKey pod.Namespace pod.Name →
      (s.DeleteData pod).AddStoredResultToPod json keys pod1 = some (pod1, [])) ∧
    (∀ k, k ≠ newKey pod.Namespace pod.Name →
      (s.DeleteData pod).results.lookup k = s.results.lookup k) ∧
    (s.DeleteData pod).weight = s.weight ∧
    (s.results.lookup (newKey pod.Namespace pod.Name) = none → s.DeleteData pod = s) := by
  have h0 : (s.DeleteData pod).results.lookup (newKey pod.Namespace pod.Name) = none :=
    AList.lookup_erase _ _
  refine ⟨h0, ?_, ?_, rfl, ?_⟩
  · intro pod1 hk
    exact AddStoredResultToPod_absent _ json keys pod1 (by rw [hk]; exact h0)
  · intro k hk
    exact AList.lookup_erase_ne hk
  · intro h
    unfold store.DeleteData store.deleteData
    rw [erase_absent _ _ h]

theorem delete_removes_record_witness :
    (sampleStore.results.lookup "team-a/app").isSome = true ∧
      (sampleStore.DeleteData (podOf "team-a" "app")).results.lookup "team-a/app" = none ∧
      (sampleStore.DeleteData (podOf "team-a" "app")).AddStoredResultToPod sampleJson
          sampleKeys (podOf "team-a" "app") = some (podOf "team-a" "app", []) ∧
      (sampleStore.DeleteData (podOf "team-b" "app")).results.lookup "team-a/app"
        = sampleStore.results.lookup "team-a/app" ∧
      sampleStore.DeleteData (podOf "team-b" "app") = sampleStore :=
  have h := delete_removes_record sampleStore sampleJson sampleKeys (podOf "team-a" "app")
  have h1 := delete_removes_record sampleStore sampleJson sampleKeys (podOf "team-b" "app")
  ⟨rfl, h.1, h.2.1 _ rfl, h1.2.2.1 "team-a/app" (by decide), h1.2.2.2.2 rfl⟩

/-! ## The key of a pod -/

theorem append_cons_left {α : Type} (c : α) :
    ∀ (l1 l2 r1 r2 : List α), c ∉ l1 → c ∉ l2 → l1 ++ c :: r1 = l2 ++ c :: r2 →
      l1 = l2 ∧ r1 = r2 := by
  intro l1
  induction l1 with
  | nil =>
    intro l2 r1 r2 _ h2 h
    cases l2 with
    | nil => exact ⟨rfl, by simpa using h⟩
    | cons b l2 =>
      simp only [List.nil_append, List.cons_append, List.cons.injEq] at h
      exact absurd (List.mem_cons.mpr (Or.inl h.1)) h2
  | cons a l1 ih =>
    intro l2 r1 r2 h1 h2 h
    cases l2 with
    | nil =>
      simp only [List.nil_append, List.cons_append, List.cons.injEq] at h
      exact absurd (List.mem_cons.mpr (Or.inl h.1.symm)) h1
    | cons b l2 =>
      simp only [List.cons_append, List.cons.injEq] at h
      obtain ⟨e1, e2⟩ := ih l2 r1 r2 (fun hm => h1 (List.mem_cons_of_mem _ hm))
        (fun hm => h2 (List.mem_cons_of_mem _ hm)) h.2
      exact ⟨by rw [h.1, e1], e2⟩

theorem append_cons_right {α : Type} (c : α) (l1 l2 r1 r2 : List α) (h1 : c ∉ r1)
    (h2 : c ∉ r2) (h : l1 ++ c :: r1 = l2 ++ c :: r2) : l1 = l2 ∧ r1 = r2 := by
  have hrev : r1.reverse ++ c :: l1.reverse = r2.reverse ++ c :: l2.reverse := by
    have := congrArg List.reverse h
    simpa using this
  obtain ⟨e1, e2⟩ := append_cons_left c r1.reverse r2.reverse l1.reverse l2.reverse
    (by simpa using h1) (by simpa using h2) hrev
  exact ⟨List.reverse_injective e2, List.reverse_injective e1⟩

theorem newKey_data (namespace_ podName : String) :
    (newKey namespace_ podName).data = namespace_.data ++ '/' :: podName.data := by
  simp [newKey, String.data_append]

theorem newKey_inj (n1 n2 p1 p2 : String)
    (hs : ('/' ∉ n1.data ∧ '/' ∉ n2.data) ∨ ('/' ∉ p1.data ∧ '/' ∉ p2.data))
    (h : newKey n1 p1 = newKey n2 p2) : n1 = n2 ∧ p1 = p2 := by
  have hd : n1.data ++ '/' :: p1.data = n2.data ++ '/' :: p2.data := by
    rw [← newKey_data, ← newKey_data, h]
  rcases hs with ⟨h1, h2⟩ | ⟨h1, h2⟩
  · obtain ⟨e1, e2⟩ := append_cons_left '/' _ _ _ _ h1 h2 hd
    exact ⟨String.ext e1, String.ext e2⟩
  · obtain ⟨e1, e2⟩ := append_cons_right '/' _ _ _ _ h1 h2 hd
    exact ⟨String.ext e1, String.ext e2⟩

/-! ## The frame of a record operation -/

theorem ensure_update_frame (s : store) (k : key) (f : result → result) :
    ∃ s1, (s.ensure k).update k f = some s1 ∧ s1.weight = s.weight ∧
      (∀ k1, k1 ≠ k → s1.results.lookup k1 = s.results.lookup k1) ∧
      s1.results.lookup k = some (f (s.recordOf k)) ∧ s1.recordOf k = f (s.recordOf k) := by
  refine ⟨_, ensure_update s k f, rfl, fun k1 h1 => AList.lookup_insert_ne h1,
    AList.lookup_insert _, ?_⟩
  simp only [store.recordOf, AList.lookup_insert]

theorem AddFilterResult_eq (s : store) (args : ExtenderArgs) (pod : Pod) (res : ExtenderFilterResult)
    (hostName : String) (ha : args.Pod = some pod) :
    s.AddFilterResult args res hostName
      = (s.ensure (newKey pod.Namespace pod.Name)).update (newKey pod.Namespace pod.Name)
          (fun d => { d with filter := d.filter.insert hostName res }) := by
  simp only [store.AddFilterResult, ha]

theorem AddPrioritizeResult_eq (s : store) (args : ExtenderArgs) (pod : Pod) (res : HostPriorityList)
    (hostName : String) (ha : args.Pod = some pod) :
    s.AddPrioritizeResult args res hostName
      = (s.ensure (newKey pod.Namespace pod.Name)).update (newKey pod.Namespace pod.Name)
          (fun d => { d with prioritize := d.prioritize.insert hostName res }) := by
  simp only [store.AddPrioritizeResult, ha]

theorem AddPreemptResult_eq (s : store) (args : ExtenderPreemptionArgs) (pod : Pod) (res : ExtenderPreemptionResult)
    (hostName : String) (ha : args.Pod = some pod) :
    s.AddPreemptResult args res hostName
      = (s.ensure (newKey pod.Namespace pod.Name)).update (newKey pod.Namespace pod.Name)
          (fun d => { d with preempt := d.preempt.insert hostName res }) := by
  simp only [store.AddPreemptResult, ha]

theorem AddBindResult_eq (s : store) (args : ExtenderBindingArgs) (res : ExtenderBindingResult) (hostName : String) :
    s.AddBindResult args res hostName
      = (s.ensure (newKey args.PodNamespace args.PodName)).update
          (newKey args.PodNamespace args.PodName)
          (fun d => { d with bind := d.bind.insert hostName res }) := rfl

/-! ## Claims on the key and on the frame of the operations -/

/-- C21, as stated, fails: the pairs ("a/b", "c") and ("a", "b/c") are two
distinct (namespace, podName) pairs with the same key, and a filter result
recorded for the first is attached to a pod of the second. -/
theorem newKey_merges_distinct_pairs :
    newKey "a/b" "c" = newKey "a" "b/c" ∧ ("a/b", "c") ≠ ("a", "b/c") ∧
    ∃ s1, New.AddFilterResult { Pod := some (podOf "a/b" "c"), body := "" }
        { body := "rejected" } "ext-1" = some s1 ∧
      ∃ pod1 log, s1.AddStoredResultToPod sampleJson sampleKeys (podOf "a" "b/c")
          = some (pod1, log) ∧
        pod1.annotated sampleKeys.ExtenderFilterResultAnnotationKey = some "ext-1:rejected" :=
  ⟨by decide, by decide, _, rfl, _, _, rfl, rfl⟩

/-- C21, amended: when neither namespace contains "/", or neither pod name
does, newKey(n1, p1) = newKey(n2, p2) only if n1 = n2 and p1 = p2, so that
the records of two distinct such pairs are never merged: a record operation
for the pod (n1, p1) leaves the result stored for (n2, p2) as it was. -/
theorem newKey_identifies_pod (n1 n2 p1 p2 : String)
    (hs : ('/' ∉ n1.data ∧ '/' ∉ n2.data) ∨ ('/' ∉ p1.data ∧ '/' ∉ p2.data)) :
    (newKey n1 p1 = newKey n2 p2 → n1 = n2 ∧ p1 = p2) ∧
    ((n1, p1) ≠ (n2, p2) → ∀ s : store,
      (∀ (args : ExtenderArgs) (pod : Pod) (res : ExtenderFilterResult) (h : String) (s1 : store),
        args.Pod = some pod → pod.Namespace = n1 → pod.Name = p1 →
        s.AddFilterResult args res h = some s1 →
        s1.results.lookup (newKey n2 p2) = s.results.lookup (newKey n2 p2)) ∧
      (∀ (args : ExtenderArgs) (pod : Pod) (res : HostPriorityList) (h : String) (s1 : store),
        args.Pod = some pod → pod.Namespace = n1 → pod.Name = p1 →
        s.AddPrioritizeResult args res h = some s1 →
        s1.results.lookup (newKey n2 p2) = s.results.lookup (newKey n2 p2)) ∧
      (∀ (args : ExtenderPreemptionArgs) (pod : Pod) (res : ExtenderPreemptionResult) (h : String) (s1 : store),
        args.Pod = some pod → pod.Namespace = n1 → pod.Name = p1 →
        s.AddPreemptResult args res h = some s1 →
        s1.results.lookup (newKey n2 p2) = s.results.lookup (newKey n2 p2)) ∧
      (∀ (args : ExtenderBindingArgs) (res : ExtenderBindingResult) (h : String) (s1 : store),
        args.PodNamespace = n1 → args.PodName = p1 → s.AddBindResult args res h = some s1 →
        s1.results.lookup (newKey n2 p2) = s.results.lookup (newKey n2 p2))) := by
  refine ⟨newKey_inj n1 n2 p1 p2 hs, fun hpair s => ?_⟩
  have hne : newKey n2 p2 ≠ newKey n1 p1 := by
    intro h
    obtain ⟨e1, e2⟩ := newKey_inj n2 n1 p2 p1
      (hs.imp (fun h => ⟨h.2, h.1⟩) (fun h => ⟨h.2, h.1⟩)) h
    exact hpair (by rw [e1, e2])
  refine ⟨?_, ?_, ?_, ?_⟩
  · intro args pod res h s1 ha hn hp hs1
    rw [AddFilterResult_eq s args pod res h ha, hn, hp] at hs1
    obtain ⟨s2, e, _, hframe, _⟩ := ensure_update_frame s (newKey n1 p1)
      (fun d => { d with filter := d.filter.insert h res })
    rw [e] at hs1
    cases hs1
    exact hframe _ hne
  · intro args pod res h s1 ha hn hp hs1
    rw [AddPrioritizeResult_eq s args pod res h ha, hn, hp] at hs1
    obtain ⟨s2, e, _, hframe, _⟩ := ensure_update_frame s (newKey n1 p1)
      (fun d => { d with prioritize := d.prioritize.insert h res })
    rw [e] at hs1
    cases hs1
    exact hframe _ hne
  · intro args pod res h s1 ha hn hp hs1
    rw [AddPreemptResult_eq s args pod res h ha, hn, hp] at hs1
    obtain ⟨s2, e, _, hframe, _⟩ := ensure_update_frame s (newKey n1 p1)
      (fun d => { d with preempt := d.preempt.insert h res })
    rw [e] at hs1
    cases hs1
    exact hframe _ hne
  · intro args res h s1 hn hp hs1
    rw [AddBindResult_eq, hn, hp] at hs1
    obtain ⟨s2, e, _, hframe, _⟩ := ensure_update_frame s (newKey n1 p1)
      (fun d => { d with bind := d.bind.insert h res })
    rw [e] at hs1
    cases hs1
    exact hframe _ hne

theorem newKey_identifies_pod_witness :
    ("team-b", "app") ≠ ("team-a", "app") ∧
      ∃ s1, sampleStore.AddFilterResult { Pod := some (podOf "team-b" "app"), body := "" }
          { body := "rejected" } "ext-1" = some s1 ∧
        s1.results.lookup (newKey "team-a" "app")
          = sampleStore.results.lookup (newKey "team-a" "app") :=
  ⟨by decide, _, rfl,
    ((newKey_identifies_pod "team-b" "team-a" "app" "app"
        (Or.inl ⟨by decide, by decide⟩)).2 (by decide) sampleStore).1
      { Pod := some (podOf "team-b" "app"), body := "" } (podOf "team-b" "app")
      { body := "rejected" } "ext-1" _ rfl rfl rfl rfl⟩

/-- C26: for all namespaces n1, n2 that contain no "/" character and all pod
names p1, p2, newKey(n1, p1) = newKey(n2, p2) implies n1 = n2 and p1 = p2. -/
theorem newKey_injective_without_slash (n1 n2 p1 p2 : String) (h1 : '/' ∉ n1.data)
    (h2 : '/' ∉ n2.data) (h : newKey n1 p1 = newKey n2 p2) : n1 = n2 ∧ p1 = p2 :=
  newKey_inj n1 n2 p1 p2 (Or.inl ⟨h1, h2⟩) h

theorem newKey_injective_without_slash_witness :
    newKey "team-a" "web/1" = "team-a/web/1" ∧ ("team-a" = "team-a" ∧ "web/1" = "web/1") :=
  ⟨by decide,
    newKey_injective_without_slash "team-a" "team-a" "web/1" "web/1" (by decide) (by decide)
      rfl⟩

/-- C24: a record operation changes only its own cell. AddFilterResult for the
key k of a pod and the participant h succeeds and leaves unchanged the
weights, the result stored for every other key, the prioritize, preempt and
bind mappings of k and the filter entry of k for every participant other than
h, and the filter entry of h is the payload recorded; likewise for
AddPrioritizeResult, AddPreemptResult and AddBindResult. The mappings of a
key without a stored result are the empty ones. -/
theorem record_changes_only_its_cell (s : store) :
    (∀ (args : ExtenderArgs) (pod : Pod) (res : ExtenderFilterResult) (h : String),
      args.Pod = some pod →
      ∃ s1, s.AddFilterResult args res h = some s1 ∧ s1.weight = s.weight ∧
        (∀ k, k ≠ newKey pod.Namespace pod.Name → s1.results.lookup k = s.results.lookup k) ∧
        (s1.recordOf (newKey pod.Namespace pod.Name)).prioritize = (s.recordOf (newKey pod.Namespace pod.Name)).prioritize ∧
        (s1.recordOf (newKey pod.Namespace pod.Name)).preempt = (s.recordOf (newKey pod.Namespace pod.Name)).preempt ∧
        (s1.recordOf (newKey pod.Namespace pod.Name)).bind = (s.recordOf (newKey pod.Namespace pod.Name)).bind ∧
        (∀ h1, h1 ≠ h →
          (s1.recordOf (newKey pod.Namespace pod.Name)).filter.lookup h1
            = (s.recordOf (newKey pod.Namespace pod.Name)).filter.lookup h1) ∧
        (s1.recordOf (newKey pod.Namespace pod.Name)).filter.lookup h = some res) ∧
    (∀ (args : ExtenderArgs) (pod : Pod) (res : HostPriorityList) (h : String),
      args.Pod = some pod →
      ∃ s1, s.AddPrioritizeResult args res h = some s1 ∧ s1.weight = s.weight ∧
        (∀ k, k ≠ newKey pod.Namespace pod.Name → s1.results.lookup k = s.results.lookup k) ∧
        (s1.recordOf (newKey pod.Namespace pod.Name)).filter = (s.recordOf (newKey pod.Namespace pod.Name)).filter ∧
        (s1.recordOf (newKey pod.Namespace pod.Name)).preempt = (s.recordOf (newKey pod.Namespace pod.Name)).preempt ∧
        (s1.recordOf (newKey pod.Namespace pod.Name)).bind = (s.recordOf (newKey pod.Namespace pod.Name)).bind ∧
        (∀ h1, h1 ≠ h →
          (s1.recordOf (newKey pod.Namespace pod.Name)).prioritize.lookup h1
            = (s.recordOf (newKey pod.Namespace pod.Name)).prioritize.lookup h1) ∧
        (s1.recordOf (newKey pod.Namespace pod.Name)).prioritize.lookup h = some res) ∧
    (∀ (args : ExtenderPreemptionArgs) (pod : Pod) (res : ExtenderPreemptionResult) (h : String),
      args.Pod = some pod →
      ∃ s1, s.AddPreemptResult args res h = some s1 ∧ s1.weight = s.weight ∧
        (∀ k, k ≠ newKey pod.Namespace pod.Name → s1.results.lookup k = s.results.lookup k) ∧
        (s1.recordOf (newKey pod.Namespace pod.Name)).filter = (s.recordOf (newKey pod.Namespace pod.Name)).filter ∧
        (s1.recordOf (newKey pod.Namespace pod.Name)).prioritize = (s.recordOf (newKey pod.Namespace pod.Name)).prioritize ∧
        (s1.recordOf (newKey pod.Namespace pod.Name)).bind = (s.recordOf (newKey pod.Namespace pod.Name)).bind ∧
        (∀ h1, h1 ≠ h →
          (s1.recordOf (newKey pod.Namespace pod.Name)).preempt.lookup h1
            = (s.recordOf (newKey pod.Namespace pod.Name)).preempt.lookup h1) ∧
        (s1.recordOf (newKey pod.Namespace pod.Name)).preempt.lookup h = some res) ∧
    (∀ (args : ExtenderBindingArgs) (res : ExtenderBindingResult) (h : String),
      ∃ s1, s.AddBindResult args res h = some s1 ∧ s1.weight = s.weight ∧
        (∀ k, k ≠ newKey args.PodNamespace args.PodName → s1.results.lookup k = s.results.lookup k) ∧
        (s1.recordOf (newKey args.PodNamespace args.PodName)).filter = (s.recordOf (newKey args.PodNamespace args.PodName)).filter ∧
        (s1.recordOf (newKey args.PodNamespace args.PodName)).prioritize = (s.recordOf (newKey args.PodNamespace args.PodName)).prioritize ∧
        (s1.recordOf (newKey args.PodNamespace args.PodName)).preempt = (s.recordOf (newKey args.PodNamespace args.PodName)).preempt ∧
        (∀ h1, h1 ≠ h →
          (s1.recordOf (newKey args.PodNamespace args.PodName)).bind.lookup h1
            = (s.recordOf (newKey args.PodNamespace args.PodName)).bind.lookup h1) ∧
        (s1.recordOf (newKey args.PodNamespace args.PodName)).bind.lookup h = some res) := by
  refine ⟨?_, ?_, ?_, ?_⟩
  · intro args pod res h ha
    obtain ⟨s1, e, hw, hframe, _, hrec⟩ := ensure_update_frame s (newKey pod.Namespace pod.Name)
      (fun d => { d with filter := d.filter.insert h res })
    refine ⟨s1, by rw [AddFilterResult_eq s args pod res h ha]; exact e, hw, hframe, ?_, ?_, ?_, ?_, ?_⟩
    · rw [hrec]
    · rw [hrec]
    · rw [hrec]
    · intro h1 hne
      rw [hrec]
      exact AList.lookup_insert_ne hne
    · rw [hrec]
      exact AList.lookup_insert _
  · intro args pod res h ha
    obtain ⟨s1, e, hw, hframe, _, hrec⟩ := ensure_update_frame s (newKey pod.Namespace pod.Name)
      (fun d => { d with prioritize := d.prioritize.insert h res })
    refine ⟨s1, by rw [AddPrioritizeResult_eq s args pod res h ha]; exact e, hw, hframe, ?_, ?_, ?_, ?_, ?_⟩
    · rw [hrec]
    · rw [hrec]
    · rw [hrec]
    · intro h1 hne
      rw [hrec]
      exact AList.lookup_insert_ne hne
    · rw [hrec]
      exact AList.lookup_insert _
  · intro args pod res h ha
    obtain ⟨s1, e, hw, hframe, _, hrec⟩ := ensure_update_frame s (newKey pod.Namespace pod.Name)
      (fun d => { d with preempt := d.preempt.insert h res })
    refine ⟨s1, by rw [AddPreemptResult_eq s args pod res h ha]; exact e, hw, hframe, ?_, ?_, ?_, ?_, ?_⟩
    · rw [hrec]
    · rw [hrec]
    · rw [hrec]
    · intro h1 hne
      rw [hrec]
      exact AList.lookup_insert_ne hne
    · rw [hrec]
      exact AList.lookup_insert _
  · intro args res h
    obtain ⟨s1, e, hw, hframe, _, hrec⟩ := ensure_update_frame s (newKey args.PodNamespace args.PodName)
      (fun d => { d with bind := d.bind.insert h res })
    refine ⟨s1, by rw [AddBindResult_eq s args res h]; exact e, hw, hframe, ?_, ?_, ?_, ?_, ?_⟩
    · rw [hrec]
    · rw [hrec]
    · rw [hrec]
    · intro h1 hne
      rw [hrec]
      exact AList.lookup_insert_ne hne
    · rw [hrec]
      exact AList.lookup_insert _

theorem record_changes_only_its_cell_witness :
    ∃ s1, sampleStore.AddFilterResult { Pod := some (podOf "team-a" "app"), body := "" }
        { body := "rejected" } "ext-1" = some s1 ∧
      (s1.recordOf "team-a/app").prioritize.lookup "ext-1" = some { body := "node-1=7" } ∧
      (s1.recordOf "team-a/app").filter.lookup "ext-1" = some { body := "rejected" } :=
  match (record_changes_only_its_cell sampleStore).1
    { Pod := some (podOf "team-a" "app"), body := "" } (podOf "team-a" "app")
    { body := "rejected" } "ext-1" rfl with
  | ⟨s1, e, _, _, hp, _, _, _, hl⟩ =>
    ⟨s1, e, (congrArg (fun m => AList.lookup "ext-1" m) hp).trans rfl, hl⟩

/-- C25: when the store holds a result for the key of the pod and the four
mappings can be serialized, AddStoredResultToPod sets the four phase
annotations (filter, prioritize, preempt, bind) on the pod and logs nothing,
the four annotation keys being distinct. This holds also for a phase in which
nothing was recorded: after a single AddFilterResult for a key without a
stored result, the prioritize, preempt and bind annotations are the
serializations of the empty mapping. -/
theorem decorate_sets_all_phases (json : Json) (keys : AnnotationKeys) (pod : Pod)
    (hkeys : keys.Distinct) :
    (∀ (s : store) (d : result) (f p q b : String),
      s.results.lookup (newKey pod.Namespace pod.Name) = some d →
      json.filter d.filter = .ok f → json.prioritize d.prioritize = .ok p →
      json.preempt d.preempt = .ok q → json.bind d.bind = .ok b →
      ∃ pod1, s.AddStoredResultToPod json keys pod = some (pod1, []) ∧
        pod1.annotated keys.ExtenderFilterResultAnnotationKey = some f ∧
        pod1.annotated keys.ExtenderPrioritizeResultAnnotationKey = some p ∧
        pod1.annotated keys.ExtenderPreemptResultAnnotationKey = some q ∧
        pod1.annotated keys.ExtenderBindResultAnnotationKey = some b) ∧
    (∀ (s : store) (args : ExtenderArgs) (pod0 : Pod) (res : ExtenderFilterResult)
      (h f p q b : String),
      args.Pod = some pod0 →
      newKey pod0.Namespace pod0.Name = newKey pod.Namespace pod.Name →
      s.results.lookup (newKey pod.Namespace pod.Name) = none →
      json.filter ((∅ : GoMap ExtenderFilterResult).insert h res) = .ok f →
      json.prioritize ∅ = .ok p → json.preempt ∅ = .ok q → json.bind ∅ = .ok b →
      ∃ s1 pod1, s.AddFilterResult args res h = some s1 ∧
        s1.AddStoredResultToPod json keys pod = some (pod1, []) ∧
        pod1.annotated keys.ExtenderFilterResultAnnotationKey = some f ∧
        pod1.annotated keys.ExtenderPrioritizeResultAnnotationKey = some p ∧
        pod1.annotated keys.ExtenderPreemptResultAnnotationKey = some q ∧
        pod1.annotated keys.ExtenderBindResultAnnotationKey = some b) := by
  obtain ⟨⟨h12, h13, h14⟩, ⟨h23, h24⟩, h34⟩ := (distinct_iff keys).mp hkeys
  have part1 : ∀ (s : store) (d : result) (f p q b : String),
      s.results.lookup (newKey pod.Namespace pod.Name) = some d →
      json.filter d.filter = .ok f → json.prioritize d.prioritize = .ok p →
      json.preempt d.preempt = .ok q → json.bind d.bind = .ok b →
      ∃ pod1, s.AddStoredResultToPod json keys pod = some (pod1, []) ∧
        pod1.annotated keys.ExtenderFilterResultAnnotationKey = some f ∧
        pod1.annotated keys.ExtenderPrioritizeResultAnnotationKey = some p ∧
        pod1.annotated keys.ExtenderPreemptResultAnnotationKey = some q ∧
        pod1.annotated keys.ExtenderBindResultAnnotationKey = some b := by
    intro s d f p q b hd hf hp hq hb
    refine ⟨_, AddStoredResultToPod_ok s json keys pod d f p q b hd hf hp hq hb, ?_, ?_, ?_, ?_⟩
    · rw [annotated_annotate_ne _ _ _ _ h14, annotated_annotate_ne _ _ _ _ h13,
        annotated_annotate_ne _ _ _ _ h12, annotated_annotate]
    · rw [annotated_annotate_ne _ _ _ _ h24, annotated_annotate_ne _ _ _ _ h23,
        annotated_annotate]
    · rw [annotated_annotate_ne _ _ _ _ h34, annotated_annotate]
    · exact annotated_annotate _ _ _
  refine ⟨part1, ?_⟩
  intro s args pod0 res h f p q b ha hk hnone hf hp hq hb
  obtain ⟨s1, e, _, _, hl, _⟩ := ensure_update_frame s (newKey pod0.Namespace pod0.Name)
    (fun d => { d with filter := d.filter.insert h res })
  have hrec : s.recordOf (newKey pod0.Namespace pod0.Name) = newData := by
    rw [hk]
    simp only [store.recordOf, hnone]
  rw [hrec, hk] at hl
  obtain ⟨pod1, h1, h2⟩ := part1 s1 _ f p q b hl hf hp hq hb
  exact ⟨s1, pod1, by rw [AddFilterResult_eq s args pod0 res h ha]; exact e, h1, h2⟩

theorem decorate_sets_all_phases_witness :
    sampleKeys.Distinct ∧
      ∃ pod1, sampleStore.AddStoredResultToPod sampleJson sampleKeys (podOf "team-a" "app")
          = some (pod1, []) ∧
        pod1.annotated sampleKeys.ExtenderFilterResultAnnotationKey = some "" ∧
        pod1.annotated sampleKeys.ExtenderPrioritizeResultAnnotationKey
          = some "ext-1:node-1=7" ∧
        pod1.annotated sampleKeys.ExtenderPreemptResultAnnotationKey = some "" ∧
        pod1.annotated sampleKeys.ExtenderBindResultAnnotationKey = some "" :=
  ⟨by decide,
    (decorate_sets_all_phases sampleJson sampleKeys (podOf "team-a" "app") (by decide)).1
      sampleStore _ "" "ext-1:node-1=7" "" "" rfl rfl rfl rfl rfl⟩

/-! ## Runs of concurrent callers -/

theorem recordOf_frame (s s1 : store) (k : key)
    (h : s1.results.lookup k = s.results.lookup k) : s1.recordOf k = s.recordOf k := by
  simp only [store.recordOf, h]

theorem frame_cell (s s1 : store) (k0 : key) (f : result → result) (ph0 : Phase)
    (h0 : String) (p0 : Payload) (hrec : s1.recordOf k0 = f (s.recordOf k0))
    (hframe : ∀ k1, k1 ≠ k0 → s1.results.lookup k1 = s.results.lookup k1)
    (hwrite : ∀ d ph h, (f d).cell ph h = if ph = ph0 ∧ h = h0 then some p0 else d.cell ph h) :
    ∀ k ph h, s1.cell k ph h
      = if some k0 = some k ∧ ph0 = ph ∧ h0 = h then some p0 else s.cell k ph h := by
  intro k ph h
  unfold store.cell
  by_cases hk : k = k0
  · subst hk
    rw [hrec, hwrite]
    by_cases hc : ph = ph0 ∧ h = h0
    · rw [if_pos hc, if_pos ⟨rfl, hc.1.symm, hc.2.symm⟩]
    · rw [if_neg hc, if_neg (fun hx => hc ⟨hx.2.1.symm, hx.2.2.symm⟩)]
  · rw [recordOf_frame s s1 k (hframe k hk),
      if_neg (fun hx => hk (Option.some.inj hx.1).symm)]

theorem Call.run_cell (s : store) (c : Call) (hk : c.key ≠ none) :
    ∃ s1, c.run s = some s1 ∧
      ∀ k ph h, s1.cell k ph h
        = if c.key = some k ∧ c.phase = ph ∧ c.participant = h then some c.payload
          else s.cell k ph h := by
  cases c with
  | AddFilterResult args res h0 =>
    cases ha : args.Pod with
    | none => simp [Call.key, ha] at hk
    | some pod =>
      obtain ⟨s1, e, _, hframe, _, hrec⟩ := ensure_update_frame s
        (newKey pod.Namespace pod.Name) (fun d => { d with filter := d.filter.insert h0 res })
      refine ⟨s1, by simp only [Call.run, store.AddFilterResult, ha]; exact e, ?_⟩
      simp only [Call.key, ha, Option.map_some', Call.phase, Call.participant, Call.payload]
      refine frame_cell s s1 _ (fun d => { d with filter := d.filter.insert h0 res }) .filter h0
        (.filter res) hrec hframe ?_
      intro d ph h
      cases ph <;> simp only [result.cell, reduceCtorEq, false_and, if_false, true_and]
      by_cases hh : h = h0
      · subst hh
        simp [AList.lookup_insert]
      · simp [AList.lookup_insert_ne hh, hh]
  | AddPrioritizeResult args res h0 =>
    cases ha : args.Pod with
    | none => simp [Call.key, ha] at hk
    | some pod =>
      obtain ⟨s1, e, _, hframe, _, hrec⟩ := ensure_update_frame s
        (newKey pod.Namespace pod.Name)
        (fun d => { d with prioritize := d.prioritize.insert h0 res })
      refine ⟨s1, by simp only [Call.run, store.AddPrioritizeResult, ha]; exact e, ?_⟩
      simp only [Call.key, ha, Option.map_some', Call.phase, Call.participant, Call.payload]
      refine frame_cell s s1 _ (fun d => { d with prioritize := d.prioritize.insert h0 res }) .prioritize h0
        (.prioritize res) hrec hframe ?_
      intro d ph h
      cases ph <;> simp only [result.cell, reduceCtorEq, false_and, if_false, true_and]
      by_cases hh : h = h0
      · subst hh
        simp [AList.lookup_insert]
      · simp [AList.lookup_insert_ne hh, hh]
  | AddPreemptResult args res h0 =>
    cases ha : args.Pod with
    | none => simp [Call.key, ha] at hk
    | some pod =>
      obtain ⟨s1, e, _, hframe, _, hrec⟩ := ensure_update_frame s
        (newKey pod.Namespace pod.Name) (fun d => { d with preempt := d.preempt.insert h0 res })
      refine ⟨s1, by simp only [Call.run, store.AddPreemptResult, ha]; exact e, ?_⟩
      simp only [Call.key, ha, Option.map_some', Call.phase, Call.participant, Call.payload]
      refine frame_cell s s1 _ (fun d => { d with preempt := d.preempt.insert h0 res }) .preempt h0
        (.preempt res) hrec hframe ?_
      intro d ph h
      cases ph <;> simp only [result.cell, reduceCtorEq, false_and, if_false, true_and]
      by_cases hh : h = h0
      · subst hh
        simp [AList.lookup_insert]
      · simp [AList.lookup_insert_ne hh, hh]
  | AddBindResult args res h0 =>
    obtain ⟨s1, e, _, hframe, _, hrec⟩ := ensure_update_frame s
      (newKey args.PodNamespace args.PodName) (fun d => { d with bind := d.bind.insert h0 res })
    refine ⟨s1, by simp only [Call.run, store.AddBindResult]; exact e, ?_⟩
    simp only [Call.key, Call.phase, Call.participant, Call.payload]
    refine frame_cell s s1 _ (fun d => { d with bind := d.bind.insert h0 res }) .bind h0
        (.bind res) hrec hframe ?_
    intro d ph h
    cases ph <;> simp only [result.cell, reduceCtorEq, false_and, if_false, true_and]
    by_cases hh : h = h0
    · subst hh
      simp [AList.lookup_insert]
    · simp [AList.lookup_insert_ne hh, hh]

theorem runCalls_cell :
    ∀ (l : List Call) (s : store), (∀ c ∈ l, c.key ≠ none) →
      ∃ s1, runCalls s l = some s1 ∧
        ∀ k ph h, s1.cell k ph h
          = match lastWrite k ph h l with
            | some p => some p
            | none => s.cell k ph h := by
  intro l
  induction l with
  | nil => intro s _; exact ⟨s, rfl, fun k ph h => rfl⟩
  | cons c l ih =>
    intro s hall
    obtain ⟨s1, e1, h1⟩ := Call.run_cell s c (hall c (List.mem_cons_self _ _))
    obtain ⟨s2, e2, h2⟩ := ih s1 (fun c1 hc1 => hall c1 (List.mem_cons_of_mem _ hc1))
    refine ⟨s2, by simp only [runCalls, e1, e2], fun k ph h => ?_⟩
    rw [h2 k ph h, h1 k ph h]
    simp only [lastWrite]
    cases lastWrite k ph h l with
    | some p => rfl
    | none =>
      simp only
      split <;> rfl

theorem flatten_take_head (c : Call) (rest : List Call) :
    ∀ (callers : List (List Call)) (i : Nat), callers[i]? = some (c :: rest) →
      (c :: (callers.set i rest).flatten).Perm callers.flatten := by
  intro callers
  induction callers with
  | nil => intro i h; simp at h
  | cons q qs ih =>
    intro i h
    cases i with
    | zero =>
      simp only [List.getElem?_cons_zero, Option.some.injEq] at h
      subst h
      simp
    | succ j =>
      simp only [List.getElem?_cons_succ] at h
      simp only [List.set_cons_succ, List.flatten_cons]
      exact List.perm_middle.symm.trans ((ih j h).append_left q)

theorem serialize_perm :
    ∀ (sched : List Nat) (callers : List (List Call)),
      (serialize sched callers).Perm callers.flatten := by
  intro sched
  induction sched with
  | nil => intro callers; exact List.Perm.refl _
  | cons i sched ih =>
    intro callers
    unfold serialize
    cases hq : callers[i]? with
    | none => exact ih callers
    | some q =>
      cases q with
      | nil => exact ih callers
      | cons c rest =>
        exact ((ih (callers.set i rest)).cons c).trans (flatten_take_head c rest callers i hq)

theorem flatten_filter_nil (p : Call → Bool) :
    ∀ (callers : List (List Call)), (∀ q ∈ callers, ∀ c ∈ q, p c = false) →
      callers.flatten.filter p = [] := by
  intro callers h
  rw [List.filter_eq_nil_iff]
  intro c hc
  obtain ⟨q, hq, hcq⟩ := List.mem_flatten.mp hc
  simp [h q hq c hcq]

theorem flatten_filter_single (p : Call → Bool) :
    ∀ (callers : List (List Call)) (i : Nat),
      (∀ j q, j ≠ i → callers[j]? = some q → ∀ c ∈ q, p c = false) →
      callers.flatten.filter p = ((callers[i]?).getD []).filter p := by
  intro callers
  induction callers with
  | nil => intro i _; simp
  | cons q qs ih =>
    intro i h
    cases i with
    | zero =>
      have hrest : qs.flatten.filter p = [] := by
        apply flatten_filter_nil
        intro q1 hq1 c hc
        obtain ⟨j, hj⟩ := List.mem_iff_getElem?.mp hq1
        exact h (j + 1) q1 (by omega) (by simpa using hj) c hc
      simp [List.filter_append, hrest]
    | succ i1 =>
      have hq : q.filter p = [] := by
        rw [List.filter_eq_nil_iff]
        intro c hc
        simp [h 0 q (by omega) (by simp) c hc]
      have := ih i1 (fun j q1 hj hq1 c hc =>
        h (j + 1) q1 (by omega) (by simpa using hq1) c hc)
      simp [List.filter_append, hq, this]

theorem serialize_filter (p : Call → Bool) (i : Nat) :
    ∀ (sched : List Nat) (callers : List (List Call)),
      (∀ j q, j ≠ i → callers[j]? = some q → ∀ c ∈ q, p c = false) →
      (serialize sched callers).filter p = ((callers[i]?).getD []).filter p := by
  intro sched
  induction sched with
  | nil => intro callers h; exact flatten_filter_single p callers i h
  | cons j sched ih =>
    intro callers h
    unfold serialize
    cases hq : callers[j]? with
    | none => exact ih callers h
    | some q =>
      cases q with
      | nil => exact ih callers h
      | cons c rest =>
        simp only
        by_cases hji : j = i
        · subst hji
          have hlt : j < callers.length := by
            by_contra hge
            rw [List.getElem?_eq_none (by omega)] at hq
            cases hq
          have := ih (callers.set j rest) (fun j1 q1 hj1 hq1 c1 hc1 => by
            rw [List.getElem?_set_ne (fun hx => hj1 hx.symm)] at hq1
            exact h j1 q1 hj1 hq1 c1 hc1)
          rw [List.getElem?_set_self hlt] at this
          simp only [hq, Option.getD_some] at this ⊢
          rw [List.filter_cons, List.filter_cons, this]
        · have hc : p c = false := h j (c :: rest) hji hq c (List.mem_cons_self _ _)
          have := ih (callers.set j rest) (fun j1 q1 hj1 hq1 c1 hc1 => by
            by_cases hjj : j1 = j
            · subst hjj
              have hlt : j1 < callers.length := by
                by_contra hge
                rw [List.getElem?_eq_none (by omega)] at hq
                cases hq
              rw [List.getElem?_set_self hlt] at hq1
              cases hq1
              exact h j1 (c :: rest) hj1 hq c1 (List.mem_cons_of_mem _ hc1)
            · rw [List.getElem?_set_ne (fun hx => hjj hx.symm)] at hq1
              exact h j1 q1 hj1 hq1 c1 hc1)
          rw [List.getElem?_set_ne hji] at this
          rw [List.filter_cons, hc]
          simpa using this

theorem lastWrite_filter (k : key) (ph : Phase) (h : String) :
    ∀ l : List Call,
      lastWrite k ph h l = lastWrite k ph h (l.filter (fun c => decide (c.key = some k))) := by
  intro l
  induction l with
  | nil => rfl
  | cons c l ih =>
    by_cases hk : c.key = some k
    · rw [List.filter_cons, if_pos (by simpa using hk)]
      simp only [lastWrite, ← ih]
    · rw [List.filter_cons, if_neg (by simpa using hk), ← ih]
      simp only [lastWrite]
      cases lastWrite k ph h l with
      | some p => rfl
      | none => simp [hk]

/-- C22: under concurrent callers that issue record calls for all four
phases, each public method holding the one mutex from its first to its last
statement, no update is lost. Whatever the order in which the calls acquire
the mutex, no call is dropped or repeated, every call succeeds and, after all
callers have finished, every cell (key, phase, participant) of the store
holds the payload of the last call that wrote it, the cells never written
being unchanged. For a key written by one caller only, as when the callers
write distinct keys, this is the last write of that caller to the cell,
whatever the schedule. The pod pointer of every call is taken as non-nil. -/
theorem concurrent_records_not_lost (s : store) (callers : List (List Call))
    (sched : List Nat) (hpod : ∀ q ∈ callers, ∀ c ∈ q, c.key ≠ none) :
    (serialize sched callers).Perm callers.flatten ∧
    ∃ s1, runCalls s (serialize sched callers) = some s1 ∧
      (∀ k ph h, s1.cell k ph h
        = match lastWrite k ph h (serialize sched callers) with
          | some p => some p
          | none => s.cell k ph h) ∧
      (∀ (i : Nat) (q : List Call) (k : key), callers[i]? = some q →
        (∀ (j : Nat) (q1 : List Call), j ≠ i → callers[j]? = some q1 →
          ∀ c ∈ q1, c.key ≠ some k) →
        ∀ ph h, s1.cell k ph h
          = match lastWrite k ph h q with
            | some p => some p
            | none => s.cell k ph h) := by
  have hperm := serialize_perm sched callers
  have hall : ∀ c ∈ serialize sched callers, c.key ≠ none := by
    intro c hc
    obtain ⟨q, hq, hcq⟩ := List.mem_flatten.mp (hperm.mem_iff.mp hc)
    exact hpod q hq c hcq
  obtain ⟨s1, e, hcell⟩ := runCalls_cell (serialize sched callers) s hall
  refine ⟨hperm, s1, e, hcell, ?_⟩
  intro i q k hq hother ph h
  rw [hcell k ph h, lastWrite_filter k ph h (serialize sched callers),
    serialize_filter (fun c => decide (c.key = some k)) i sched callers
      (fun j q1 hj hq1 c hc => by simpa using hother j q1 hj hq1 c hc),
    hq, Option.getD_some, ← lastWrite_filter]

theorem concurrent_records_not_lost_witness :
    serialize [1, 0] sampleCallers
        = [.AddPrioritizeResult { Pod := some (podOf "team-b" "web"), body := "" }
              { body := "node-1=7" } "ext-1",
            .AddFilterResult { Pod := some (podOf "team-a" "app"), body := "" }
              { body := "rejected" } "ext-1",
            .AddFilterResult { Pod := some (podOf "team-a" "app"), body := "" }
              { body := "passed" } "ext-1"] ∧
      ∃ s1, runCalls New (serialize [1, 0] sampleCallers) = some s1 ∧
        s1.cell "team-a/app" .filter "ext-1" = some (.filter { body := "passed" }) ∧
        s1.cell "team-b/web" .prioritize "ext-1" = some (.prioritize { body := "node-1=7" }) :=
  ⟨rfl,
    match concurrent_records_not_lost New sampleCallers [1, 0] (by decide) with
    | ⟨_, s1, e, hcell, hown⟩ =>
      ⟨s1, e,
        (hown 0 _ "team-a/app" rfl
          (by
            intro j q1 hj hq1 c hc
            rcases j with _ | _ | j
            · exact absurd rfl hj
            · simp only [sampleCallers, List.getElem?_cons_succ, List.getElem?_cons_zero,
                Option.some.injEq] at hq1
              subst hq1
              simp only [List.mem_singleton] at hc
              subst hc
              decide
            · simp [sampleCallers] at hq1)
          .filter "ext-1").trans rfl,
        (hcell "team-b/web" .prioritize "ext-1").trans rfl⟩⟩

end Simulator.ResultStore
